import Mathlib

/-!
# Engines of trng4: a shallow embedding

Embedded from `src/lagfib2plus.hpp`, `src/lagfib2xor.hpp`, `src/lagfib4xor.hpp`,
`src/mrg5s.cc`, `src/lcg64_shift.cc` and, for the distributions, `src/bernoulli_dist.hpp`,
`src/beta_dist.hpp`, `src/student_t_dist.hpp`, `src/normal_dist.hpp` and
`src/generate_canonical.hpp`. The helpers of
`trng/utility.hpp` and the engine `minstd` that these files use are not among the sources;
they are modelled from the specification and marked as such.

* machine words of the template type `integer_type` are natural numbers below `2 ^ w`
  (`w = std::numeric_limits<result_type>::digits`), additions are reduced `% 2 ^ w`;
* `unsigned int` values (the ring index, the taps) are natural numbers below `2 ^ 32`,
  `++` and `-` wrap `% 2 ^ 32`;
* the ring `r[ceil2<B>]` is a list of words, read with `List.getD` and written with `List.set`;
* a uniform integer source `gen` is a transition function on an explicit state type;
* an input stream is the list of characters not yet read together with its fail flag, the
  text written to an output stream is a list of characters;
* floating-point values are exact rational numbers, with the infinities and NaN where the
  code produces or tests them; calls of the mathematical routines stay symbolic.
-/

namespace trng

/-! ## `trng/utility.hpp`: power-of-two helpers -/

namespace utility

/-- Doubling loop behind `ceil2`: starting from `p`, double until `x ≤ p` (at most `fuel` times). -/
def ceil2_loop : Nat → Nat → Nat → Nat
  | 0, p, _ => p
  | fuel + 1, p, x => if x ≤ p then p else ceil2_loop fuel (2 * p) x

/-- Modelled from the spec: `utility::ceil2<x>::result` of `trng/utility.hpp` (not part of the
sources at hand), the compile-time `ceil_pow2(x)`, i.e. `2^⌈log₂ x⌉`, the least power of two
that is at least `x`. -/
def ceil2 (x : Nat) : Nat := ceil2_loop x 1 x

/-- Modelled from the spec: `utility::mask<x>::result` of `trng/utility.hpp` (not part of the
sources at hand), the index mask `ceil_pow2(x) - 1`. -/
def mask (x : Nat) : Nat := ceil2 x - 1

end utility

open utility

/-- Subtraction of two `unsigned int` values: wraps modulo `2 ^ 32`. -/
def sub32 (a b : Nat) : Nat := (a + (2 ^ 32 - b % 2 ^ 32)) % 2 ^ 32

/-! ## The status block shared by the three engines -/

/-- The class `status_type` of a lagged-Fibonacci engine: the ring `r` and the `index`. -/
structure status_type where
  r : List Nat
  index : Nat
deriving DecidableEq, Repr

namespace status_type

/-- The constructor `status_type()`: `size` zero words, `index = 0`. -/
def init (size : Nat) : status_type := ⟨List.replicate size 0, 0⟩

/-- The loop `for (unsigned int i=0; i<size(); ++i) r[i]=0;` of the constructor
`status_type()` on the storage `r` of the new object, with `c` rounds left, the next one for
slot `i`. -/
def zero_fill (r : List Nat) : Nat → Nat → List Nat
  | 0, _ => r
  | c + 1, i => zero_fill (r.set i 0) c (i + 1)

/-- The constructor `status_type()` run on the storage of the new object, which holds `mem`
(whatever was there before): the loop that sets every ring word to zero, then `index=0`. -/
def ctor (size : Nat) (mem : status_type) : status_type := ⟨zero_fill mem.r size 0, 0⟩

/-- The comparison `operator==(const status_type &a, const status_type &b)`. -/
def eq (size : Nat) (a b : status_type) : Bool :=
  if a.index ≠ b.index then false
  else (List.range size).all fun i => a.r.getD i 0 == b.r.getD i 0

/-- The comparison `operator!=` on `status_type`. -/
def ne (size : Nat) (a b : status_type) : Bool := !(eq size a b)

/-- The assignment `S.index = i`. -/
def set_index (S : status_type) (i : Nat) : status_type := { S with index := i }

end status_type

/-! ## `lagfib2plus<integer_type, A, B>` -/

namespace lagfib2plus

/-- The private method `step()`. -/
def step (w A B : Nat) (S : status_type) : status_type :=
  let index := ((S.index + 1) % 2 ^ 32) &&& mask B
  { r := S.r.set index
      ((S.r.getD (sub32 index A &&& mask B) 0 + S.r.getD (sub32 index B &&& mask B) 0) % 2 ^ w)
    index := index }

/-- The call `operator()()`: step, then return `S.r[S.index]`. -/
def next (w A B : Nat) (S : status_type) : Nat × status_type :=
  let S1 := step w A B S
  (S1.r.getD S1.index 0, S1)

/-- The method `discard(n)`: `n` times `step()`. -/
def discard (w A B : Nat) : Nat → status_type → status_type
  | 0, S => S
  | n + 1, S => discard w A B n (step w A B S)

/-- The state after `n` successive calls of `operator()`. -/
def calls (w A B : Nat) : Nat → status_type → status_type
  | 0, S => S
  | n + 1, S => calls w A B n (next w A B S).2

/-- The value returned by the `n`-th call of `operator()` (`n ≥ 1`) starting from `S`. -/
def output (w A B : Nat) (S : status_type) (n : Nat) : Nat :=
  (next w A B (calls w A B (n - 1) S)).1

/-- The comparison `operator==(const lagfib2plus &R1, const lagfib2plus &R2)`. -/
def eq (B : Nat) (R1 R2 : status_type) : Bool := status_type.eq (ceil2 B) R1 R2

end lagfib2plus

/-! ## `lagfib2xor<integer_type, A, B>` -/

namespace lagfib2xor

/-- The private method `step()`. -/
def step (A B : Nat) (S : status_type) : status_type :=
  let index := ((S.index + 1) % 2 ^ 32) &&& mask B
  { r := S.r.set index
      (S.r.getD (sub32 index A &&& mask B) 0 ^^^ S.r.getD (sub32 index B &&& mask B) 0)
    index := index }

/-- The call `operator()()`: step, then return `S.r[S.index]`. -/
def next (A B : Nat) (S : status_type) : Nat × status_type :=
  let S1 := step A B S
  (S1.r.getD S1.index 0, S1)

/-- The method `discard(n)`: `n` times `step()`. -/
def discard (A B : Nat) : Nat → status_type → status_type
  | 0, S => S
  | n + 1, S => discard A B n (step A B S)

/-- The state after `n` successive calls of `operator()`. -/
def calls (A B : Nat) : Nat → status_type → status_type
  | 0, S => S
  | n + 1, S => calls A B n (next A B S).2

/-- The value returned by the `n`-th call of `operator()` (`n ≥ 1`) starting from `S`. -/
def output (A B : Nat) (S : status_type) (n : Nat) : Nat :=
  (next A B (calls A B (n - 1) S)).1

/-- The comparison `operator==(const lagfib2xor &R1, const lagfib2xor &R2)`. -/
def eq (B : Nat) (R1 R2 : status_type) : Bool := status_type.eq (ceil2 B) R1 R2

end lagfib2xor

/-! ## `lagfib4xor<integer_type, A, B, C, D>` -/

namespace lagfib4xor

/-- The private method `step()`. -/
def step (A B C D : Nat) (S : status_type) : status_type :=
  let index := ((S.index + 1) % 2 ^ 32) &&& mask D
  { r := S.r.set index
      (S.r.getD (sub32 index A &&& mask D) 0 ^^^ S.r.getD (sub32 index B &&& mask D) 0 ^^^
        S.r.getD (sub32 index C &&& mask D) 0 ^^^ S.r.getD (sub32 index D &&& mask D) 0)
    index := index }

/-- The call `operator()()`: step, then return `S.r[S.index]`. -/
def next (A B C D : Nat) (S : status_type) : Nat × status_type :=
  let S1 := step A B C D S
  (S1.r.getD S1.index 0, S1)

/-- The method `discard(n)`: `n` times `step()`. -/
def discard (A B C D : Nat) : Nat → status_type → status_type
  | 0, S => S
  | n + 1, S => discard A B C D n (step A B C D S)

/-- The state after `n` successive calls of `operator()`. -/
def calls (A B C D : Nat) : Nat → status_type → status_type
  | 0, S => S
  | n + 1, S => calls A B C D n (next A B C D S).2

/-- The value returned by the `n`-th call of `operator()` (`n ≥ 1`) starting from `S`. -/
def output (A B C D : Nat) (S : status_type) (n : Nat) : Nat :=
  (next A B C D (calls A B C D (n - 1) S)).1

/-- The comparison `operator==(const lagfib4xor &R1, const lagfib4xor &R2)`. -/
def eq (D : Nat) (R1 R2 : status_type) : Bool := status_type.eq (ceil2 D) R1 R2

end lagfib4xor

/-! ## A common shape of the three `step()` methods (proof device)

Each `step()` advances the index and overwrites the slot under the new index with a
combination of the slots read at the tap addresses. -/

/-- One step of a ring with mask `M`; `comb` receives the function "word read at tap `t`". -/
def ring_step (M : Nat) (comb : (Nat → Nat) → Nat) (S : status_type) : status_type :=
  let index := ((S.index + 1) % 2 ^ 32) &&& M
  { r := S.r.set index (comb fun t => S.r.getD (sub32 index t &&& M) 0)
    index := index }

/-- The state after `n` ring steps. -/
def ring_run (M : Nat) (comb : (Nat → Nat) → Nat) : Nat → status_type → status_type
  | 0, S => S
  | n + 1, S => ring_run M comb n (ring_step M comb S)

/-- The word under the index after `n` ring steps: what the `n`-th call returns. -/
def ring_out (M : Nat) (comb : (Nat → Nat) → Nat) (S : status_type) (n : Nat) : Nat :=
  (ring_run M comb n S).r.getD (ring_run M comb n S).index 0

/-- The history of an engine started in `S`: for `k ≥ 1` the `k`-th output `out k`, for
`k ≤ 0` the ring word stored at slot `(index + k) mod N` of `S`. -/
def hist (N : Nat) (S : status_type) (out : Nat → Nat) (k : Int) : Nat :=
  if 0 < k then out k.toNat else S.r.getD (((S.index : Int) + k) % (N : Int)).toNat 0

/-- The combination of `lagfib2plus::step`: sum of the two taps, reduced to the word width. -/
def comb2plus (w A B : Nat) (rd : Nat → Nat) : Nat := (rd A + rd B) % 2 ^ w

/-- The combination of `lagfib2xor::step`. -/
def comb2xor (A B : Nat) (rd : Nat → Nat) : Nat := rd A ^^^ rd B

/-- The combination of `lagfib4xor::step`. -/
def comb4xor (A B C D : Nat) (rd : Nat → Nat) : Nat := rd A ^^^ rd B ^^^ rd C ^^^ rd D

/-- The sequence `x` of `lagfib2plus` started in `S`: `x k` is the `k`-th output of
`operator()` for `k ≥ 1` and the ring word at slot `(index + k) mod N` of `S` for `k ≤ 0`. -/
def lagfib2plus.x (w A B : Nat) (S : status_type) (k : Int) : Nat :=
  hist (ceil2 B) S (lagfib2plus.output w A B S) k

/-- The sequence `x` of `lagfib2xor` started in `S`: outputs for `k ≥ 1`, ring words of `S`
for `k ≤ 0`. -/
def lagfib2xor.x (A B : Nat) (S : status_type) (k : Int) : Nat :=
  hist (ceil2 B) S (lagfib2xor.output A B S) k

/-- The sequence `x` of `lagfib4xor` started in `S`: outputs for `k ≥ 1`, ring words of `S`
for `k ≤ 0`. -/
def lagfib4xor.x (A B C D : Nat) (S : status_type) (k : Int) : Nat :=
  hist (ceil2 D) S (lagfib4xor.output A B C D S) k

/-! ## Uniform integer sources and seeding -/

/-- A uniform integer source (template parameter `gen`): `next` is the call `g()`, returning
the draw and the new state of the source; `min` and `max` are `gen::min()` and `gen::max()`.
A source returns draws in `[min, max]`, so that `g() - gen::min()` does not wrap. -/
structure gen (σ : Type) where
  next : σ → Nat × σ
  min : Nat
  max : Nat

namespace gen

/-- The state of the source after `n` draws. -/
def advance {σ : Type} (G : gen σ) : Nat → σ → σ
  | 0, g => g
  | n + 1, g => advance G n (G.next g).2

/-- The draw number `n` (counting from 0) that the source makes when started in state `g`. -/
def draw {σ : Type} (G : gen σ) (g : σ) (n : Nat) : Nat := (G.next (G.advance n g)).1

end gen

/-- The inner loop of `seed(gen &g)`: `j` more rounds of `r <<= 1; if (g() - gen::min() >
gen::max() / 2) ++r;` on a `w`-bit word `r`. -/
def seed_bits {σ : Type} (G : gen σ) (w : Nat) : Nat → Nat → σ → Nat × σ
  | 0, r, g => (r, g)
  | j + 1, r, g =>
    let r1 := (r <<< 1) % 2 ^ w
    let d := G.next g
    let r2 := if d.1 - G.min > G.max / 2 then (r1 + 1) % 2 ^ w else r1
    seed_bits G w j r2 d.2

/-- The outer loop of `seed(gen &g)`: `c` more rounds, the next one for slot `i`, each building
a word from `w` draws (starting from `r = 0`) and storing it with `S.r[i] = r`. -/
def seed_words {σ : Type} (G : gen σ) (w : Nat) : Nat → Nat → status_type → σ → status_type × σ
  | 0, _, S, g => (S, g)
  | c + 1, i, S, g =>
    let rg := seed_bits G w w 0 g
    seed_words G w c (i + 1) { S with r := S.r.set i rg.1 } rg.2

/-- The method `seed(gen &g)` for largest tap `T`: fill slots `0 … T - 1`, then
`S.index = T - 1`. Returns the new status and the state in which the source is left. -/
def seed_gen {σ : Type} (G : gen σ) (w T : Nat) (S : status_type) (g : σ) : status_type × σ :=
  let Sg := seed_words G w T 0 S g
  (Sg.1.set_index (sub32 T 1), Sg.2)

/-- Modelled from the spec: the auxiliary seeding engine `minstd` of `trng/minstd.hpp` (not
part of the sources at hand), the multiplicative congruential generator
`x ← (16807 · x) mod (2³¹ − 1)` with outputs in `[1, 2³¹ − 2]`; its state is `x`. -/
def minstd : gen Nat where
  next := fun x => ((16807 * x) % 2147483647, (16807 * x) % 2147483647)
  min := 1
  max := 2147483646

/-- Modelled from the spec: the constructor `minstd(s)` of `trng/minstd.hpp` (not part of the
sources at hand): the seed is brought into the valid range, `0` is mapped to `1`. -/
def minstd_init (s : Nat) : Nat := if s % 2147483647 = 0 then 1 else s % 2147483647

namespace lagfib2plus

/-- The method `seed(gen &g)`. -/
def seed_gen {σ : Type} (G : gen σ) (w B : Nat) (S : status_type) (g : σ) : status_type × σ :=
  trng.seed_gen G w B S g

/-- The method `seed(unsigned long s)`: `minstd R(s); seed(R);`. -/
def seed (w B : Nat) (S : status_type) (s : Nat) : status_type :=
  (seed_gen minstd w B S (minstd_init s)).1

/-- The method `seed()`: `seed(0)`. -/
def seed0 (w B : Nat) (S : status_type) : status_type := seed w B S 0

/-- The constructor `lagfib2plus()`: `S()`, then `seed()`. -/
def ctor0 (w B : Nat) : status_type := seed0 w B (status_type.init (ceil2 B))

/-- The constructor `lagfib2plus(unsigned long s)`: `S()`, then `seed(s)`. -/
def ctor (w B : Nat) (s : Nat) : status_type := seed w B (status_type.init (ceil2 B)) s

/-- The constructor `lagfib2plus(gen &g)`: `S()`, then `seed(g)`. -/
def ctor_gen {σ : Type} (G : gen σ) (w B : Nat) (g : σ) : status_type × σ :=
  seed_gen G w B (status_type.init (ceil2 B)) g

end lagfib2plus

namespace lagfib2xor

/-- The method `seed(gen &g)`. -/
def seed_gen {σ : Type} (G : gen σ) (w B : Nat) (S : status_type) (g : σ) : status_type × σ :=
  trng.seed_gen G w B S g

/-- The method `seed(unsigned long s)`: `minstd R(s); seed(R);`. -/
def seed (w B : Nat) (S : status_type) (s : Nat) : status_type :=
  (seed_gen minstd w B S (minstd_init s)).1

/-- The method `seed()`: `seed(0)`. -/
def seed0 (w B : Nat) (S : status_type) : status_type := seed w B S 0

/-- The constructor `lagfib2xor()`: `S()`, then `seed()`. -/
def ctor0 (w B : Nat) : status_type := seed0 w B (status_type.init (ceil2 B))

/-- The constructor `lagfib2xor(unsigned long s)`: `S()`, then `seed(s)`. -/
def ctor (w B : Nat) (s : Nat) : status_type := seed w B (status_type.init (ceil2 B)) s

/-- The constructor `lagfib2xor(gen &g)`: `S()`, then `seed(g)`. -/
def ctor_gen {σ : Type} (G : gen σ) (w B : Nat) (g : σ) : status_type × σ :=
  seed_gen G w B (status_type.init (ceil2 B)) g

end lagfib2xor

namespace lagfib4xor

/-- The method `seed(gen &g)`. -/
def seed_gen {σ : Type} (G : gen σ) (w D : Nat) (S : status_type) (g : σ) : status_type × σ :=
  trng.seed_gen G w D S g

/-- The method `seed(unsigned long s)`: `minstd R(s); seed(R);`. -/
def seed (w D : Nat) (S : status_type) (s : Nat) : status_type :=
  (seed_gen minstd w D S (minstd_init s)).1

/-- The method `seed()`: `seed(0)`. -/
def seed0 (w D : Nat) (S : status_type) : status_type := seed w D S 0

/-- The constructor `lagfib4xor()`: `S()`, then `seed()`. -/
def ctor0 (w D : Nat) : status_type := seed0 w D (status_type.init (ceil2 D))

/-- The constructor `lagfib4xor(unsigned long s)`: `S()`, then `seed(s)`. -/
def ctor (w D : Nat) (s : Nat) : status_type := seed w D (status_type.init (ceil2 D)) s

/-- The constructor `lagfib4xor(gen &g)`: `S()`, then `seed(g)`. -/
def ctor_gen {σ : Type} (G : gen σ) (w D : Nat) (g : σ) : status_type × σ :=
  seed_gen G w D (status_type.init (ceil2 D)) g

end lagfib4xor

/-! ## The family of lagged-Fibonacci engines -/

/-- A lagged-Fibonacci engine type: the class template with its word width `w` (the number of
digits of `integer_type`) and its taps. -/
inductive engine where
  | lagfib2plus (w A B : Nat)
  | lagfib2xor (w A B : Nat)
  | lagfib4xor (w A B C D : Nat)
deriving DecidableEq, Repr

namespace engine

/-- The word width `std::numeric_limits<result_type>::digits`. -/
def digits : engine → Nat
  | lagfib2plus w _ _ => w
  | lagfib2xor w _ _ => w
  | lagfib4xor w _ _ _ _ => w

/-- The largest tap: `B` for the two-tap engines, `D` for the four-tap engine. -/
def tap_max : engine → Nat
  | lagfib2plus _ _ B => B
  | lagfib2xor _ _ B => B
  | lagfib4xor _ _ _ _ D => D

/-- The taps of the engine. -/
def taps : engine → List Nat
  | lagfib2plus _ A B => [A, B]
  | lagfib2xor _ A B => [A, B]
  | lagfib4xor _ A B C D => [A, B, C, D]

/-- The ring size `status_type::size()`. -/
def size (e : engine) : Nat := ceil2 e.tap_max

/-- The private method `step()` of the engine. -/
def step : engine → status_type → status_type
  | lagfib2plus w A B => trng.lagfib2plus.step w A B
  | lagfib2xor _ A B => trng.lagfib2xor.step A B
  | lagfib4xor _ A B C D => trng.lagfib4xor.step A B C D

/-- The call `operator()()` of the engine. -/
def next : engine → status_type → Nat × status_type
  | lagfib2plus w A B => trng.lagfib2plus.next w A B
  | lagfib2xor _ A B => trng.lagfib2xor.next A B
  | lagfib4xor _ A B C D => trng.lagfib4xor.next A B C D

/-- The method `discard(n)` of the engine. -/
def discard : engine → Nat → status_type → status_type
  | lagfib2plus w A B => trng.lagfib2plus.discard w A B
  | lagfib2xor _ A B => trng.lagfib2xor.discard A B
  | lagfib4xor _ A B C D => trng.lagfib4xor.discard A B C D

/-- The state after `n` successive calls of `operator()`. -/
def calls : engine → Nat → status_type → status_type
  | lagfib2plus w A B => trng.lagfib2plus.calls w A B
  | lagfib2xor _ A B => trng.lagfib2xor.calls A B
  | lagfib4xor _ A B C D => trng.lagfib4xor.calls A B C D

/-- The value returned by the `n`-th call of `operator()` (`n ≥ 1`). -/
def output : engine → status_type → Nat → Nat
  | lagfib2plus w A B => trng.lagfib2plus.output w A B
  | lagfib2xor _ A B => trng.lagfib2xor.output A B
  | lagfib4xor _ A B C D => trng.lagfib4xor.output A B C D

/-- The comparison `operator==` of two engines of this type. -/
def eq : engine → status_type → status_type → Bool
  | lagfib2plus _ _ B => trng.lagfib2plus.eq B
  | lagfib2xor _ _ B => trng.lagfib2xor.eq B
  | lagfib4xor _ _ _ _ D => trng.lagfib4xor.eq D

/-- The method `seed(gen &g)` of the engine. -/
def seed_gen {σ : Type} (G : gen σ) : engine → status_type → σ → status_type × σ
  | lagfib2plus w _ B => trng.lagfib2plus.seed_gen G w B
  | lagfib2xor w _ B => trng.lagfib2xor.seed_gen G w B
  | lagfib4xor w _ _ _ D => trng.lagfib4xor.seed_gen G w D

/-- The method `seed(unsigned long s)` of the engine. -/
def seed : engine → status_type → Nat → status_type
  | lagfib2plus w _ B => trng.lagfib2plus.seed w B
  | lagfib2xor w _ B => trng.lagfib2xor.seed w B
  | lagfib4xor w _ _ _ D => trng.lagfib4xor.seed w D

/-- The method `seed()` of the engine. -/
def seed0 : engine → status_type → status_type
  | lagfib2plus w _ B => trng.lagfib2plus.seed0 w B
  | lagfib2xor w _ B => trng.lagfib2xor.seed0 w B
  | lagfib4xor w _ _ _ D => trng.lagfib4xor.seed0 w D

/-- The default constructor of the engine. -/
def ctor0 : engine → status_type
  | lagfib2plus w _ B => trng.lagfib2plus.ctor0 w B
  | lagfib2xor w _ B => trng.lagfib2xor.ctor0 w B
  | lagfib4xor w _ _ _ D => trng.lagfib4xor.ctor0 w D

/-- The constructor of the engine from a scalar seed. -/
def ctor : engine → Nat → status_type
  | lagfib2plus w _ B => trng.lagfib2plus.ctor w B
  | lagfib2xor w _ B => trng.lagfib2xor.ctor w B
  | lagfib4xor w _ _ _ D => trng.lagfib4xor.ctor w D

/-- The constructor of the engine from a source. -/
def ctor_gen {σ : Type} (G : gen σ) : engine → σ → status_type × σ
  | lagfib2plus w _ B => trng.lagfib2plus.ctor_gen G w B
  | lagfib2xor w _ B => trng.lagfib2xor.ctor_gen G w B
  | lagfib4xor w _ _ _ D => trng.lagfib4xor.ctor_gen G w D

/-- The combination of the tap words in `step()`. -/
def comb : engine → (Nat → Nat) → Nat
  | lagfib2plus w A B => comb2plus w A B
  | lagfib2xor _ A B => comb2xor A B
  | lagfib4xor _ A B C D => comb4xor A B C D

/-- The slot that `step()` writes in state `S`: the advanced index. -/
def write_slot (e : engine) (S : status_type) : Nat :=
  ((S.index + 1) % 2 ^ 32) &&& mask e.tap_max

/-- The slots that `step()` reads in state `S`: one per tap. -/
def read_slots (e : engine) (S : status_type) : List Nat :=
  e.taps.map fun t => sub32 (e.write_slot S) t &&& mask e.tap_max

end engine

/-! ## A concrete source -/

/-- A six-sided die as a uniform integer source: `min = 1`, `max = 6`, the draws run through
`1, 2, …, 6` cyclically; in state `s` the next draw is `s % 6 + 1`. -/
def die : gen Nat where
  next := fun s => (s % 6 + 1, s + 1)
  min := 1
  max := 6

/-! ## Text streams (`std::istream`, `std::ostream`) and the helpers of `trng/utility.hpp` -/

/-- An input stream: the characters not yet read and the fail flag (what `if (in)` tests). -/
structure istream where
  buf : List Char
  fail : Bool
deriving DecidableEq, Repr

/-- The character of a decimal digit `d < 10`. -/
def digit_char : Nat → Char
  | 0 => '0'
  | 1 => '1'
  | 2 => '2'
  | 3 => '3'
  | 4 => '4'
  | 5 => '5'
  | 6 => '6'
  | 7 => '7'
  | 8 => '8'
  | _ => '9'

/-- The value of a decimal digit character. -/
def digit_val (c : Char) : Nat := c.toNat - 48

/-- The digits of `n`, most significant first, in front of `acc` (at most `fuel` digits). -/
def to_dec_loop : Nat → Nat → List Char → List Char
  | 0, _, acc => acc
  | fuel + 1, n, acc =>
    if n < 10 then digit_char n :: acc
    else to_dec_loop fuel (n / 10) (digit_char (n % 10) :: acc)

/-- Modelled from the spec: `out << n` for an unsigned integer under the flags
`dec | fixed | left` (standard library, not part of the sources at hand): the decimal
digits of `n`, without sign, padding or grouping. -/
def to_dec (n : Nat) : List Char := to_dec_loop (n + 1) n []

/-- The value of a run of decimal digits read after the value `v`. -/
def dec_value (ds : List Char) (v : Nat) : Nat := ds.foldl (fun a c => 10 * a + digit_val c) v

/-- Read the longest run of decimal digits, accumulating its value onto `v`; returns the
value and the characters left. -/
def read_digits : List Char → Nat → Nat × List Char
  | [], v => (v, [])
  | c :: cs, v => if c.isDigit then read_digits cs (10 * v + digit_val c) else (v, c :: cs)

/-- Read the magnitude of a number below `bound`: a non-empty run of decimal digits. The
stream fails when there is no digit, and, with the value `bound - 1`, when the value does not
fit. Returns the stream and the value. -/
def extract_magnitude (bound : Nat) (buf : List Char) : istream × Nat :=
  match buf with
  | [] => (⟨[], true⟩, 0)
  | c :: cs =>
    if c.isDigit then
      if (read_digits (c :: cs) 0).1 < bound then
        (⟨(read_digits (c :: cs) 0).2, false⟩, (read_digits (c :: cs) 0).1)
      else (⟨(read_digits (c :: cs) 0).2, true⟩, bound - 1)
    else (⟨c :: cs, true⟩, 0)

/-- Modelled from the spec: `in >> x` for an unsigned integer `x` below `bound` that is not
of a character type (standard library, not part of the sources at hand), with the flags set
to `dec | fixed | left` as the engines do before reading, so that no white space is skipped:
an optional sign `+` or `-`, then a non-empty run of decimal digits; the stream fails when
there is no digit or when the magnitude does not fit the type; a magnitude `m` after `-` is
stored as `-m` in the unsigned type, i.e. `(bound - m) % bound`. A failed stream is left
alone and `x` keeps its value `old`. Returns the stream and the value of `x`. -/
def extract (bound : Nat) (inp : istream) (old : Nat) : istream × Nat :=
  if inp.fail then (inp, old)
  else
    match inp.buf with
    | [] => ({ inp with fail := true }, 0)
    | c :: cs =>
      if c = '-' then
        ((extract_magnitude bound cs).1,
          if (extract_magnitude bound cs).1.fail then (extract_magnitude bound cs).2
          else (bound - (extract_magnitude bound cs).2) % bound)
      else if c = '+' then extract_magnitude bound cs
      else extract_magnitude bound (c :: cs)

/-- Modelled from the spec: `in >> x` for an `unsigned char` `x` (standard library, not part
of the sources at hand), no white space being skipped: the next character is read and `x` is
its code (the characters of a narrow stream are bytes, so a code is taken modulo 256); the
stream fails when there is no character. A failed stream is left alone and `x` keeps its
value `old`. -/
def extract_char (inp : istream) (old : Nat) : istream × Nat :=
  if inp.fail then (inp, old)
  else
    match inp.buf with
    | [] => ({ inp with fail := true }, old)
    | c :: cs => ({ inp with buf := cs }, c.toNat % 256)

/-- The extraction `in >> S_new.r[i]` of a ring word of `w` bits: `integer_type` is a
character type when it has 8 bits (`unsigned char`, `uint8_t`), and a single character is
read; every other word type is read as a number. -/
def extract_word (w : Nat) (inp : istream) (old : Nat) : istream × Nat :=
  if w = 8 then extract_char inp old else extract (2 ^ w) inp old

/-- The insertion `out << S.r[i]` of a ring word of `w` bits under the flags
`dec | fixed | left`: an 8-bit word (`unsigned char`, `uint8_t`) is written as the single
character with that code, every other word as its decimal digits. -/
def write_word (w : Nat) (x : Nat) : List Char :=
  if w = 8 then [Char.ofNat x] else to_dec x

namespace utility

/-- Modelled from the spec: `in >> utility::delim(c)` of `trng/utility.hpp` (not part of the
sources at hand): a mandatory delimiter. The next character is read; if there is none or it
is not `c`, the fail flag is set (and the character stays in the stream). A failed stream is
left alone. -/
def delim (c : Char) (inp : istream) : istream :=
  if inp.fail then inp
  else
    match inp.buf with
    | [] => { inp with fail := true }
    | x :: rest => if x = c then { inp with buf := rest } else { inp with fail := true }

/-- Modelled from the spec: `in >> utility::delim(const char *)` of `trng/utility.hpp` (not
part of the sources at hand): the characters of the string as mandatory delimiters, in order. -/
def delim_str : List Char → istream → istream
  | [], inp => inp
  | c :: cs, inp => delim_str cs (delim c inp)

/-- Modelled from the spec: `in >> utility::ignore_spaces()` of `trng/utility.hpp` (not part
of the sources at hand): leading white space is accepted and dropped. -/
def ignore_spaces (inp : istream) : istream :=
  if inp.fail then inp else { inp with buf := inp.buf.dropWhile Char.isWhitespace }

end utility

namespace status_type

/-- The loop `for (i = 0; i < size; ++i) out << ' ' << S.r[i];` of `operator<<`, with `c`
rounds left, the next one for slot `i`. -/
def write_words (w : Nat) (S : status_type) : Nat → Nat → List Char
  | 0, _ => []
  | c + 1, i => ' ' :: write_word w (S.r.getD i 0) ++ write_words w S c (i + 1)

/-- The text written by `operator<<(ostream &, const status_type &)`:
`'(' index (' ' r[i])* ')'`. -/
def write (w size : Nat) (S : status_type) : List Char :=
  '(' :: to_dec S.index ++ write_words w S size 0 ++ [')']

/-- The loop `for (i = 0; i < size; ++i) in >> utility::delim(' ') >> S_new.r[i];` of
`operator>>`, with `c` rounds left, the next one for slot `i`; words have `w` bits. -/
def read_words (w : Nat) : Nat → Nat → istream → status_type → istream × status_type
  | 0, _, inp, S => (inp, S)
  | c + 1, i, inp, S =>
    let vx := extract_word w (delim ' ' inp) (S.r.getD i 0)
    read_words w c (i + 1) vx.1 { S with r := S.r.set i vx.2 }

/-- The extraction `operator>>(istream &, status_type &S)` for `w`-bit words: read into a
fresh `S_new`, assign `S = S_new` only `if (in)`. -/
def read (w size : Nat) (inp : istream) (S : status_type) : istream × status_type :=
  let S_new := init size
  let ix := extract (2 ^ 32) (delim '(' inp) S_new.index
  let wS := read_words w size 0 ix.1 (S_new.set_index ix.2)
  let in3 := delim ')' wS.1
  if in3.fail then (in3, S) else (in3, wS.2)

end status_type

/-- The text written by `operator<<(ostream &, const engine &R)` of an engine with the given
name, word width and ring size: `'[' name ' ' status ']'`. -/
def write_engine (name : List Char) (w size : Nat) (R : status_type) : List Char :=
  '[' :: name ++ ' ' :: status_type.write w size R ++ [']']

/-- The extraction `operator>>(istream &, engine &R)` of an engine with the given name, word
width and ring size: skip white space, read `'[' name ' ' status ']'` into a fresh `S_new`,
assign `R.S = S_new` only `if (in)`. Returns the stream and the status of `R`. -/
def read_engine (name : List Char) (w size : Nat) (inp : istream) (R : status_type) :
    istream × status_type :=
  let S_new := status_type.init size
  let in1 := delim ' ' (delim_str name (delim '[' (ignore_spaces inp)))
  let sr := status_type.read w size in1 S_new
  let in2 := delim ']' sr.1
  if in2.fail then (in2, R) else (in2, sr.2)

namespace lagfib2plus

/-- The method `name()`: `"lagfib2plus_" << digits << '_' << A << '_' << B`. -/
def name (w A B : Nat) : List Char :=
  ['l', 'a', 'g', 'f', 'i', 'b', '2', 'p', 'l', 'u', 's', '_'] ++ to_dec w ++ '_' :: to_dec A ++
    '_' :: to_dec B

/-- The insertion `operator<<(ostream &, const lagfib2plus &R)`. -/
def write (w A B : Nat) (R : status_type) : List Char :=
  write_engine (name w A B) w (ceil2 B) R

/-- The extraction `operator>>(istream &, lagfib2plus &R)`. -/
def read (w A B : Nat) (inp : istream) (R : status_type) : istream × status_type :=
  read_engine (name w A B) w (ceil2 B) inp R

end lagfib2plus

namespace lagfib2xor

/-- The method `name()`: `"lagfib2xor_" << digits << '_' << A << '_' << B`. -/
def name (w A B : Nat) : List Char :=
  ['l', 'a', 'g', 'f', 'i', 'b', '2', 'x', 'o', 'r', '_'] ++ to_dec w ++ '_' :: to_dec A ++
    '_' :: to_dec B

/-- The insertion `operator<<(ostream &, const lagfib2xor &R)`. -/
def write (w A B : Nat) (R : status_type) : List Char :=
  write_engine (name w A B) w (ceil2 B) R

/-- The extraction `operator>>(istream &, lagfib2xor &R)`. -/
def read (w A B : Nat) (inp : istream) (R : status_type) : istream × status_type :=
  read_engine (name w A B) w (ceil2 B) inp R

end lagfib2xor

namespace lagfib4xor

/-- The method `name()`: `"lagfib4xor_" << digits << '_' << A << '_' << B << '_' << C << '_'
<< D`. -/
def name (w A B C D : Nat) : List Char :=
  ['l', 'a', 'g', 'f', 'i', 'b', '4', 'x', 'o', 'r', '_'] ++ to_dec w ++ '_' :: to_dec A ++
    '_' :: to_dec B ++ '_' :: to_dec C ++ '_' :: to_dec D

/-- The insertion `operator<<(ostream &, const lagfib4xor &R)`. -/
def write (w A B C D : Nat) (R : status_type) : List Char :=
  write_engine (name w A B C D) w (ceil2 D) R

/-- The extraction `operator>>(istream &, lagfib4xor &R)`. -/
def read (w A B C D : Nat) (inp : istream) (R : status_type) : istream × status_type :=
  read_engine (name w A B C D) w (ceil2 D) inp R

end lagfib4xor

namespace engine

/-- The method `name()` of the engine. -/
def name : engine → List Char
  | lagfib2plus w A B => trng.lagfib2plus.name w A B
  | lagfib2xor w A B => trng.lagfib2xor.name w A B
  | lagfib4xor w A B C D => trng.lagfib4xor.name w A B C D

/-- The insertion `operator<<` of the engine: the text form of the state. -/
def write : engine → status_type → List Char
  | lagfib2plus w A B => trng.lagfib2plus.write w A B
  | lagfib2xor w A B => trng.lagfib2xor.write w A B
  | lagfib4xor w A B C D => trng.lagfib4xor.write w A B C D

/-- The extraction `operator>>` of the engine. -/
def read : engine → istream → status_type → istream × status_type
  | lagfib2plus w A B => trng.lagfib2plus.read w A B
  | lagfib2xor w A B => trng.lagfib2xor.read w A B
  | lagfib4xor w A B C D => trng.lagfib4xor.read w A B C D

end engine

/-! ## Well-formed and reachable states, the text form -/

namespace engine

/-- A status of the engine as the C++ types allow it: the ring has `size` words of `digits`
bits and the index is an `unsigned int`. -/
def wf (e : engine) (S : status_type) : Prop :=
  S.r.length = e.size ∧ S.index < 2 ^ 32 ∧ ∀ s, S.r.getD s 0 < 2 ^ e.digits

/-- The states reachable from a seeded engine: construction from a source (the constructors
from a scalar seed and the default constructor are instances with the source `minstd`),
re-seeding, and calls of `operator()`. -/
inductive reachable (e : engine) : status_type → Prop where
  | ctor {σ : Type} (G : gen σ) (g : σ) : reachable e (e.ctor_gen G g).1
  | seed {σ : Type} (G : gen σ) (g : σ) (S : status_type) :
      reachable e S → reachable e (e.seed_gen G S g).1
  | call (S : status_type) : reachable e S → reachable e (e.next S).2

end engine

/-- A decimal number below `bound`: a non-empty run of decimal digits whose value fits. -/
def is_number (bound : Nat) (ds : List Char) : Prop :=
  ds ≠ [] ∧ (∀ c ∈ ds, c.isDigit = true) ∧ dec_value ds 0 < bound

/-- The words of a status text, each preceded by a single space. -/
def join_words : List (List Char) → List Char
  | [] => []
  | d :: ds => ' ' :: d ++ join_words ds

/-- The text form of an engine with the given name, word width and ring size, with all
numbers in decimal: optional leading white space, then `[name (index r0 … r_{N-1})]` with
the index a run of decimal digits that fits an `unsigned int` and `N = size` words that are
runs of decimal digits fitting `w` bits, then whatever follows. -/
def text_form (name : List Char) (w size : Nat) (text : List Char) : Prop :=
  ∃ (ws idx : List Char) (words : List (List Char)) (rest : List Char),
    (∀ c ∈ ws, c.isWhitespace = true) ∧ is_number (2 ^ 32) idx ∧ words.length = size ∧
    (∀ d ∈ words, is_number (2 ^ w) d) ∧
    text = ws ++ '[' :: name ++ ' ' :: '(' :: idx ++ join_words words ++ ')' :: ']' :: rest

/-- A number as `in >> x` accepts it for an unsigned `x` below `bound`: a run of decimal
digits whose value fits, after an optional sign `+` or `-`. -/
def is_signed_number (bound : Nat) (t : List Char) : Prop :=
  ∃ ds, is_number bound ds ∧ (t = ds ∨ t = '+' :: ds ∨ t = '-' :: ds)

/-- The text of a ring word of `w` bits as `in >> S_new.r[i]` accepts it: any single
character for an 8-bit word, a number otherwise. -/
def is_word_text (w : Nat) (t : List Char) : Prop :=
  if w = 8 then ∃ c, t = [c] else is_signed_number (2 ^ w) t

/-- The texts that `operator>>` of an engine with the given name, word width and ring size
accepts: optional leading white space, then `[name (index r0 … r_{N-1})]` with the index a
number that fits an `unsigned int` and `N = size` word texts, then whatever follows. -/
def accepted_form (name : List Char) (w size : Nat) (text : List Char) : Prop :=
  ∃ (ws idx : List Char) (words : List (List Char)) (rest : List Char),
    (∀ c ∈ ws, c.isWhitespace = true) ∧ is_signed_number (2 ^ 32) idx ∧ words.length = size ∧
    (∀ d ∈ words, is_word_text w d) ∧
    text = ws ++ '[' :: name ++ ' ' :: '(' :: idx ++ join_words words ++ ')' :: ']' :: rest

/-- The text `[lagfib2xor_32_1_3 (2 1 2 3 4)]`: a state of another engine type. -/
def text_other_engine : List Char :=
  ['[', 'l', 'a', 'g', 'f', 'i', 'b', '2', 'x', 'o', 'r', '_', '3', '2', '_', '1', '_', '3', ' ', '(', '2', ' ', '1', ' ', '2', ' ', '3', ' ', '4', ')', ']']

/-- The text `[lagfib2plus_32_1_3 (+2 1 2 3 4)]`: a state whose index is written with a
sign. -/
def text_signed_index : List Char :=
  ['[', 'l', 'a', 'g', 'f', 'i', 'b', '2', 'p', 'l', 'u', 's', '_', '3', '2', '_', '1', '_', '3', ' ', '(', '+', '2', ' ', '1', ' ', '2', ' ', '3', ' ', '4', ')', ']']

/-- The text `[lagfib2xor_8_1_3 (2 a b c d)]`: a state of an engine with 8-bit words, the
words being the characters `a`, `b`, `c`, `d`. -/
def text_byte_words : List Char :=
  ['[', 'l', 'a', 'g', 'f', 'i', 'b', '2', 'x', 'o', 'r', '_', '8', '_', '1', '_', '3', ' ', '(', '2', ' ', 'a', ' ', 'b', ' ', 'c', ' ', 'd', ')', ']']

/-- The text `[lagfib2plus_32_1_3 (7 0 0 0 0)]`: index 7 on a ring of four words. -/
def text_index_seven : List Char :=
  ['[', 'l', 'a', 'g', 'f', 'i', 'b', '2', 'p', 'l', 'u', 's', '_', '3', '2', '_', '1', '_', '3', ' ', '(', '7', ' ', '0', ' ', '0', ' ', '0', ' ', '0', ')', ']']

/-! ## `mrg5s` (`src/mrg5s.cc`)

The class is declared in `trng/mrg5s.hpp`, which is not among the sources: `result_type` is
the signed 32-bit integer type, `parameter_type` holds `a1 … a5`, `status_type` holds
`r1 … r5`. Signed machine integers are integers, brought back into range with `wrap32` and
`wrap64` where a conversion or an addition could leave it. -/

/-- The value of a signed 32-bit integer after a conversion or an operation with the
mathematical result `x`: reduction modulo `2 ^ 32` into `[-2 ^ 31, 2 ^ 31)`. -/
def wrap32 (x : Int) : Int := (x + 2147483648) % 4294967296 - 2147483648

/-- The value of a signed 64-bit integer after a conversion or an operation with the
mathematical result `x`: reduction modulo `2 ^ 64` into `[-2 ^ 63, 2 ^ 63)`. -/
def wrap64 (x : Int) : Int :=
  (x + 9223372036854775808) % 18446744073709551616 - 9223372036854775808

/-- The class `mrg5s::parameter_type`: the coefficients `a1 … a5`. -/
structure mrg5s.parameter_type where
  a1 : Int
  a2 : Int
  a3 : Int
  a4 : Int
  a5 : Int
deriving DecidableEq, Repr

/-- The class `mrg5s::status_type`: the state `r1 … r5`. -/
structure mrg5s.status_type where
  r1 : Int
  r2 : Int
  r3 : Int
  r4 : Int
  r5 : Int
deriving DecidableEq, Repr

/-- The class `mrg5s`: the parameter block `P` and the status block `S`. -/
structure mrg5s where
  P : mrg5s.parameter_type
  S : mrg5s.status_type
deriving DecidableEq, Repr

namespace mrg5s

/-- Modelled from the spec: the constant `mrg5s::modulus` of `trng/mrg5s.hpp` (not part of
the sources at hand), `m = 2³¹ − 21069 = 2147462579`. -/
def modulus : Int := 2147462579

/-- The parameter set `mrg5s::trng0`. -/
def trng0 : parameter_type := ⟨1053223373, 1530818118, 1612122482, 133497989, 573245311⟩

/-- The parameter set `mrg5s::trng1`. -/
def trng1 : parameter_type := ⟨2068619238, 2138332912, 671754166, 1442240992, 1526958817⟩

/-- The constructor `mrg5s(parameter_type P) : P(P), S() { }`. It has no failing path: the
result is always an engine (`some`). The default status `S()` is declared in
`trng/mrg5s.hpp` and is taken as the parameter `S0`. -/
def ctor (S0 : status_type) (P : parameter_type) : Option mrg5s := some ⟨P, S0⟩

/-- The assignment of a new status block to `S`, the parameter block `P` staying as it is. -/
def set_S (R : mrg5s) (S1 : status_type) : mrg5s := ⟨R.P, S1⟩

/-- The value that `seed(unsigned long s)` stores in `S.r1`, for a 64-bit `unsigned long`:
`int64_t t = s; t %= modulus; if (t < 0) t += modulus; S.r1 = static_cast<result_type>(t);`.
The operator `%` of C++ truncates towards zero (`Int.tmod`). -/
def seed_r1 (s : Nat) : Int :=
  wrap32 (if wrap64 (Int.tmod (wrap64 (s : Int)) modulus) < 0
    then wrap64 (wrap64 (Int.tmod (wrap64 (s : Int)) modulus) + modulus)
    else wrap64 (Int.tmod (wrap64 (s : Int)) modulus))

/-- The method `seed(unsigned long s)`: `S.r1` as in `seed_r1`, then
`S.r2 = 1; S.r3 = 1; S.r4 = 1; S.r5 = 1;`. -/
def seed (R : mrg5s) (s : Nat) : mrg5s := set_S R ⟨seed_r1 s, 1, 1, 1, 1⟩

/-- The constructor `mrg5s(unsigned long s, parameter_type P) : P(P), S() { seed(s); }`. -/
def ctor_seed (S0 : status_type) (s : Nat) (P : parameter_type) : Option mrg5s :=
  some (seed ⟨P, S0⟩ s)

/-- One component of `seed(s1, …, s5)`: `S.r = s % modulus; if (S.r < 0) S.r += modulus;` in
signed 32-bit arithmetic. -/
def seed_component (s : Int) : Int :=
  let r := wrap32 (Int.tmod s modulus)
  if r < 0 then wrap32 (r + modulus) else r

/-- The method `seed(result_type s1, …, result_type s5)`. -/
def seed5 (R : mrg5s) (s1 s2 s3 s4 s5 : Int) : mrg5s :=
  set_S R ⟨seed_component s1, seed_component s2, seed_component s3, seed_component s4,
    seed_component s5⟩

/-- Modelled from the spec: the state step of `mrg5s` (the method `step()` of
`trng/mrg5s.hpp`, not part of the sources at hand):
`t = (a1·r1 + a2·r2 + a3·r3 + a4·r4 + a5·r5) mod m`, `(r1, …, r5) ← (t, r1, r2, r3, r4)`. -/
def step (R : mrg5s) : mrg5s :=
  set_S R ⟨(R.P.a1 * R.S.r1 + R.P.a2 * R.S.r2 + R.P.a3 * R.S.r3 + R.P.a4 * R.S.r4 +
    R.P.a5 * R.S.r5) % modulus, R.S.r1, R.S.r2, R.S.r3, R.S.r4⟩

/-- A parameter block with every coefficient in `[0, m)`. -/
def parameter_type.valid (P : parameter_type) : Prop :=
  (0 ≤ P.a1 ∧ P.a1 < modulus) ∧ (0 ≤ P.a2 ∧ P.a2 < modulus) ∧ (0 ≤ P.a3 ∧ P.a3 < modulus) ∧
    (0 ≤ P.a4 ∧ P.a4 < modulus) ∧ (0 ≤ P.a5 ∧ P.a5 < modulus)

end mrg5s

/-- An engine with the parameter set `trng0` and the status `(0, 1, 1, 1, 1)`. -/
def mrg5s.example_engine : mrg5s := ⟨mrg5s.trng0, ⟨0, 1, 1, 1, 1⟩⟩

/-- A parameter block with coefficients outside `[0, m)`: `a1 = m`, `a2 = -1`. -/
def mrg5s.invalid_parameter : mrg5s.parameter_type := ⟨2147462579, -1, 0, 0, 0⟩

/-- The constructor `E(unsigned long s) : S() { seed(s); }` of an engine, for an object whose
storage holds `mem` before the construction: `S()` runs the zero loop of `status_type()` on
it, then `seed(s)` runs. -/
def engine.ctor_in (e : engine) (mem : status_type) (s : Nat) : status_type :=
  e.seed (status_type.ctor e.size mem) s

/-- Two engines of the same type used side by side: the schedule says which instance is
called next (`true` the first, `false` the second); the result is the list of values each
instance returned, in the order of its calls. -/
def engine.run_pair (e : engine) : List Bool → status_type × status_type → List Nat × List Nat
  | [], _ => ([], [])
  | true :: sch, EE =>
    ((e.next EE.1).1 :: (engine.run_pair e sch ((e.next EE.1).2, EE.2)).1,
      (engine.run_pair e sch ((e.next EE.1).2, EE.2)).2)
  | false :: sch, EE =>
    ((engine.run_pair e sch (EE.1, (e.next EE.2).2)).1,
      (e.next EE.2).1 :: (engine.run_pair e sch (EE.1, (e.next EE.2).2)).2)

/-- The operator `==` on `mrg5s::parameter_type`:
`P1.a1==P2.a1 and P1.a2==P2.a2 and P1.a3==P2.a3 and P1.a4==P2.a4 and P1.a5==P2.a5`. -/
def mrg5s.parameter_type.eq (P1 P2 : mrg5s.parameter_type) : Bool :=
  decide (P1.a1 = P2.a1) && decide (P1.a2 = P2.a2) && decide (P1.a3 = P2.a3) &&
    decide (P1.a4 = P2.a4) && decide (P1.a5 = P2.a5)

/-- The operator `!=` on `mrg5s::parameter_type`: `not (P1==P2)`. -/
def mrg5s.parameter_type.ne (P1 P2 : mrg5s.parameter_type) : Bool := !(P1.eq P2)

/-- The operator `==` on `mrg5s::status_type`:
`S1.r1==S2.r1 and S1.r2==S2.r2 and S1.r3==S2.r3 and S1.r4==S2.r4 and S1.r5==S2.r5`. -/
def mrg5s.status_type.eq (S1 S2 : mrg5s.status_type) : Bool :=
  decide (S1.r1 = S2.r1) && decide (S1.r2 = S2.r2) && decide (S1.r3 = S2.r3) &&
    decide (S1.r4 = S2.r4) && decide (S1.r5 = S2.r5)

/-- The operator `!=` on `mrg5s::status_type`: `not (S1==S2)`. -/
def mrg5s.status_type.ne (S1 S2 : mrg5s.status_type) : Bool := !(S1.eq S2)

/-- The operator `==` on `mrg5s`: `R1.P==R2.P and R1.S==R2.S`. -/
def mrg5s.eq (R1 R2 : mrg5s) : Bool := R1.P.eq R2.P && R1.S.eq R2.S

/-- The operator `!=` on `mrg5s`: `not (R1==R2)`. -/
def mrg5s.ne (R1 R2 : mrg5s) : Bool := !(R1.eq R2)

/-! ## The engine `lcg64_shift` (`src/lcg64_shift.cc`)

The class is declared in `trng/lcg64_shift.hpp`, which is not among the sources:
`result_type` is the unsigned 64-bit integer type, `parameter_type` holds the multiplier `a`
and the increment `b`, `status_type` holds the state `r`. Unsigned 64-bit values are natural
numbers below `2 ^ 64`. -/

/-- The class `lcg64_shift::parameter_type`: the multiplier `a` and the increment `b`. -/
structure lcg64_shift.parameter_type where
  a : Nat
  b : Nat
deriving DecidableEq, Repr

/-- The class `lcg64_shift::status_type`: the state `r`. -/
structure lcg64_shift.status_type where
  r : Nat
deriving DecidableEq, Repr

/-- The class `lcg64_shift`: the parameter block `P` and the status block `S`. -/
structure lcg64_shift where
  P : lcg64_shift.parameter_type
  S : lcg64_shift.status_type
deriving DecidableEq, Repr

namespace lcg64_shift

/-- The operator `==` on `lcg64_shift::parameter_type`: `P1.a==P2.a and P1.b==P2.b`. -/
def parameter_type.eq (P1 P2 : parameter_type) : Bool :=
  decide (P1.a = P2.a) && decide (P1.b = P2.b)

/-- The operator `!=` on `lcg64_shift::parameter_type`: `not (P1==P2)`. -/
def parameter_type.ne (P1 P2 : parameter_type) : Bool := !(P1.eq P2)

/-- The operator `==` on `lcg64_shift::status_type`: `S1.r==S2.r`. -/
def status_type.eq (S1 S2 : status_type) : Bool := decide (S1.r = S2.r)

/-- The operator `!=` on `lcg64_shift::status_type`: `not (S1==S2)`. -/
def status_type.ne (S1 S2 : status_type) : Bool := !(S1.eq S2)

/-- The parameter set `lcg64_shift::Default`. -/
def Default : parameter_type := ⟨18145460002477866997, 1⟩

/-- The parameter set `lcg64_shift::LEcuyer1`. -/
def LEcuyer1 : parameter_type := ⟨2862933555777941757, 1⟩

/-- The parameter set `lcg64_shift::LEcuyer2`. -/
def LEcuyer2 : parameter_type := ⟨3202034522624059733, 1⟩

/-- The parameter set `lcg64_shift::LEcuyer3`. -/
def LEcuyer3 : parameter_type := ⟨3935559000370003845, 1⟩

/-- The constructor `lcg64_shift(parameter_type P) : P(P), S() { }`. The default status
`S()` is declared in `trng/lcg64_shift.hpp` and is taken as the parameter `S0`. -/
def ctor (S0 : status_type) (P : parameter_type) : lcg64_shift := ⟨P, S0⟩

/-- Modelled from the spec: the default-constructed engine `lcg64_shift()`. The source
defines only `lcg64_shift(parameter_type P)`; the default argument of `P` is declared in
`trng/lcg64_shift.hpp` (not part of the sources at hand) and is the parameter set `Default`
("a default is selected"). -/
def ctor0 (S0 : status_type) : lcg64_shift := ctor S0 Default

/-- The assignment of a new status block to `S`, the parameter block `P` staying as it is. -/
def set_S (R : lcg64_shift) (S1 : status_type) : lcg64_shift := ⟨R.P, S1⟩

/-- The conversion `static_cast<result_type>(s)` to the unsigned 64-bit type. -/
def cast64 (s : Nat) : Nat := s % 18446744073709551616

/-- The methods `seed(unsigned long s)` and `seed(unsigned long long s)`:
`S.r = static_cast<result_type>(s);`. -/
def seed (R : lcg64_shift) (s : Nat) : lcg64_shift := set_S R ⟨cast64 s⟩

/-- The method `seed()`: `(*this) = lcg64_shift();`. The engine held before is overwritten
as a whole. -/
def seed0 (S0 : status_type) (_R : lcg64_shift) : lcg64_shift := ctor0 S0

/-- The constructors `lcg64_shift(unsigned long s, parameter_type P)` and
`lcg64_shift(unsigned long long s, parameter_type P)`: `P(P), S() { seed(s); }`. -/
def ctor_seed (S0 : status_type) (s : Nat) (P : parameter_type) : lcg64_shift :=
  seed (ctor S0 P) s

/-- The operator `==` on `lcg64_shift`: `R1.P==R2.P and R1.S==R2.S`. -/
def eq (R1 R2 : lcg64_shift) : Bool := R1.P.eq R2.P && R1.S.eq R2.S

/-- The operator `!=` on `lcg64_shift`: `not (R1==R2)`. -/
def ne (R1 R2 : lcg64_shift) : Bool := !(R1.eq R2)

/-- The method `name()`. -/
def name : String := "lcg64_shift"

end lcg64_shift

/-- An engine with the parameter set `LEcuyer2` and the state `12345`. -/
def lcg64_shift.example_engine : lcg64_shift := ⟨lcg64_shift.LEcuyer2, ⟨12345⟩⟩

/-! ## Distributions (`src/bernoulli_dist.hpp`, `src/beta_dist.hpp`, `src/student_t_dist.hpp`)

Floating-point values are modelled by `fval`: a finite value is an exact rational number
(rounding is not modelled, and `-0.0` is `0`), next to the two infinities and the quiet NaN.
The comparisons follow IEEE 754: every comparison with NaN is false. The routines of
`trng/math.hpp` and `trng/special_functions.hpp` (`math::Beta`, `math::Beta_I`,
`math::inv_Beta_I`, `math::pow`, …) are not among the sources: a value computed by them is
kept as the call itself, a node of `fexpr`. The error indicator `errno` is a state passed in
and out of the functions that can set it. -/

/-- A floating-point value: a finite number, `+infinity`, `-infinity` or the quiet NaN. -/
inductive fval where
  | num (q : ℚ)
  | pinf
  | ninf
  | nan
deriving DecidableEq

namespace fval

/-- The operator `<` on floating-point values. -/
def lt : fval → fval → Bool
  | num a, num b => decide (a < b)
  | ninf, num _ => true
  | ninf, pinf => true
  | num _, pinf => true
  | _, _ => false

/-- The operator `<=` on floating-point values. -/
def le : fval → fval → Bool
  | num a, num b => decide (a ≤ b)
  | ninf, num _ => true
  | ninf, pinf => true
  | ninf, ninf => true
  | num _, pinf => true
  | pinf, pinf => true
  | _, _ => false

/-- The operator `>` on floating-point values. -/
def gt (a b : fval) : Bool := lt b a

/-- The operator `>=` on floating-point values. -/
def ge (a b : fval) : Bool := le b a

/-- The operator `==` on floating-point values: NaN is equal to nothing, itself included. -/
def eqb : fval → fval → Bool
  | num a, num b => decide (a = b)
  | pinf, pinf => true
  | ninf, ninf => true
  | _, _ => false

/-- The operator `-` on floating-point values, exact on finite values. -/
def sub : fval → fval → fval
  | num a, num b => num (a - b)
  | num _, pinf => ninf
  | num _, ninf => pinf
  | pinf, num _ => pinf
  | pinf, ninf => pinf
  | pinf, pinf => nan
  | ninf, num _ => ninf
  | ninf, pinf => ninf
  | ninf, ninf => nan
  | nan, _ => nan
  | _, nan => nan

end fval

/-- A result of type `result_type`: a literal value, or the value of a call of a routine that
is not among the sources, kept as the call with its arguments.
* `lit v`: a value written in the source (`0`, `1`, `quiet_NaN()`, `infinity()`);
* `Beta a b`: the call `math::Beta(a, b)`;
* `Beta_I x a b norm`: the call `math::Beta_I(x, a, b, norm)`;
* `inv_Beta_I x a b norm`: the call `math::inv_Beta_I(x, a, b, norm)`;
* `beta_pdf x alpha beta norm`: the expression
  `1/norm*math::pow(x, alpha-1)*math::pow(1-x, beta-1)`;
* `student_t_icdf_ nu x`: the call `icdf_(x)` of `student_t_dist` with parameter `nu`. -/
inductive fexpr where
  | lit (v : fval)
  | Beta (a b : fval)
  | Beta_I (x a b : fval) (norm : fexpr)
  | inv_Beta_I (x a b : fval) (norm : fexpr)
  | beta_pdf (x alpha beta : fval) (norm : fexpr)
  | student_t_icdf_ (nu : Int) (x : fval)
deriving DecidableEq

/-- Whether a result is a call of one of the incomplete-beta routines `math::Beta_I`,
`math::inv_Beta_I`. -/
def fexpr.calls_incomplete_beta : fexpr → Bool
  | .Beta_I _ _ _ _ => true
  | .inv_Beta_I _ _ _ _ => true
  | _ => false

/-- The value `EDOM` of `<cerrno>` (33 on Linux; only its identity matters here). -/
def EDOM : Nat := 33

/-- The class `bernoulli_dist<T>::param_type`: the probability `p` (a `double`, read as an
exact rational number) and the two outcomes `head` and `tail`. The class `bernoulli_dist<T>`
holds one such block `P` and nothing else, so its methods are functions of the block. -/
structure bernoulli_dist.param_type (T : Type) where
  p : ℚ
  head : T
  tail : T

namespace bernoulli_dist

/-- The method `operator()(R &r)`: `utility::uniformco<double>(r) < P.p() ? P.head() :
P.tail()`. The routine `utility::uniformco` is not among the sources: its draw `u` is the
argument. -/
def sample {T : Type} (P : param_type T) (u : ℚ) : T := if u < P.p then P.head else P.tail

/-- The method `min()`: `return P.head();`. -/
def min {T : Type} (P : param_type T) : T := P.head

/-- The method `max()`: `return P.tail();`. -/
def max {T : Type} (P : param_type T) : T := P.tail

/-- The method `pdf(x)`:
`if (x==P.head()) return P.p(); else if (x==P.tail()) return 1.0-P.p(); return 0.0;`. -/
def pdf {T : Type} [DecidableEq T] (P : param_type T) (x : T) : ℚ :=
  if x = P.head then P.p else if x = P.tail then 1 - P.p else 0

/-- The method `cdf(x)`:
`if (x==P.head()) return P.p(); else if (x==P.tail()) return 1.0; return 0.0;`. -/
def cdf {T : Type} [DecidableEq T] (P : param_type T) (x : T) : ℚ :=
  if x = P.head then P.p else if x = P.tail then 1 else 0

/-- Follows the spec's words, not the source: the standard cumulative distribution function,
the probability that a sample is `<= x`, "the sum of `pdf` over the outcomes in
`{head, tail}` that are `<= x`" (for `head != tail`). -/
def cdf_standard {T : Type} [LinearOrder T] (P : param_type T) (x : T) : ℚ :=
  (if P.head ≤ x then pdf P P.head else 0) + (if P.tail ≤ x then pdf P P.tail else 0)

/-- The function template `operator==<T>(p1, p2)` on `bernoulli_dist<T>::param_type`:
`p1.p()==p2.p() and p1.head()==p2.head() and p1.tail()==p2.tail()`, called with the template
argument written out (`T` cannot be deduced from the parameters). -/
def param_type.eq {T : Type} [DecidableEq T] (p1 p2 : param_type T) : Bool :=
  decide (p1.p = p2.p) && decide (p1.head = p2.head) && decide (p1.tail = p2.tail)

/-- The distribution `bernoulli_dist<int>(0.37, 1, 0)`, written `[bernoulli (0.37 1 0)]`. -/
def example_param : param_type Int := ⟨37 / 100, 1, 0⟩

/-- The distribution `bernoulli_dist<int>(0.25, 0, 1)`. -/
def coin_param : param_type Int := ⟨1 / 4, 0, 1⟩

/-- The distribution `bernoulli_dist<int>(0.25, 1, 1)`, whose two outcomes coincide. -/
def degenerate_param : param_type Int := ⟨1 / 4, 1, 1⟩

end bernoulli_dist

/-- The class `beta_dist<float_t>::param_type`: `alpha_`, `beta_` and the cached
normalisation `norm_`, the value of a call of `math::Beta`. -/
structure beta_dist.param_type where
  alpha : fval
  beta : fval
  norm : fexpr
deriving DecidableEq

/-- The class `beta_dist<float_t>`: its only member is the param block `p`. -/
structure beta_dist where
  p : beta_dist.param_type
deriving DecidableEq

namespace beta_dist

/-- The constructor `param_type(result_type alpha, result_type beta) : alpha_(alpha),
beta_(beta), norm_(math::Beta(alpha, beta))`. -/
def param_type.ctor (alpha beta : fval) : param_type := ⟨alpha, beta, .Beta alpha beta⟩

/-- The constructor `beta_dist(result_type alpha, result_type beta) : p(alpha, beta)`. -/
def ctor (alpha beta : fval) : beta_dist := ⟨param_type.ctor alpha beta⟩

/-- The method `param()`: `return p;`. -/
def param (g : beta_dist) : param_type := g.p

/-- The method `min()`: `return result_type(0);`. -/
def min (_g : beta_dist) : fval := .num 0

/-- The method `max()`: `return result_type(1);`. -/
def max (_g : beta_dist) : fval := .num 1

/-- The method `pdf(x)`, with the value of `errno` before and after the call:
`if (x<0 or x>1) return 0;`
`if ((x==0 and p.alpha()-1<0) or (x==1 and p.beta()-1<0)) { errno=EDOM; return quiet_NaN(); }`
`return 1/p.norm()*math::pow(x, p.alpha()-1)*math::pow(1-x, p.beta()-1);`. -/
def pdf (g : beta_dist) (errno : Nat) (x : fval) : fexpr × Nat :=
  if x.lt (.num 0) || x.gt (.num 1) then (.lit (.num 0), errno)
  else if (x.eqb (.num 0) && (g.p.alpha.sub (.num 1)).lt (.num 0)) ||
      (x.eqb (.num 1) && (g.p.beta.sub (.num 1)).lt (.num 0)) then
    (.lit .nan, EDOM)
  else (.beta_pdf x g.p.alpha g.p.beta g.p.norm, errno)

/-- The method `cdf(x)`: `if (x<=0) return 0; if (x>=1) return 1;`
`return math::Beta_I(x, p.alpha(), p.beta(), p.norm());`. -/
def cdf (g : beta_dist) (x : fval) : fexpr :=
  if x.le (.num 0) then .lit (.num 0)
  else if x.ge (.num 1) then .lit (.num 1)
  else .Beta_I x g.p.alpha g.p.beta g.p.norm

/-- The method `icdf(x)`, with the value of `errno` before and after the call:
`if (x<0 or x>1) { errno=EDOM; return quiet_NaN(); }`
`if (x==0) return 0; if (x==1) return 1;`
`return math::inv_Beta_I(x, p.alpha(), p.beta(), p.norm());`. -/
def icdf (g : beta_dist) (errno : Nat) (x : fval) : fexpr × Nat :=
  if x.lt (.num 0) || x.gt (.num 1) then (.lit .nan, EDOM)
  else if x.eqb (.num 0) then (.lit (.num 0), errno)
  else if x.eqb (.num 1) then (.lit (.num 1), errno)
  else (.inv_Beta_I x g.p.alpha g.p.beta g.p.norm, errno)

/-- The function template `operator==<float_t>(p1, p2)` on `beta_dist<float_t>::param_type`:
`return p1.alpha()==p2.alpha();`. Its parameters have the type
`typename beta_dist<float_t>::param_type`, from which `float_t` cannot be deduced: the
function is called with the template argument written out,
`trng::operator==<double>(p1, p2)`. The operators whose bodies use the plain expressions
`p1==p2` and `g1.param()==g2.param()` (`operator!=` on the param block, `operator==` and
`operator!=` on `beta_dist`) have no instantiation and are not embedded. -/
def param_type.eq (p1 p2 : param_type) : Bool := p1.alpha.eqb p2.alpha

end beta_dist

/-- The class `student_t_dist<float_t>::param_type`: the number of degrees of freedom
`int nu_`. -/
structure student_t_dist.param_type where
  nu : Int
deriving DecidableEq, Repr

/-- The class `student_t_dist<float_t>`: its only member is the param block `p`. -/
structure student_t_dist where
  p : student_t_dist.param_type
deriving DecidableEq, Repr

namespace student_t_dist

/-- The constructor `student_t_dist(int nu) : p(nu)`. -/
def ctor (nu : Int) : student_t_dist := ⟨⟨nu⟩⟩

/-- The method `min()`: `return -infinity();`. -/
def min (_g : student_t_dist) : fval := .ninf

/-- The method `max()`: `return infinity();`. -/
def max (_g : student_t_dist) : fval := .pinf

/-- The method `icdf(x)`, with the value of `errno` before and after the call:
`if (x<=0 or x>=1) { errno=EDOM; return quiet_NaN(); }`
`if (x==0) return -infinity(); if (x==1) return infinity();`
`return icdf_(x);`. -/
def icdf (g : student_t_dist) (errno : Nat) (x : fval) : fexpr × Nat :=
  if x.le (.num 0) || x.ge (.num 1) then (.lit .nan, EDOM)
  else if x.eqb (.num 0) then (.lit .ninf, errno)
  else if x.eqb (.num 1) then (.lit .pinf, errno)
  else (.student_t_icdf_ g.p.nu x, errno)

/-- The function template `operator==<float_t>(p1, p2)` on
`student_t_dist<float_t>::param_type`: `return p1.nu()==p2.nu();`, called with the template
argument written out (`float_t` cannot be deduced from the parameters); the operators built
on the plain expression `p1==p2` have no instantiation and are not embedded. -/
def param_type.eq (p1 p2 : param_type) : Bool := decide (p1.nu = p2.nu)

end student_t_dist

/-! ## The named presets of the lagged-Fibonacci engines

Each tuple of taps is declared for four element types: `unsigned long`, `unsigned long long`
(both 64 bits wide on an LP64 platform), `uint32_t` and `uint64_t`. -/

/-- The word widths of the element types of the presets, in the order `_ul`, `_ull`, `_32`,
`_64`. -/
def preset_digits : List Nat := [64, 64, 32, 64]

/-- The taps `(A, B)` of the typedefs `lagfib2plus_521_*` … `lagfib2plus_19937_*`. -/
def lagfib2plus.preset_taps : List (Nat × Nat) :=
  [(168, 521), (273, 607), (418, 1279), (1029, 2281), (576, 3217), (2098, 4423), (4187, 9689),
    (9842, 19937)]

/-- The taps `(A, B)` of the typedefs `r250_*`, `lagfib2xor_521_*` … `lagfib2xor_19937_*`. -/
def lagfib2xor.preset_taps : List (Nat × Nat) :=
  [(103, 250), (168, 521), (273, 607), (418, 1279), (1029, 2281), (576, 3217), (2098, 4423),
    (4187, 9689), (9842, 19937)]

/-- The taps `(A, B, C, D)` of the typedefs `Ziff_*`, `lagfib4xor_521_*` …
`lagfib4xor_19937_*`. -/
def lagfib4xor.preset_taps : List (Nat × Nat × Nat × Nat) :=
  [(471, 1586, 6988, 9689), (168, 205, 242, 521), (147, 239, 515, 607), (418, 705, 992, 1279),
    (305, 610, 915, 2281), (576, 871, 1461, 3217), (1419, 1736, 2053, 4423),
    (471, 2032, 4064, 9689), (3860, 7083, 11580, 19937)]

/-- The typedefs `Ziff_ul`, `Ziff_ull`, `Ziff_32`, `Ziff_64`. -/
def lagfib4xor.Ziff : List engine :=
  preset_digits.map fun w => engine.lagfib4xor w 471 1586 6988 9689

/-- Every named preset of the three class templates, as an engine type. -/
def engine.presets : List engine :=
  (lagfib2plus.preset_taps.flatMap fun t => preset_digits.map fun w =>
      engine.lagfib2plus w t.1 t.2) ++
    (lagfib2xor.preset_taps.flatMap fun t => preset_digits.map fun w =>
      engine.lagfib2xor w t.1 t.2) ++
    (lagfib4xor.preset_taps.flatMap fun t => preset_digits.map fun w =>
      engine.lagfib4xor w t.1 t.2.1 t.2.2.1 t.2.2.2)

/-- The taps of an engine are strictly increasing. -/
def engine.taps_increasing (e : engine) : Bool :=
  match e.taps with
  | [A, B] => decide (A < B)
  | [A, B, C, D] => decide (A < B) && decide (B < C) && decide (C < D)
  | _ => false

/-! ## Param blocks, sampling and text input of the distributions; `generate_canonical`

The routines `utility::uniformoo` and `utility::uniformco` of `trng/utility.hpp` are not
among the sources: a call of one of them on an engine in state `r` is a function from the
state to the draw and the new state, taken as a parameter. The extraction `in >> x` of a
floating-point variable belongs to the standard library and is a parameter `extract_float`
as well, from the stream to the stream after the extraction and the value read. -/

namespace beta_dist

/-- The constructor `param_type() : alpha_(1), beta_(1), norm_(math::Beta(alpha_, beta_))`;
the members are initialised in the order of their declaration `alpha_, beta_, norm_`. -/
def param_type.ctor0 : param_type := ⟨.num 1, .num 1, .Beta (.num 1) (.num 1)⟩

/-- The setter `alpha(alpha_new)`: `alpha_=alpha_new; norm_=math::Beta(alpha_, beta_);`. -/
def param_type.set_alpha (p : param_type) (alpha_new : fval) : param_type :=
  ⟨alpha_new, p.beta, .Beta alpha_new p.beta⟩

/-- The setter `beta(beta_new)`: `beta_=beta_new; norm_=math::Beta(alpha_, beta_);`. -/
def param_type.set_beta (p : param_type) (beta_new : fval) : param_type :=
  ⟨p.alpha, beta_new, .Beta p.alpha beta_new⟩

/-- The extraction `operator>>(istream &in, param_type &p)`:
`in >> utility::delim('(') >> alpha >> utility::delim(' ') >> beta >> utility::delim(')');`
`if (in) p=param_type(alpha, beta);`. -/
def param_type.read (extract_float : istream → istream × fval) (inp : istream)
    (p : param_type) : istream × param_type :=
  let a := extract_float (delim '(' inp)
  let b := extract_float (delim ' ' a.1)
  let in3 := delim ')' b.1
  if in3.fail then (in3, p) else (in3, param_type.ctor a.2 b.2)

/-- The method `param(p_new)`: `p=p_new;`. -/
def set_param (_g : beta_dist) (p_new : param_type) : beta_dist := ⟨p_new⟩

/-- The extraction `operator>>(istream &in, beta_dist &g)`: `param_type p;`
`in >> utility::ignore_spaces() >> utility::delim("[beta ") >> p >> utility::delim(']');`
`if (in) g.param(p);`. -/
def read (extract_float : istream → istream × fval) (inp : istream) (g : beta_dist) :
    istream × beta_dist :=
  let pr := param_type.read extract_float
    (delim_str ['[', 'b', 'e', 't', 'a', ' '] (ignore_spaces inp)) param_type.ctor0
  let in2 := delim ']' pr.1
  if in2.fail then (in2, g) else (in2, g.set_param pr.2)

/-- The method `operator()(R &r)`:
`return math::inv_Beta_I(utility::uniformoo<result_type>(r), p.alpha(), p.beta(), p.norm());`.
Returns the sample and the new state of the engine. -/
def sample {σ : Type} (g : beta_dist) (uniformoo : σ → fval × σ) (r : σ) : fexpr × σ :=
  (.inv_Beta_I (uniformoo r).1 g.p.alpha g.p.beta g.p.norm, (uniformoo r).2)

end beta_dist

namespace student_t_dist

/-- The method `operator()(R &r)`: `return icdf_(utility::uniformoo<result_type>(r));`.
Returns the sample and the new state of the engine. -/
def sample {σ : Type} (g : student_t_dist) (uniformoo : σ → fval × σ) (r : σ) : fexpr × σ :=
  (.student_t_icdf_ g.p.nu (uniformoo r).1, (uniformoo r).2)

end student_t_dist

/-- The class `normal_dist<float_t>::param_type`: `mu_` and `sigma_`. The floating-point
type is read as a field `K` with exact arithmetic (the rational or the real numbers). The
class `normal_dist<float_t>` holds one such block `p` and nothing else, so its methods are
functions of the block. -/
structure normal_dist.param_type (K : Type) where
  mu : K
  sigma : K

namespace normal_dist

/-- The constructor `param_type() : mu_(0), sigma_(1)`. -/
def param_type.ctor0 {K : Type} [Field K] : param_type K := ⟨0, 1⟩

/-- The method `pdf(x)`: `result_type t(x-p.mu());`
`return math::constants<result_type>::one_over_sqrt_2pi()/p.sigma()*`
`math::exp(t*t/(-2*p.sigma()*p.sigma()));`. The function `math::exp` and the constant
`one_over_sqrt_2pi` of `trng/math.hpp` are parameters. -/
def pdf {K : Type} [Field K] (exp : K → K) (one_over_sqrt_2pi : K) (p : param_type K)
    (x : K) : K :=
  one_over_sqrt_2pi / p.sigma * exp ((x - p.mu) * (x - p.mu) / (-2 * p.sigma * p.sigma))

/-- The method `cdf(x)`: `x-=p.mu(); x/=p.sigma(); return math::Phi(x);`. -/
def cdf {K : Type} [Field K] (Phi : K → K) (p : param_type K) (x : K) : K :=
  Phi ((x - p.mu) / p.sigma)

/-- The method `icdf(x)`: `return math::inv_Phi(x)*p.sigma()+p.mu();`. -/
def icdf {K : Type} [Field K] (inv_Phi : K → K) (p : param_type K) (x : K) : K :=
  inv_Phi x * p.sigma + p.mu

/-- The method `operator()(R &r)`: `return icdf(utility::uniformoo<result_type>(r));`.
Returns the sample and the new state of the engine. -/
def sample {K σ : Type} [Field K] (inv_Phi : K → K) (p : param_type K)
    (uniformoo : σ → K × σ) (r : σ) : K × σ :=
  (icdf inv_Phi p (uniformoo r).1, (uniformoo r).2)

end normal_dist

namespace detail

end detail

/-- An engine state that counts its calls, with a `uniformoo` routine that draws `1/2`. -/
def half_draw (r : Nat) : fval × Nat := (.num (1 / 2), r + 1)

/-- An engine state that counts its calls, with a routine that draws the rational `1/2`. -/
def half_draw_rat (r : Nat) : ℚ × Nat := (1 / 2, r + 1)

/-- A stand-in for the extraction `in >> x` of a floating-point variable in examples: it
accepts an unsigned decimal integer. -/
def extract_float_example (inp : istream) : istream × fval :=
  ((extract (2 ^ 32) inp 0).1, .num ((extract (2 ^ 32) inp 0).2 : ℚ))

/-! ## The text form of the Student t distribution -/

/-- Modelled from the spec: `out << n` for an `int` under the flags `dec | fixed | left`
(standard library, not part of the sources at hand): the decimal digits of the magnitude,
preceded by `-` for a negative value, without padding or grouping. -/
def to_dec_int (n : Int) : List Char :=
  if n < 0 then '-' :: to_dec n.natAbs else to_dec n.toNat

/-- Modelled from the spec: `in >> x` for an `int` `x` (standard library, not part of the
sources at hand), with the flags set to `dec | fixed | left`, so that no white space is
skipped: an optional sign `-` or `+`, then a non-empty run of decimal digits; the stream
fails when there is no digit or when the value lies outside `[-2^31, 2^31 - 1]`, and `x` is
then `0`, respectively the nearest bound. A failed stream is left alone and `x` keeps its
value `old`. Returns the stream and the value of `x`. -/
def extract_int (inp : istream) (old : Int) : istream × Int :=
  if inp.fail then (inp, old)
  else
    match inp.buf with
    | [] => ({ inp with fail := true }, 0)
    | c :: cs =>
      if c = '-' then
        ((extract_magnitude 2147483649 cs).1, -((extract_magnitude 2147483649 cs).2 : Int))
      else if c = '+' then
        ((extract_magnitude 2147483648 cs).1, ((extract_magnitude 2147483648 cs).2 : Int))
      else
        ((extract_magnitude 2147483648 (c :: cs)).1,
          ((extract_magnitude 2147483648 (c :: cs)).2 : Int))

/-- The text of a number as `in >> x` accepts it for an `int` `x`: a run of decimal digits,
after an optional sign, with a value in `[-2^31, 2^31 - 1]`. -/
def is_int_text (t : List Char) : Prop :=
  ∃ ds, (is_number 2147483648 ds ∧ (t = ds ∨ t = '+' :: ds)) ∨
    (is_number 2147483649 ds ∧ t = '-' :: ds)

namespace student_t_dist

/-- The insertion `operator<<(ostream &out, const param_type &p)`:
`out << '(' << p.nu() << ')'`. -/
def param_type.write (p : param_type) : List Char := '(' :: to_dec_int p.nu ++ [')']

/-- The extraction `operator>>(istream &in, param_type &p)`: `int nu;`
`in >> utility::delim('(') >> nu >> utility::delim(')'); if (in) p=param_type(nu);`. The
local `nu` is not initialised; its value before the extraction is taken as `0`. -/
def param_type.read (inp : istream) (p : param_type) : istream × param_type :=
  let x := extract_int (delim '(' inp) 0
  let in3 := delim ')' x.1
  if in3.fail then (in3, p) else (in3, ⟨x.2⟩)

/-- The method `param()`: `return p;`. -/
def param (g : student_t_dist) : param_type := g.p

/-- The method `param(p_new)`: `p=p_new;`. -/
def set_param (_g : student_t_dist) (p_new : param_type) : student_t_dist := ⟨p_new⟩

/-- The insertion `operator<<(ostream &out, const student_t_dist &g)`:
`out << "[student_t " << g.param() << ']'`. -/
def write (g : student_t_dist) : List Char :=
  ['[', 's', 't', 'u', 'd', 'e', 'n', 't', '_', 't', ' '] ++ g.param.write ++ [']']

/-- The extraction `operator>>(istream &in, student_t_dist &g)`: `param_type p;`
`in >> utility::ignore_spaces() >> utility::delim("[student_t ") >> p >> utility::delim(']');`
`if (in) g.param(p);`. The local `p` is default-constructed (`nu = 1`). -/
def read (inp : istream) (g : student_t_dist) : istream × student_t_dist :=
  let pr := param_type.read
    (delim_str ['[', 's', 't', 'u', 'd', 'e', 'n', 't', '_', 't', ' '] (ignore_spaces inp)) ⟨1⟩
  let in2 := delim ']' pr.1
  if in2.fail then (in2, g) else (in2, g.set_param pr.2)

/-- The texts that `operator>>` of `student_t_dist` accepts: optional leading white space,
then `[student_t (nu)]` with `nu` the text of an `int`, then whatever follows. -/
def accepted_form (text : List Char) : Prop :=
  ∃ (ws t rest : List Char), (∀ c ∈ ws, c.isWhitespace = true) ∧ is_int_text t ∧
    text = ws ++ ['[', 's', 't', 'u', 'd', 'e', 'n', 't', '_', 't', ' ', '('] ++ t ++
      ')' :: ']' :: rest

end student_t_dist

/-! # Theorems -/


/-! ## Facts on `ceil2` and `mask` -/

theorem utility_ceil2_loop_spec (fuel : Nat) : ∀ (j x : Nat), 2 ^ j < x → x ≤ 2 ^ (j + fuel) →
    ∃ k, ceil2_loop fuel (2 ^ (j + 1)) x = 2 ^ k ∧ x ≤ 2 ^ k ∧ 2 ^ k < 2 * x ∧ k ≤ j + fuel := by
  induction fuel with
  | zero => intro j x h1 h2; simp at h2; omega
  | succ f ih =>
    intro j x h1 h2
    simp only [ceil2_loop]
    by_cases hx : x ≤ 2 ^ (j + 1)
    · rw [if_pos hx]
      exact ⟨j + 1, rfl, hx, by rw [pow_succ]; omega, by omega⟩
    · rw [if_neg hx]
      have h3 : 2 * 2 ^ (j + 1) = 2 ^ (j + 1 + 1) := by rw [pow_succ 2 (j + 1)]; ring
      rw [h3]
      obtain ⟨k, e1, e2, e3, e4⟩ := ih (j + 1) x (by omega) (by
        have : j + 1 + f = j + (f + 1) := by omega
        rw [this]; exact h2)
      exact ⟨k, e1, e2, e3, by omega⟩

theorem utility_ceil2_spec (x : Nat) :
    ∃ k, ceil2 x = 2 ^ k ∧ x ≤ 2 ^ k ∧ (2 ≤ x → 2 ^ k < 2 * x) := by
  rcases Nat.lt_or_ge x 2 with h | h
  · refine ⟨0, ?_, by omega, by omega⟩
    interval_cases x <;> rfl
  · obtain ⟨y, rfl⟩ : ∃ y, x = y + 1 := ⟨x - 1, by omega⟩
    have hy : y + 1 ≤ 2 ^ (0 + y) := by
      have := Nat.lt_two_pow y
      simpa using this
    obtain ⟨k, e1, e2, e3, _⟩ := utility_ceil2_loop_spec y 0 (y + 1) (by simpa using h) hy
    refine ⟨k, ?_, e2, fun _ => e3⟩
    have hne : ¬ (y + 1 ≤ 1) := by omega
    simpa [ceil2, ceil2_loop, hne] using e1

/-- The model of `ceil2` is the spec's `2^⌈log₂ x⌉`. -/
theorem utility_ceil2_eq_two_pow_clog (x : Nat) : ceil2 x = 2 ^ Nat.clog 2 x := by
  obtain ⟨k, e1, e2, e3⟩ := utility_ceil2_spec x
  rw [e1]
  congr 1
  apply le_antisymm
  · rcases Nat.lt_or_ge x 2 with h | h
    · have hk : k = 0 := by
        have h1 : ceil2 x = 1 := by interval_cases x <;> rfl
        rw [e1] at h1
        by_contra hk0
        have := Nat.one_lt_two_pow hk0
        omega
      omega
    · by_contra hlt
      push_neg at hlt
      have h1 : x ≤ 2 ^ Nat.clog 2 x := Nat.le_pow_clog (by norm_num) x
      have h2 : 2 ^ (Nat.clog 2 x + 1) ≤ 2 ^ k := Nat.pow_le_pow_right (by norm_num) hlt
      have h3 := e3 h
      rw [pow_succ] at h2
      omega
  · exact (Nat.le_pow_iff_clog_le (by norm_num)).1 e2

/-- For a tap `B` that fits an `unsigned int`, the ring size is a power of two dividing `2^32`. -/
theorem utility_ceil2_pow_le (B : Nat) (hB : B < 2 ^ 32) :
    ∃ k, k ≤ 32 ∧ ceil2 B = 2 ^ k ∧ mask B = 2 ^ k - 1 ∧ B ≤ 2 ^ k := by
  obtain ⟨k, e1, e2, e3⟩ := utility_ceil2_spec B
  refine ⟨k, ?_, e1, by rw [mask, e1], e2⟩
  rcases Nat.lt_or_ge B 2 with h | h
  · have h1 : ceil2 B = 1 := by interval_cases B <;> rfl
    rw [e1] at h1
    by_contra hk0
    have := Nat.one_lt_two_pow (n := k) (by omega)
    omega
  · by_contra hk
    push_neg at hk
    have h2 : 2 ^ 33 ≤ 2 ^ k := Nat.pow_le_pow_right (by norm_num) hk
    have h3 := e3 h
    omega

/-! ## Index arithmetic -/

theorem mod32_land_mask (i k : Nat) (hk : k ≤ 32) :
    (i % 2 ^ 32) &&& (2 ^ k - 1) = i % 2 ^ k := by
  rw [Nat.and_pow_two_sub_one_eq_mod, Nat.mod_mod_of_dvd _ (pow_dvd_pow 2 hk)]

theorem sub32_land_mask (j t k : Nat) (hk : k ≤ 32) (ht : t ≤ 2 ^ k) (ht32 : t < 2 ^ 32) :
    sub32 j t &&& (2 ^ k - 1) = (j + 2 ^ k - t) % 2 ^ k := by
  unfold sub32
  rw [mod32_land_mask _ _ hk, Nat.mod_eq_of_lt ht32]
  obtain ⟨q, hq⟩ : (2 : Nat) ^ k ∣ 2 ^ 32 := pow_dvd_pow 2 hk
  have hq1 : 1 ≤ q := by
    rcases Nat.eq_zero_or_pos q with h | h
    · rw [h] at hq; simp at hq
    · exact h
  obtain ⟨q, rfl⟩ : ∃ p, q = p + 1 := ⟨q - 1, by omega⟩
  have e : j + (2 ^ 32 - t) = (j + 2 ^ k - t) + 2 ^ k * q := by
    rw [hq, Nat.mul_succ]; omega
  rw [e, Nat.add_mul_mod_self_left]

theorem sub32_one (T : Nat) (h0 : 0 < T) (hT : T < 2 ^ 32) : sub32 T 1 = T - 1 := by
  unfold sub32
  norm_num at hT ⊢
  omega

theorem add_mod_ne_of_lt (N i a b : Nat) (hab : a < b) (hb : b < a + N) :
    (i + a) % N ≠ (i + b) % N := by
  intro h
  have h1 : ((i + b) - (i + a)) % N = 0 := Nat.sub_mod_eq_zero_of_mod_eq h.symm
  have h2 : (i + b) - (i + a) = b - a := by omega
  rw [h2, Nat.mod_eq_of_lt (by omega)] at h1
  omega

theorem getD_set_self (l : List Nat) (i v : Nat) (h : i < l.length) :
    (l.set i v).getD i 0 = v := by
  simp [List.getD_eq_getElem?_getD, List.getElem?_set, h]

theorem getD_set_ne (l : List Nat) (i j v : Nat) (h : i ≠ j) :
    (l.set i v).getD j 0 = l.getD j 0 := by
  simp [List.getD_eq_getElem?_getD, List.getElem?_set, h]

/-! ## Generic ring lemmas -/

section ring

variable (M : Nat) (comb : (Nat → Nat) → Nat)

theorem ring_run_succ (n : Nat) (S : status_type) :
    ring_run M comb (n + 1) S = ring_step M comb (ring_run M comb n S) := by
  induction n generalizing S with
  | zero => rfl
  | succ n ih => rw [ring_run, ih]; rfl

theorem ring_run_add (m n : Nat) (S : status_type) :
    ring_run M comb (m + n) S = ring_run M comb n (ring_run M comb m S) := by
  induction n with
  | zero => rfl
  | succ n ih => rw [← Nat.add_assoc, ring_run_succ, ring_run_succ, ih]

theorem ring_step_length (S : status_type) :
    (ring_step M comb S).r.length = S.r.length := by
  simp [ring_step]

theorem ring_run_length (n : Nat) (S : status_type) :
    (ring_run M comb n S).r.length = S.r.length := by
  induction n with
  | zero => rfl
  | succ n ih => rw [ring_run_succ, ring_step_length, ih]

theorem ring_step_index (k : Nat) (hk : k ≤ 32) (S : status_type) :
    (ring_step (2 ^ k - 1) comb S).index = (S.index + 1) % 2 ^ k := by
  simp only [ring_step]
  exact mod32_land_mask _ _ hk

theorem ring_run_index (k : Nat) (hk : k ≤ 32) (n : Nat) (S : status_type) :
    (ring_run (2 ^ k - 1) comb (n + 1) S).index = (S.index + (n + 1)) % 2 ^ k := by
  induction n with
  | zero => exact ring_step_index comb k hk S
  | succ n ih =>
    rw [ring_run_succ, ring_step_index comb k hk, ih, Nat.mod_add_mod]
    rfl

theorem ring_run_index_mod (k : Nat) (hk : k ≤ 32) (n : Nat) (S : status_type) :
    (ring_run (2 ^ k - 1) comb n S).index % 2 ^ k = (S.index + n) % 2 ^ k := by
  cases n with
  | zero => rfl
  | succ n => rw [ring_run_index comb k hk, Nat.mod_mod]

/-- A slot that none of the first `n` steps addresses still holds its old word. -/
theorem ring_run_stable (k : Nat) (hk : k ≤ 32) (s n : Nat) (S : status_type)
    (h : ∀ i, 1 ≤ i → i ≤ n → (S.index + i) % 2 ^ k ≠ s) :
    (ring_run (2 ^ k - 1) comb n S).r.getD s 0 = S.r.getD s 0 := by
  induction n with
  | zero => rfl
  | succ n ih =>
    rw [ring_run_succ]
    have hi := ring_step_index comb k hk (ring_run (2 ^ k - 1) comb n S)
    have hne : (ring_step (2 ^ k - 1) comb (ring_run (2 ^ k - 1) comb n S)).index ≠ s := by
      rw [hi, Nat.add_mod, ring_run_index_mod comb k hk, ← Nat.add_mod]
      exact h (n + 1) (by omega) (by omega)
    have e : (ring_step (2 ^ k - 1) comb (ring_run (2 ^ k - 1) comb n S)).r =
        (ring_run (2 ^ k - 1) comb n S).r.set
          (ring_step (2 ^ k - 1) comb (ring_run (2 ^ k - 1) comb n S)).index
          (comb fun t => (ring_run (2 ^ k - 1) comb n S).r.getD
            (sub32 (ring_step (2 ^ k - 1) comb (ring_run (2 ^ k - 1) comb n S)).index t
              &&& (2 ^ k - 1)) 0) := rfl
    rw [e, getD_set_ne _ _ _ _ hne]
    exact ih (fun i h1 h2 => h i h1 (by omega))

/-- What a step stores under the new index, when the ring has `2 ^ k` slots. -/
theorem ring_step_out (k : Nat) (hk : k ≤ 32) (S : status_type) (hlen : S.r.length = 2 ^ k) :
    (ring_step (2 ^ k - 1) comb S).r.getD (ring_step (2 ^ k - 1) comb S).index 0 =
      comb fun t => S.r.getD (sub32 ((S.index + 1) % 2 ^ k) t &&& (2 ^ k - 1)) 0 := by
  have hi := ring_step_index comb k hk S
  have e : (ring_step (2 ^ k - 1) comb S).r =
      S.r.set (ring_step (2 ^ k - 1) comb S).index
        (comb fun t => S.r.getD (sub32 (ring_step (2 ^ k - 1) comb S).index t
            &&& (2 ^ k - 1)) 0) := rfl
  rw [e, getD_set_self, hi]
  rw [hi, hlen]
  exact Nat.mod_lt _ (Nat.two_pow_pos k)

theorem tap_address (N x i0 n t : Nat) (hx : x % N = (i0 + n) % N) (ht : t ≤ N) :
    ((x + 1) % N + N - t) % N = (i0 + (n + 1 + N - t)) % N := by
  have e1 : (x + 1) % N + N - t = (x + 1) % N + (N - t) := by omega
  have e2 : i0 + (n + 1 + N - t) = (i0 + n) + (1 + (N - t)) := by omega
  rw [e1, Nat.mod_add_mod, e2, Nat.add_mod (i0 + n), ← hx, ← Nat.add_mod]
  congr 1
  omega

theorem hist_slot (N i0 n t : Nat) (ht : t ≤ N) :
    ((((i0 : Int) + (((n : Int) + 1) - (t : Int))) % (N : Int)).toNat) =
      (i0 + (n + 1 + N - t)) % N := by
  have e : ((i0 : Int) + (((n : Int) + 1) - (t : Int))) % (N : Int) =
      (((i0 + (n + 1 + N - t)) % N : Nat) : Int) := by
    have c : (((i0 + (n + 1 + N - t) : Nat)) : Int) =
        ((i0 : Int) + (((n : Int) + 1) - (t : Int))) + (N : Int) := by omega
    rw [Int.natCast_mod, c, Int.add_emod_self]
  rw [e, Int.toNat_natCast]

/-- The word read at tap `t` by step `n + 1` is the history entry `n + 1 - t`. -/
theorem ring_read_hist (k : Nat) (hk : k ≤ 32) (S : status_type) (n t : Nat)
    (ht1 : 1 ≤ t) (ht : t ≤ 2 ^ k) (ht32 : t < 2 ^ 32) :
    (ring_run (2 ^ k - 1) comb n S).r.getD
        (sub32 (((ring_run (2 ^ k - 1) comb n S).index + 1) % 2 ^ k) t &&& (2 ^ k - 1)) 0 =
      hist (2 ^ k) S (ring_out (2 ^ k - 1) comb S) (((n : Int) + 1) - (t : Int)) := by
  have hN : 0 < 2 ^ k := Nat.two_pow_pos k
  rw [sub32_land_mask _ _ _ hk ht ht32,
    tap_address _ _ S.index n t (ring_run_index_mod comb k hk n S) ht]
  unfold hist
  by_cases hc : t ≤ n
  · have hpos : (0 : Int) < ((n : Int) + 1) - (t : Int) := by omega
    rw [if_pos hpos]
    obtain ⟨j, hj⟩ : ∃ j, n + 1 - t = j + 1 := ⟨n - t, by omega⟩
    have hj2 : (((n : Int) + 1) - (t : Int)).toNat = j + 1 := by omega
    have hsplit : n = (j + 1) + (t - 1) := by omega
    have hidx := ring_run_index comb k hk j S
    have haddr : (S.index + (n + 1 + 2 ^ k - t)) % 2 ^ k =
        (ring_run (2 ^ k - 1) comb (j + 1) S).index := by
      rw [hidx]
      have : S.index + (n + 1 + 2 ^ k - t) = S.index + (j + 1) + 2 ^ k := by omega
      rw [this, Nat.add_mod_right]
    rw [hj2, ring_out, haddr]
    conv_lhs => rw [hsplit, ring_run_add]
    apply ring_run_stable comb k hk
    intro i h1 h2
    have hlt : (ring_run (2 ^ k - 1) comb (j + 1) S).index < 2 ^ k := by
      rw [hidx]; exact Nat.mod_lt _ hN
    have := add_mod_ne_of_lt (2 ^ k) (ring_run (2 ^ k - 1) comb (j + 1) S).index 0 i
      (by omega) (by omega)
    rw [Nat.add_zero, Nat.mod_eq_of_lt hlt] at this
    exact fun h => this h.symm
  · have hneg : ¬ ((0 : Int) < ((n : Int) + 1) - (t : Int)) := by omega
    rw [if_neg hneg, hist_slot _ _ _ _ ht]
    apply ring_run_stable comb k hk
    intro i h1 h2
    exact add_mod_ne_of_lt (2 ^ k) S.index i (n + 1 + 2 ^ k - t) (by omega) (by omega)

/-- The `n + 1`-st output is `comb` applied to the history entries `n + 1 - t`, provided `comb`
only looks at taps `t` with `1 ≤ t ≤ T`, where `T` fits the ring and an `unsigned int`. -/
theorem ring_out_rec (k : Nat) (hk : k ≤ 32) (T : Nat) (hT : T ≤ 2 ^ k) (hT32 : T < 2 ^ 32)
    (hcomb : ∀ f g : Nat → Nat, (∀ t, 1 ≤ t → t ≤ T → f t = g t) → comb f = comb g)
    (S : status_type) (hlen : S.r.length = 2 ^ k) (n : Nat) :
    ring_out (2 ^ k - 1) comb S (n + 1) =
      comb fun t => hist (2 ^ k) S (ring_out (2 ^ k - 1) comb S) (((n : Int) + 1) - (t : Int)) := by
  rw [ring_out, ring_run_succ,
    ring_step_out comb k hk _ ((ring_run_length _ comb n S).trans hlen)]
  apply hcomb
  intro t h1 h2
  exact ring_read_hist comb k hk S n t h1 (le_trans h2 hT) (lt_of_le_of_lt h2 hT32)

end ring

/-! ## The three engines as instances of the generic ring -/

theorem lagfib2plus_step_eq (w A B : Nat) (S : status_type) :
    lagfib2plus.step w A B S = ring_step (mask B) (comb2plus w A B) S := rfl

theorem lagfib2xor_step_eq (A B : Nat) (S : status_type) :
    lagfib2xor.step A B S = ring_step (mask B) (comb2xor A B) S := rfl

theorem lagfib4xor_step_eq (A B C D : Nat) (S : status_type) :
    lagfib4xor.step A B C D S = ring_step (mask D) (comb4xor A B C D) S := rfl

theorem lagfib2plus_calls_eq (w A B n : Nat) (S : status_type) :
    lagfib2plus.calls w A B n S = ring_run (mask B) (comb2plus w A B) n S := by
  induction n generalizing S with
  | zero => rfl
  | succ n ih => rw [lagfib2plus.calls, ih]; rfl

theorem lagfib2xor_calls_eq (A B n : Nat) (S : status_type) :
    lagfib2xor.calls A B n S = ring_run (mask B) (comb2xor A B) n S := by
  induction n generalizing S with
  | zero => rfl
  | succ n ih => rw [lagfib2xor.calls, ih]; rfl

theorem lagfib4xor_calls_eq (A B C D n : Nat) (S : status_type) :
    lagfib4xor.calls A B C D n S = ring_run (mask D) (comb4xor A B C D) n S := by
  induction n generalizing S with
  | zero => rfl
  | succ n ih => rw [lagfib4xor.calls, ih]; rfl

theorem lagfib2plus_discard_eq (w A B n : Nat) (S : status_type) :
    lagfib2plus.discard w A B n S = ring_run (mask B) (comb2plus w A B) n S := by
  induction n generalizing S with
  | zero => rfl
  | succ n ih => rw [lagfib2plus.discard, ih]; rfl

theorem lagfib2xor_discard_eq (A B n : Nat) (S : status_type) :
    lagfib2xor.discard A B n S = ring_run (mask B) (comb2xor A B) n S := by
  induction n generalizing S with
  | zero => rfl
  | succ n ih => rw [lagfib2xor.discard, ih]; rfl

theorem lagfib4xor_discard_eq (A B C D n : Nat) (S : status_type) :
    lagfib4xor.discard A B C D n S = ring_run (mask D) (comb4xor A B C D) n S := by
  induction n generalizing S with
  | zero => rfl
  | succ n ih => rw [lagfib4xor.discard, ih]; rfl

theorem lagfib2plus_output_eq (w A B n : Nat) (S : status_type) :
    lagfib2plus.output w A B S (n + 1) = ring_out (mask B) (comb2plus w A B) S (n + 1) := by
  rw [ring_out, ring_run_succ, ← lagfib2plus_calls_eq]
  rfl

theorem lagfib2xor_output_eq (A B n : Nat) (S : status_type) :
    lagfib2xor.output A B S (n + 1) = ring_out (mask B) (comb2xor A B) S (n + 1) := by
  rw [ring_out, ring_run_succ, ← lagfib2xor_calls_eq]
  rfl

theorem lagfib4xor_output_eq (A B C D n : Nat) (S : status_type) :
    lagfib4xor.output A B C D S (n + 1) = ring_out (mask D) (comb4xor A B C D) S (n + 1) := by
  rw [ring_out, ring_run_succ, ← lagfib4xor_calls_eq]
  rfl

/-- The history only looks at outputs with a positive number. -/
theorem hist_congr (N : Nat) (S : status_type) (f g : Nat → Nat)
    (h : ∀ n, f (n + 1) = g (n + 1)) (k : Int) : hist N S f k = hist N S g k := by
  unfold hist
  split
  · rename_i hk
    obtain ⟨j, hj⟩ : ∃ j, k.toNat = j + 1 := ⟨k.toNat - 1, by omega⟩
    rw [hj, h]
  · rfl

/-! ## C1, C2: the ring buffer computes the lagged-Fibonacci recurrence -/

/-- C1: for `lagfib2plus<T,A,B>` with `0 < A < B`, ring size `N = ceil2 B = 2^⌈log₂ B⌉` and any
start state (any index, any ring words), the outputs `x 1, x 2, …` of `operator()` together
with the initial ring words `x k` at slot `(index + k) mod N` for `k ≤ 0` satisfy
`x n = (x (n - A) + x (n - B)) mod 2^w` for every `n ≥ 1`. -/
theorem lagfib2plus_two_tap_recurrence (w A B : Nat) (hA : 0 < A) (hAB : A < B)
    (hB : B < 2 ^ 32) (S : status_type) (hlen : S.r.length = ceil2 B) (n : Nat) (hn : 1 ≤ n) :
    lagfib2plus.x w A B S (n : Int) =
      (lagfib2plus.x w A B S ((n : Int) - (A : Int)) +
        lagfib2plus.x w A B S ((n : Int) - (B : Int))) % 2 ^ w := by
  obtain ⟨k, hk, e1, e2, hle⟩ := utility_ceil2_pow_le B hB
  obtain ⟨m, rfl⟩ : ∃ m, n = m + 1 := ⟨n - 1, by omega⟩
  have hcomb : ∀ f g : Nat → Nat, (∀ t, 1 ≤ t → t ≤ B → f t = g t) →
      comb2plus w A B f = comb2plus w A B g := by
    intro f g h
    simp only [comb2plus]
    rw [h A hA (le_of_lt hAB), h B (by omega) (le_refl B)]
  have hrec := ring_out_rec (comb2plus w A B) k hk B hle hB hcomb S (hlen.trans e1) m
  have hx : ∀ j : Int, lagfib2plus.x w A B S j =
      hist (2 ^ k) S (ring_out (2 ^ k - 1) (comb2plus w A B) S) j := by
    intro j
    rw [lagfib2plus.x, e1]
    apply hist_congr
    intro i
    rw [lagfib2plus_output_eq, e2]
  rw [hx, hx, hx]
  have hpos : (0 : Int) < ((m + 1 : Nat) : Int) := by omega
  have hto : (((m + 1 : Nat) : Int)).toNat = m + 1 := by omega
  conv_lhs => rw [hist, if_pos hpos, hto, hrec]
  simp only [comb2plus]
  push_cast
  rfl

/-- Witness for C1: the 32-bit engine with taps 1 and 3, ring `[1, 2, 3, 0]`, index 2. -/
theorem lagfib2plus_two_tap_recurrence_witness :
    lagfib2plus.x 32 1 3 ⟨[1, 2, 3, 0], 2⟩ ((1 : Nat) : Int) =
      (lagfib2plus.x 32 1 3 ⟨[1, 2, 3, 0], 2⟩ (((1 : Nat) : Int) - ((1 : Nat) : Int)) +
        lagfib2plus.x 32 1 3 ⟨[1, 2, 3, 0], 2⟩ (((1 : Nat) : Int) - ((3 : Nat) : Int))) % 2 ^ 32 :=
  lagfib2plus_two_tap_recurrence 32 1 3 (by decide) (by decide) (by decide)
    ⟨[1, 2, 3, 0], 2⟩ (by decide) 1 (by decide)

/-- C2: for `lagfib4xor<T,A,B,C,D>` with `0 < A < B < C < D`, ring size `N = ceil2 D` and any
start state, the outputs and the initial ring words (as `x k`, slot `(index + k) mod N`, for
`k ≤ 0`) satisfy `x n = x (n-A) xor x (n-B) xor x (n-C) xor x (n-D)` for every `n ≥ 1`. -/
theorem lagfib4xor_four_tap_recurrence (A B C D : Nat) (hA : 0 < A) (hAB : A < B)
    (hBC : B < C) (hCD : C < D) (hD : D < 2 ^ 32) (S : status_type)
    (hlen : S.r.length = ceil2 D) (n : Nat) (hn : 1 ≤ n) :
    lagfib4xor.x A B C D S (n : Int) =
      lagfib4xor.x A B C D S ((n : Int) - (A : Int)) ^^^
        lagfib4xor.x A B C D S ((n : Int) - (B : Int)) ^^^
        lagfib4xor.x A B C D S ((n : Int) - (C : Int)) ^^^
        lagfib4xor.x A B C D S ((n : Int) - (D : Int)) := by
  obtain ⟨k, hk, e1, e2, hle⟩ := utility_ceil2_pow_le D hD
  obtain ⟨m, rfl⟩ : ∃ m, n = m + 1 := ⟨n - 1, by omega⟩
  have hcomb : ∀ f g : Nat → Nat, (∀ t, 1 ≤ t → t ≤ D → f t = g t) →
      comb4xor A B C D f = comb4xor A B C D g := by
    intro f g h
    simp only [comb4xor]
    rw [h A hA (by omega), h B (by omega) (by omega), h C (by omega) (by omega),
      h D (by omega) (le_refl D)]
  have hrec := ring_out_rec (comb4xor A B C D) k hk D hle hD hcomb S (hlen.trans e1) m
  have hx : ∀ j : Int, lagfib4xor.x A B C D S j =
      hist (2 ^ k) S (ring_out (2 ^ k - 1) (comb4xor A B C D) S) j := by
    intro j
    rw [lagfib4xor.x, e1]
    apply hist_congr
    intro i
    rw [lagfib4xor_output_eq, e2]
  rw [hx, hx, hx, hx, hx]
  have hpos : (0 : Int) < ((m + 1 : Nat) : Int) := by omega
  have hto : (((m + 1 : Nat) : Int)).toNat = m + 1 := by omega
  conv_lhs => rw [hist, if_pos hpos, hto, hrec]
  simp only [comb4xor]
  push_cast
  rfl

/-- Witness for C2: taps 1, 2, 3, 5 on an 8-slot ring. -/
theorem lagfib4xor_four_tap_recurrence_witness :
    lagfib4xor.x 1 2 3 5 ⟨[1, 2, 4, 8, 16, 0, 0, 0], 4⟩ ((1 : Nat) : Int) =
      lagfib4xor.x 1 2 3 5 ⟨[1, 2, 4, 8, 16, 0, 0, 0], 4⟩ (((1 : Nat) : Int) - ((1 : Nat) : Int)) ^^^
        lagfib4xor.x 1 2 3 5 ⟨[1, 2, 4, 8, 16, 0, 0, 0], 4⟩ (((1 : Nat) : Int) - ((2 : Nat) : Int)) ^^^
        lagfib4xor.x 1 2 3 5 ⟨[1, 2, 4, 8, 16, 0, 0, 0], 4⟩ (((1 : Nat) : Int) - ((3 : Nat) : Int)) ^^^
        lagfib4xor.x 1 2 3 5 ⟨[1, 2, 4, 8, 16, 0, 0, 0], 4⟩ (((1 : Nat) : Int) - ((5 : Nat) : Int)) :=
  lagfib4xor_four_tap_recurrence 1 2 3 5 (by decide) (by decide) (by decide) (by decide)
    (by decide) ⟨[1, 2, 4, 8, 16, 0, 0, 0], 4⟩ (by decide) 1 (by decide)

/-! ## The engine family as instances of the generic ring -/

theorem engine_step_eq (e : engine) (S : status_type) :
    e.step S = ring_step (mask e.tap_max) e.comb S := by
  cases e <;> rfl

theorem engine_next_eq (e : engine) (S : status_type) :
    e.next S = ((e.step S).r.getD (e.step S).index 0, e.step S) := by
  cases e <;> rfl

theorem engine_calls_eq (e : engine) (n : Nat) (S : status_type) :
    e.calls n S = ring_run (mask e.tap_max) e.comb n S := by
  cases e
  · exact lagfib2plus_calls_eq _ _ _ _ _
  · exact lagfib2xor_calls_eq _ _ _ _
  · exact lagfib4xor_calls_eq _ _ _ _ _ _

theorem engine_discard_eq (e : engine) (n : Nat) (S : status_type) :
    e.discard n S = ring_run (mask e.tap_max) e.comb n S := by
  cases e
  · exact lagfib2plus_discard_eq _ _ _ _ _
  · exact lagfib2xor_discard_eq _ _ _ _
  · exact lagfib4xor_discard_eq _ _ _ _ _ _

theorem engine_output_eq (e : engine) (n : Nat) (S : status_type) :
    e.output S (n + 1) = ring_out (mask e.tap_max) e.comb S (n + 1) := by
  cases e
  · exact lagfib2plus_output_eq _ _ _ _ _
  · exact lagfib2xor_output_eq _ _ _ _
  · exact lagfib4xor_output_eq _ _ _ _ _ _

theorem engine_calls_succ (e : engine) (n : Nat) (S : status_type) :
    e.calls (n + 1) S = e.step (e.calls n S) := by
  rw [engine_calls_eq, engine_calls_eq, engine_step_eq, ring_run_succ]

theorem engine_output_succ (e : engine) (n : Nat) (S : status_type) :
    e.output S (n + 1) = (e.next (e.calls n S)).1 := by
  cases e <;> rfl

/-! ## C9: `discard(n)` is `n` calls of `operator()` -/

/-- C9: for every lagged-Fibonacci engine, every state `S` and every `n`: `discard(n)` followed
by `operator()` returns the same value and leaves the same state as `n` calls of `operator()`
(results dropped) followed by one more call. -/
theorem discard_then_next_eq_calls_then_next (e : engine) (S : status_type) (n : Nat) :
    e.next (e.discard n S) = e.next (e.calls n S) := by
  rw [engine_discard_eq, engine_calls_eq]

/-! ## C10: the all-zero ring is a fixed point of `lagfib4xor` -/

theorem all_zero_getD (l : List Nat) (h : ∀ x ∈ l, x = 0) (i : Nat) : l.getD i 0 = 0 := by
  rw [List.getD_eq_getElem?_getD]
  cases hi : l[i]? with
  | none => rfl
  | some v => exact h v (List.getElem?_mem hi)

theorem all_zero_set (l : List Nat) (h : ∀ x ∈ l, x = 0) (i : Nat) : ∀ x ∈ l.set i 0, x = 0 := by
  intro x hx
  rcases List.mem_or_eq_of_mem_set hx with h1 | h1
  · exact h x h1
  · exact h1

theorem lagfib4xor_step_all_zero (A B C D : Nat) (S : status_type) (h : ∀ x ∈ S.r, x = 0) :
    ∀ x ∈ (lagfib4xor.step A B C D S).r, x = 0 := by
  simp only [lagfib4xor.step, all_zero_getD S.r h]
  exact all_zero_set S.r h _

theorem lagfib4xor_calls_all_zero (A B C D : Nat) (n : Nat) (S : status_type)
    (h : ∀ x ∈ S.r, x = 0) : ∀ x ∈ (lagfib4xor.calls A B C D n S).r, x = 0 := by
  induction n generalizing S with
  | zero => exact h
  | succ n ih => exact ih _ (lagfib4xor_step_all_zero A B C D S h)

/-- C10: for every `lagfib4xor` engine whose ring is all zero (whatever the index and the
taps), every call of `operator()` returns `0` and leaves the ring all zero: the `n`-th call
returns `0` and the ring after `n` calls is all zero, for every `n`. -/
theorem lagfib4xor_zero_ring_fixed (A B C D : Nat) (S : status_type) (h : ∀ x ∈ S.r, x = 0)
    (n : Nat) :
    lagfib4xor.output A B C D S (n + 1) = 0 ∧
      (lagfib4xor.next A B C D (lagfib4xor.calls A B C D n S)).1 = 0 ∧
      ∀ x ∈ (lagfib4xor.calls A B C D (n + 1) S).r, x = 0 := by
  have h1 := lagfib4xor_calls_all_zero A B C D n S h
  have h2 := lagfib4xor_step_all_zero A B C D _ h1
  refine ⟨?_, ?_, lagfib4xor_calls_all_zero A B C D (n + 1) S h⟩
  · exact all_zero_getD _ h2 _
  · exact all_zero_getD _ h2 _

/-- Witness for C10: the Ziff-style engine with taps 1, 2, 3, 5 on eight zero words, index 6. -/
theorem lagfib4xor_zero_ring_fixed_witness :
    lagfib4xor.output 1 2 3 5 ⟨[0, 0, 0, 0, 0, 0, 0, 0], 6⟩ (2 + 1) = 0 ∧
      (lagfib4xor.next 1 2 3 5 (lagfib4xor.calls 1 2 3 5 2 ⟨[0, 0, 0, 0, 0, 0, 0, 0], 6⟩)).1 = 0 ∧
      ∀ x ∈ (lagfib4xor.calls 1 2 3 5 (2 + 1) ⟨[0, 0, 0, 0, 0, 0, 0, 0], 6⟩).r, x = 0 :=
  lagfib4xor_zero_ring_fixed 1 2 3 5 ⟨[0, 0, 0, 0, 0, 0, 0, 0], 6⟩ (by decide) 2

/-! ## C3: the bits of the seeded words -/

theorem gen_advance_add {σ : Type} (G : gen σ) (m n : Nat) (g : σ) :
    G.advance (m + n) g = G.advance n (G.advance m g) := by
  induction m generalizing g with
  | zero => simp [gen.advance]
  | succ m ih =>
    have : m + 1 + n = (m + n) + 1 := by omega
    rw [this, gen.advance, ih]
    rfl

theorem gen_draw_advance {σ : Type} (G : gen σ) (m n : Nat) (g : σ) :
    G.draw (G.advance m g) n = G.draw g (m + n) := by
  rw [gen.draw, gen.draw, gen_advance_add]

/-- The inner seeding loop: run for `c` rounds on an accumulator `r` with room for `c` more
bits, it appends the `c` test results below `r`, most significant first. -/
theorem seed_bits_spec {σ : Type} (G : gen σ) (w : Nat) (c : Nat) :
    ∀ (r : Nat) (g : σ), c ≤ w → r < 2 ^ (w - c) →
      (seed_bits G w c r g).2 = G.advance c g ∧
      ∃ V, V < 2 ^ c ∧ (seed_bits G w c r g).1 = 2 ^ c * r + V ∧
        ∀ m, m < c → V.testBit (c - 1 - m) = decide (G.draw g m - G.min > G.max / 2) := by
  induction c with
  | zero =>
    intro r g _ _
    exact ⟨rfl, 0, by simp, by simp [seed_bits], fun m hm => absurd hm (Nat.not_lt_zero m)⟩
  | succ c ih =>
    intro r g hc hr
    have hpow : 2 ^ (w - c) = 2 * 2 ^ (w - (c + 1)) := by
      have : w - c = (w - (c + 1)) + 1 := by omega
      rw [this, pow_succ]; ring
    have hle : 2 ^ (w - c) ≤ 2 ^ w := Nat.pow_le_pow_right (by norm_num) (Nat.sub_le w c)
    have hr1 : (r <<< 1) % 2 ^ w = 2 * r := by
      rw [Nat.shiftLeft_eq, pow_one, Nat.mul_comm, Nat.mod_eq_of_lt (by omega)]
    have hr2 : (2 * r + 1) % 2 ^ w = 2 * r + 1 := Nat.mod_eq_of_lt (by omega)
    simp only [seed_bits, hr1, hr2]
    by_cases hb : (G.next g).1 - G.min > G.max / 2
    · rw [if_pos hb]
      obtain ⟨e1, V, hV, e2, e3⟩ := ih (2 * r + 1) (G.next g).2 (by omega) (by omega)
      refine ⟨e1, 2 ^ c * 1 + V, ?_, ?_, ?_⟩
      · rw [pow_succ]; omega
      · rw [e2, pow_succ]; ring
      · intro m hm
        rw [Nat.testBit_mul_pow_two_add 1 hV]
        cases m with
        | zero =>
          have h1 : ¬ (c + 1 - 1 - 0 < c) := by omega
          have h2 : c + 1 - 1 - 0 - c = 0 := by omega
          rw [if_neg h1, h2]
          simp [gen.draw, gen.advance, hb]
        | succ m =>
          have h1 : c + 1 - 1 - (m + 1) < c := by omega
          have h2 : c + 1 - 1 - (m + 1) = c - 1 - m := by omega
          rw [if_pos h1, h2, e3 m (by omega)]
          rfl
    · rw [if_neg hb]
      obtain ⟨e1, V, hV, e2, e3⟩ := ih (2 * r) (G.next g).2 (by omega) (by omega)
      refine ⟨e1, 2 ^ c * 0 + V, ?_, ?_, ?_⟩
      · rw [pow_succ]; omega
      · rw [e2, pow_succ]; ring
      · intro m hm
        rw [Nat.testBit_mul_pow_two_add 0 hV]
        cases m with
        | zero =>
          have h1 : ¬ (c + 1 - 1 - 0 < c) := by omega
          have h2 : c + 1 - 1 - 0 - c = 0 := by omega
          rw [if_neg h1, h2]
          simp [gen.draw, gen.advance, hb]
        | succ m =>
          have h1 : c + 1 - 1 - (m + 1) < c := by omega
          have h2 : c + 1 - 1 - (m + 1) = c - 1 - m := by omega
          rw [if_pos h1, h2, e3 m (by omega)]
          rfl

/-- One seeded word: `w` rounds from `r = 0`. -/
theorem seed_word_spec {σ : Type} (G : gen σ) (w : Nat) (g : σ) :
    (seed_bits G w w 0 g).2 = G.advance w g ∧ (seed_bits G w w 0 g).1 < 2 ^ w ∧
      ∀ j, j < w → (seed_bits G w w 0 g).1.testBit (w - 1 - j) =
        decide (G.draw g j - G.min > G.max / 2) := by
  obtain ⟨e1, V, hV, e2, e3⟩ := seed_bits_spec G w w 0 g (le_refl w) (by simp)
  have e : (seed_bits G w w 0 g).1 = V := by rw [e2]; simp
  exact ⟨e1, by rw [e]; exact hV, by rw [e]; exact e3⟩

/-- The outer seeding loop run for `c` rounds from slot `i`: it leaves the source advanced by
`c * w` draws, keeps the index and the ring length, changes no slot outside `[i, i + c)`, and
stores in slot `i + m` the word built from the draws `m * w, …, m * w + w - 1`. -/
theorem seed_words_spec {σ : Type} (G : gen σ) (w : Nat) (c : Nat) :
    ∀ (i : Nat) (S : status_type) (g : σ),
      (seed_words G w c i S g).2 = G.advance (c * w) g ∧
      (seed_words G w c i S g).1.index = S.index ∧
      (seed_words G w c i S g).1.r.length = S.r.length ∧
      (∀ s, (s < i ∨ i + c ≤ s) → (seed_words G w c i S g).1.r.getD s 0 = S.r.getD s 0) ∧
      ∀ m, m < c → i + m < S.r.length →
        (seed_words G w c i S g).1.r.getD (i + m) 0 =
          (seed_bits G w w 0 (G.advance (m * w) g)).1 := by
  induction c with
  | zero =>
    intro i S g
    refine ⟨by simp [seed_words, gen.advance], rfl, rfl, fun s _ => rfl, ?_⟩
    intro m hm
    exact absurd hm (Nat.not_lt_zero m)
  | succ c ih =>
    intro i S g
    obtain ⟨a1, a2, a3, a4, a5⟩ := ih (i + 1) { S with r := S.r.set i (seed_bits G w w 0 g).1 }
      (seed_bits G w w 0 g).2
    have hadv := (seed_word_spec G w g).1
    simp only [seed_words]
    refine ⟨?_, a2, ?_, ?_, ?_⟩
    · rw [a1, hadv, ← gen_advance_add]
      congr 1
      ring
    · rw [a3]; simp
    · intro s hs
      rw [a4 s (by omega)]
      exact getD_set_ne _ _ _ _ (by omega)
    · intro m hm hlt
      cases m with
      | zero =>
        rw [a4 (i + 0) (by omega)]
        simp only [Nat.add_zero, Nat.zero_mul, gen.advance]
        exact getD_set_self _ _ _ hlt
      | succ m =>
        have h1 : i + (m + 1) = (i + 1) + m := by omega
        rw [h1, a5 m (by omega) (by simp; omega), hadv, ← gen_advance_add]
        congr 3
        ring

theorem status_type_set_index_r (S : status_type) (i : Nat) : (S.set_index i).r = S.r := rfl

theorem status_type_set_index_index (S : status_type) (i : Nat) : (S.set_index i).index = i := rfl

theorem seed_gen_fst {σ : Type} (G : gen σ) (w T : Nat) (S : status_type) (g : σ) :
    (seed_gen G w T S g).1 = (seed_words G w T 0 S g).1.set_index (sub32 T 1) := rfl

theorem seed_gen_snd {σ : Type} (G : gen σ) (w T : Nat) (S : status_type) (g : σ) :
    (seed_gen G w T S g).2 = (seed_words G w T 0 S g).2 := by
  unfold seed_gen
  rfl

/-- What `seed(gen &g)` leaves in the status: the index `T - 1`, the ring length unchanged,
the slots from `T` on unchanged, and in slot `i < T` a `w`-bit word whose bit `w - 1 - j` is
the outcome of the test `d - gen::min() > gen::max() / 2` on draw `i * w + j`. -/
theorem seed_gen_spec {σ : Type} (G : gen σ) (w T : Nat) (S : status_type) (g : σ) :
    (seed_gen G w T S g).2 = G.advance (T * w) g ∧
    (seed_gen G w T S g).1.index = sub32 T 1 ∧
    (seed_gen G w T S g).1.r.length = S.r.length ∧
    (∀ s, T ≤ s → (seed_gen G w T S g).1.r.getD s 0 = S.r.getD s 0) ∧
    ∀ i, i < T → i < S.r.length →
      (seed_gen G w T S g).1.r.getD i 0 < 2 ^ w ∧
      ∀ j, j < w → ((seed_gen G w T S g).1.r.getD i 0).testBit (w - 1 - j) =
        decide (G.draw g (i * w + j) - G.min > G.max / 2) := by
  have hh := seed_words_spec G w T 0 S g
  rw [seed_gen_snd, seed_gen_fst, status_type_set_index_r, status_type_set_index_index]
  refine ⟨hh.1, Eq.refl _, hh.2.2.1, ?_, ?_⟩
  · intro s hs
    exact hh.2.2.2.1 s (Or.inr (by omega))
  · intro i hi hlen
    have h := hh.2.2.2.2 i hi (by omega)
    rw [Nat.zero_add] at h
    have hw := seed_word_spec G w (G.advance (i * w) g)
    rw [h]
    refine ⟨hw.2.1, fun j hj => ?_⟩
    rw [hw.2.2 j hj, gen_draw_advance]

theorem engine_seed_gen_eq {σ : Type} (G : gen σ) (e : engine) (S : status_type) (g : σ) :
    e.seed_gen G S g = trng.seed_gen G e.digits e.tap_max S g := by
  cases e <;> rfl

theorem utility_le_ceil2 (x : Nat) : x ≤ ceil2 x := by
  obtain ⟨k, e1, e2, _⟩ := utility_ceil2_spec x
  rw [e1]; exact e2

/-- C3 (amended): for every lagged-Fibonacci engine and every source `g`, `seed(g)` builds each
of the first `tap_max` ring words from `w` draws, most significant bit first: bit `w - 1 - j`
of word `i` is `1` if and only if draw number `i * w + j` satisfies
`d - g.min > g.max / 2` (integer division), the threshold being half of `g.max`. -/
theorem seed_gen_bits (e : engine) {σ : Type} (G : gen σ) (S : status_type) (g : σ)
    (hlen : S.r.length = e.size) (i j : Nat) (hi : i < e.tap_max) (hj : j < e.digits) :
    ((e.seed_gen G S g).1.r.getD i 0).testBit (e.digits - 1 - j) =
      decide (G.draw g (i * e.digits + j) - G.min > G.max / 2) := by
  rw [engine_seed_gen_eq]
  have hle : i < S.r.length := by
    rw [hlen]
    exact lt_of_lt_of_le hi (utility_le_ceil2 _)
  exact ((seed_gen_spec G e.digits e.tap_max S g).2.2.2.2 i hi hle).2 j hj

/-- Witness for C3 (amended): the 32-bit `lagfib2plus` with taps 1 and 3 seeded from the die
in state 3; bit 31 of word 0 is decided by draw 0. -/
theorem seed_gen_bits_witness :
    ((engine.seed_gen die (engine.lagfib2plus 32 1 3) (status_type.init 4) 3).1.r.getD 0 0).testBit
        ((engine.lagfib2plus 32 1 3).digits - 1 - 0) =
      decide (die.draw 3 (0 * (engine.lagfib2plus 32 1 3).digits + 0) - die.min > die.max / 2) :=
  seed_gen_bits (engine.lagfib2plus 32 1 3) die (status_type.init 4) 3 (by decide) 0 0
    (by decide) (by decide)

/-- C3 as stated fails: seeding the 32-bit `lagfib2plus` with taps 1 and 3 from the die
(`min = 1`, `max = 6`) whose first draw is `4`, the most significant bit of word 0 is `0`
(`4 - 1 > 6 / 2` is false) although `4 - 1 > (6 - 1) / 2` holds. -/
theorem seed_gen_bits_midpoint_counterexample :
    die.draw 3 (0 * 32 + 0) = 4 ∧
    ((engine.seed_gen die (engine.lagfib2plus 32 1 3) (status_type.init 4) 3).1.r.getD 0 0).testBit
        (32 - 1 - 0) = false ∧
    decide (die.draw 3 (0 * 32 + 0) - die.min > (die.max - die.min) / 2) = true :=
  ⟨by decide, by decide, by decide⟩

/-! ## C4: the slots beyond `tap_max` -/

theorem engine_ctor_gen_eq {σ : Type} (G : gen σ) (e : engine) (g : σ) :
    e.ctor_gen G g = trng.seed_gen G e.digits e.tap_max (status_type.init e.size) g := by
  cases e <;> rfl

theorem status_type_init_getD (size s : Nat) : (status_type.init size).r.getD s 0 = 0 :=
  all_zero_getD _ (fun _ hx => (List.mem_replicate.1 hx).2) s

theorem status_type_init_length (size : Nat) : (status_type.init size).r.length = size := by
  simp [status_type.init]

theorem engine_write_slot_eq (e : engine) (S : status_type) :
    (e.step S).index = e.write_slot S := by
  cases e <;> rfl

/-- The slots of `write_slot` and `read_slots` are the ones `step()` addresses: it stores the
combination of the words read at the tap addresses under the advanced index. -/
theorem engine_step_slots (e : engine) (S : status_type) :
    e.step S = ⟨S.r.set (e.write_slot S)
        (e.comb fun t => S.r.getD (sub32 (e.write_slot S) t &&& mask e.tap_max) 0),
      e.write_slot S⟩ ∧
    e.read_slots S = e.taps.map (fun t => sub32 (e.write_slot S) t &&& mask e.tap_max) ∧
    ∀ f g : Nat → Nat, (∀ t ∈ e.taps, f t = g t) → e.comb f = e.comb g := by
  refine ⟨by cases e <;> rfl, rfl, ?_⟩
  intro f g h
  cases e with
  | lagfib2plus w A B =>
    show (f A + f B) % 2 ^ w = (g A + g B) % 2 ^ w
    rw [h A (by simp [engine.taps]), h B (by simp [engine.taps])]
  | lagfib2xor w A B =>
    show f A ^^^ f B = g A ^^^ g B
    rw [h A (by simp [engine.taps]), h B (by simp [engine.taps])]
  | lagfib4xor w A B C D =>
    show f A ^^^ f B ^^^ f C ^^^ f D = g A ^^^ g B ^^^ g C ^^^ g D
    rw [h A (by simp [engine.taps]), h B (by simp [engine.taps]), h C (by simp [engine.taps]),
      h D (by simp [engine.taps])]

theorem engine_write_slot_lt (e : engine) (S : status_type) : e.write_slot S < e.size := by
  obtain ⟨k, e1, _, _⟩ := utility_ceil2_spec e.tap_max
  have hpos : 0 < ceil2 e.tap_max := by rw [e1]; exact Nat.two_pow_pos k
  have h : e.write_slot S ≤ mask e.tap_max := Nat.and_le_right
  unfold mask at h
  unfold engine.size
  omega

theorem engine_read_slots_lt (e : engine) (S : status_type) :
    ∀ a ∈ e.read_slots S, a < e.size := by
  obtain ⟨k, e1, _, _⟩ := utility_ceil2_spec e.tap_max
  have hpos : 0 < ceil2 e.tap_max := by rw [e1]; exact Nat.two_pow_pos k
  intro a ha
  obtain ⟨t, _, rfl⟩ := List.mem_map.1 ha
  have h : sub32 (e.write_slot S) t &&& mask e.tap_max ≤ mask e.tap_max := Nat.and_le_right
  have hm : mask e.tap_max = ceil2 e.tap_max - 1 := rfl
  unfold engine.size
  omega

/-- The slot written by the step that follows `n` calls. -/
theorem engine_write_slot_calls (e : engine) (hT : e.tap_max < 2 ^ 32) (S : status_type) (n : Nat) :
    e.write_slot (e.calls n S) = (S.index + (n + 1)) % e.size := by
  obtain ⟨k, hk, e1, e2, _⟩ := utility_ceil2_pow_le e.tap_max hT
  rw [← engine_write_slot_eq, ← engine_calls_succ, engine_calls_eq, e2, engine.size, e1]
  exact ring_run_index e.comb k hk n S

/-- C4 (amended): for every lagged-Fibonacci engine seeded by `seed(g)` on a freshly constructed
status, every ring slot at position `≥ tap_max` is zero right after seeding. The steps then
run through the whole ring: the step after `n` calls writes slot `(tap_max + n) mod N`, and
every slot it reads or writes lies in `[0, N)`. -/
theorem seeded_ring_beyond_tap_max (e : engine) {σ : Type} (G : gen σ) (g : σ)
    (h0 : 0 < e.tap_max) (hT : e.tap_max < 2 ^ 32) :
    (∀ s, e.tap_max ≤ s → (e.ctor_gen G g).1.r.getD s 0 = 0) ∧
    ∀ n, e.write_slot (e.calls n (e.ctor_gen G g).1) = (e.tap_max + n) % e.size ∧
      e.write_slot (e.calls n (e.ctor_gen G g).1) < e.size ∧
      ∀ a ∈ e.read_slots (e.calls n (e.ctor_gen G g).1), a < e.size := by
  have hs := seed_gen_spec G e.digits e.tap_max (status_type.init e.size) g
  refine ⟨?_, ?_⟩
  · intro s hs1
    rw [engine_ctor_gen_eq, hs.2.2.2.1 s hs1]
    exact status_type_init_getD _ _
  · intro n
    refine ⟨?_, engine_write_slot_lt _ _, engine_read_slots_lt _ _⟩
    rw [engine_write_slot_calls e hT, engine_ctor_gen_eq, hs.2.1]
    rw [sub32_one e.tap_max h0 hT]
    congr 1
    omega

/-- Witness for C4 (amended): the 32-bit `lagfib2plus` with taps 1 and 3, seeded from the die. -/
theorem seeded_ring_beyond_tap_max_witness :
    (∀ s, (engine.lagfib2plus 32 1 3).tap_max ≤ s →
      ((engine.lagfib2plus 32 1 3).ctor_gen die 3).1.r.getD s 0 = 0) ∧
    ∀ n, (engine.lagfib2plus 32 1 3).write_slot
          ((engine.lagfib2plus 32 1 3).calls n ((engine.lagfib2plus 32 1 3).ctor_gen die 3).1) =
        ((engine.lagfib2plus 32 1 3).tap_max + n) % (engine.lagfib2plus 32 1 3).size ∧
      (engine.lagfib2plus 32 1 3).write_slot
          ((engine.lagfib2plus 32 1 3).calls n ((engine.lagfib2plus 32 1 3).ctor_gen die 3).1) <
        (engine.lagfib2plus 32 1 3).size ∧
      ∀ a ∈ (engine.lagfib2plus 32 1 3).read_slots
          ((engine.lagfib2plus 32 1 3).calls n ((engine.lagfib2plus 32 1 3).ctor_gen die 3).1),
        a < (engine.lagfib2plus 32 1 3).size :=
  seeded_ring_beyond_tap_max (engine.lagfib2plus 32 1 3) die 3 (by decide) (by decide)

/-- C4 as stated fails: the 32-bit `lagfib2plus` with taps 1 and 3 (ring size 4), freshly
seeded from the die, has index 2; its first step writes slot 3, a position `≥ tap_max = 3`,
and the word stored there, `2045222521`, is not zero. -/
theorem seeded_ring_beyond_tap_max_counterexample :
    (engine.lagfib2plus 32 1 3).tap_max = 3 ∧
    ((engine.lagfib2plus 32 1 3).ctor_gen die 3).1 =
      ⟨[1636178017, 2249744774, 409044504, 0], 2⟩ ∧
    (engine.lagfib2plus 32 1 3).write_slot ((engine.lagfib2plus 32 1 3).ctor_gen die 3).1 = 3 ∧
    ((engine.lagfib2plus 32 1 3).step
      ((engine.lagfib2plus 32 1 3).ctor_gen die 3).1).r.getD 3 0 = 2045222521 :=
  ⟨by decide, by decide, by decide, by decide⟩

/-! ## C5: equality and equal outputs -/

theorem status_type_eq_iff (size : Nat) (a b : status_type) (ha : a.r.length = size)
    (hb : b.r.length = size) : status_type.eq size a b = true ↔ a = b := by
  constructor
  · intro h
    unfold status_type.eq at h
    by_cases hi : a.index ≠ b.index
    · rw [if_pos hi] at h
      exact absurd h (by decide)
    · rw [if_neg hi] at h
      have hidx : a.index = b.index := not_not.1 hi
      have hall := List.all_eq_true.1 h
      have hr : a.r = b.r := by
        apply List.ext_getElem (ha.trans hb.symm)
        intro i h1 h2
        have hx := hall i (List.mem_range.2 (by omega))
        have hx2 : a.r.getD i 0 = b.r.getD i 0 := by simpa using hx
        rw [List.getD_eq_getElem?_getD, List.getD_eq_getElem?_getD,
          List.getElem?_eq_getElem h1, List.getElem?_eq_getElem h2] at hx2
        simpa using hx2
      cases a
      cases b
      simp only [status_type.mk.injEq]
      exact ⟨hr, hidx⟩
  · intro h
    subst h
    unfold status_type.eq
    simp

theorem engine_eq_iff (e : engine) (a b : status_type) (ha : a.r.length = e.size)
    (hb : b.r.length = e.size) : e.eq a b = true ↔ a = b := by
  cases e <;> exact status_type_eq_iff _ a b ha hb

theorem engine_calls_length (e : engine) (n : Nat) (S : status_type) :
    (e.calls n S).r.length = S.r.length := by
  rw [engine_calls_eq]
  exact ring_run_length _ _ n S

theorem engine_calls_zero (e : engine) (S : status_type) : e.calls 0 S = S := by
  cases e <;> rfl

theorem engine_calls_succ_head (e : engine) (n : Nat) (S : status_type) :
    e.calls (n + 1) S = e.calls n (e.next S).2 := by
  cases e <;> rfl

theorem engine_output_zero (e : engine) (S : status_type) : e.output S 0 = (e.next S).1 := by
  cases e <;> rfl

/-- C5 (amended): for lagged-Fibonacci engines `E1` and `E2` of the same type, if `E1 == E2`
holds then the two engines return equal values on every subsequent call of `operator()`, and
they still compare equal after any number of calls. (The converse is not claimed.) -/
theorem eq_implies_equal_outputs (e : engine) (E1 E2 : status_type)
    (h1 : E1.r.length = e.size) (h2 : E2.r.length = e.size) (heq : e.eq E1 E2 = true) (n : Nat) :
    e.output E1 n = e.output E2 n ∧ e.eq (e.calls n E1) (e.calls n E2) = true := by
  have h := (engine_eq_iff e E1 E2 h1 h2).1 heq
  subst h
  refine ⟨rfl, ?_⟩
  exact (engine_eq_iff e _ _ ((engine_calls_length e n E1).trans h1)
    ((engine_calls_length e n E1).trans h1)).2 rfl

/-- Witness for C5 (amended): two copies of the state `([1, 2, 3, 0], 2)` of the 32-bit
`lagfib2plus` with taps 1 and 3. -/
theorem eq_implies_equal_outputs_witness :
    (engine.lagfib2plus 32 1 3).output ⟨[1, 2, 3, 0], 2⟩ 5 =
        (engine.lagfib2plus 32 1 3).output ⟨[1, 2, 3, 0], 2⟩ 5 ∧
      (engine.lagfib2plus 32 1 3).eq ((engine.lagfib2plus 32 1 3).calls 5 ⟨[1, 2, 3, 0], 2⟩)
        ((engine.lagfib2plus 32 1 3).calls 5 ⟨[1, 2, 3, 0], 2⟩) = true :=
  eq_implies_equal_outputs (engine.lagfib2plus 32 1 3) ⟨[1, 2, 3, 0], 2⟩ ⟨[1, 2, 3, 0], 2⟩
    (by decide) (by decide) (by decide) 5

/-- C5 as stated fails in the direction from equal outputs to `==`: take the 32-bit
`lagfib2plus` with taps 1 and 3 (ring size 4), `E1` freshly seeded from the die, and `E2` the
same engine after one call and a re-seeding from the die in the same state. They differ in
slot 3 (`0` against `2045222521`), so `E1 == E2` is false, but the first call overwrites slot
3 before it is ever read and the two engines return equal values on every call. -/
theorem equal_outputs_not_eq_counterexample :
    ((engine.lagfib2plus 32 1 3).ctor_gen die 3).1 =
      ⟨[1636178017, 2249744774, 409044504, 0], 2⟩ ∧
    ((engine.lagfib2plus 32 1 3).seed_gen die
        ((engine.lagfib2plus 32 1 3).next ((engine.lagfib2plus 32 1 3).ctor_gen die 3).1).2 3).1 =
      ⟨[1636178017, 2249744774, 409044504, 2045222521], 2⟩ ∧
    (engine.lagfib2plus 32 1 3).eq ⟨[1636178017, 2249744774, 409044504, 0], 2⟩
      ⟨[1636178017, 2249744774, 409044504, 2045222521], 2⟩ = false ∧
    ∀ n, (engine.lagfib2plus 32 1 3).output ⟨[1636178017, 2249744774, 409044504, 0], 2⟩ n =
      (engine.lagfib2plus 32 1 3).output
        ⟨[1636178017, 2249744774, 409044504, 2045222521], 2⟩ n := by
  refine ⟨by decide, by decide, by decide, ?_⟩
  have hnext : (engine.lagfib2plus 32 1 3).next ⟨[1636178017, 2249744774, 409044504, 0], 2⟩ =
      (engine.lagfib2plus 32 1 3).next
        ⟨[1636178017, 2249744774, 409044504, 2045222521], 2⟩ := by decide
  intro n
  cases n with
  | zero => rw [engine_output_zero, engine_output_zero, hnext]
  | succ n =>
    cases n with
    | zero => rw [engine_output_succ, engine_output_succ, engine_calls_zero, engine_calls_zero,
        hnext]
    | succ n => rw [engine_output_succ, engine_output_succ, engine_calls_succ_head,
        engine_calls_succ_head, hnext]

/-! ## Decimal numbers: writing and reading back -/

theorem digit_char_isDigit (d : Nat) (h : d < 10) : (digit_char d).isDigit = true := by
  interval_cases d <;> rfl

theorem digit_val_digit_char (d : Nat) (h : d < 10) : digit_val (digit_char d) = d := by
  interval_cases d <;> rfl

theorem read_digits_to_dec_loop (fuel : Nat) :
    ∀ (n : Nat) (acc rest : List Char), n < fuel →
      read_digits (to_dec_loop fuel n acc ++ rest) 0 = read_digits (acc ++ rest) n := by
  induction fuel with
  | zero => intro n acc rest h; omega
  | succ f ih =>
    intro n acc rest h
    simp only [to_dec_loop]
    by_cases hn : n < 10
    · rw [if_pos hn]
      simp only [List.cons_append, read_digits, digit_char_isDigit n hn, if_true,
        digit_val_digit_char n hn]
      congr 1
      omega
    · rw [if_neg hn, ih (n / 10) _ rest (by omega)]
      have hd : n % 10 < 10 := Nat.mod_lt _ (by norm_num)
      simp only [List.cons_append, read_digits, digit_char_isDigit _ hd, if_true,
        digit_val_digit_char _ hd]
      congr 1
      omega

theorem to_dec_loop_head (fuel : Nat) :
    ∀ (n : Nat) (acc : List Char),
      ∃ c tl, to_dec_loop (fuel + 1) n acc = c :: tl ∧ c.isDigit = true := by
  induction fuel with
  | zero =>
    intro n acc
    simp only [to_dec_loop]
    by_cases hn : n < 10
    · rw [if_pos hn]; exact ⟨_, _, rfl, digit_char_isDigit n hn⟩
    · rw [if_neg hn]; exact ⟨_, _, rfl, digit_char_isDigit _ (Nat.mod_lt _ (by norm_num))⟩
  | succ f ih =>
    intro n acc
    rw [to_dec_loop]
    by_cases hn : n < 10
    · rw [if_pos hn]; exact ⟨_, _, rfl, digit_char_isDigit n hn⟩
    · rw [if_neg hn]; exact ih _ _

theorem to_dec_head (n : Nat) : ∃ c tl, to_dec n = c :: tl ∧ c.isDigit = true :=
  to_dec_loop_head n n []

theorem isDigit_ne_sign (c : Char) (h : c.isDigit = true) : c ≠ '-' ∧ c ≠ '+' := by
  refine ⟨?_, ?_⟩ <;> intro hc <;> rw [hc] at h <;> exact absurd h (by decide)

theorem extract_magnitude_to_dec (bound n : Nat) (hn : n < bound) (x : Char) (tl : List Char)
    (hx : x.isDigit = false) :
    extract_magnitude bound (to_dec n ++ x :: tl) = (⟨x :: tl, false⟩, n) := by
  have hrd : read_digits (to_dec n ++ x :: tl) 0 = (n, x :: tl) := by
    rw [to_dec, read_digits_to_dec_loop (n + 1) n [] (x :: tl) (by omega)]
    simp [read_digits, hx]
  obtain ⟨c, cs, hc, hdig⟩ := to_dec_head n
  have hbuf : to_dec n ++ x :: tl = c :: (cs ++ x :: tl) := by rw [hc]; rfl
  rw [hbuf] at hrd ⊢
  unfold extract_magnitude
  simp only [hdig, hrd, hn, if_true]

/-- Reading back a written number: the digits of `n` followed by a non-digit. -/
theorem extract_to_dec (bound n old : Nat) (hn : n < bound) (x : Char) (tl : List Char)
    (hx : x.isDigit = false) :
    extract bound ⟨to_dec n ++ x :: tl, false⟩ old = (⟨x :: tl, false⟩, n) := by
  have hm := extract_magnitude_to_dec bound n hn x tl hx
  obtain ⟨c, cs, hc, hdig⟩ := to_dec_head n
  have hbuf : to_dec n ++ x :: tl = c :: (cs ++ x :: tl) := by rw [hc]; rfl
  rw [hbuf] at hm ⊢
  unfold extract
  simp only [Bool.false_eq_true, if_false, (isDigit_ne_sign c hdig).1,
    (isDigit_ne_sign c hdig).2, hm]

theorem char_toNat_ofNat (x : Nat) (h : x < 256) : (Char.ofNat x).toNat = x := by
  have hv : x.isValidChar := Or.inl (by omega)
  simp only [Char.ofNat, hv, dite_true, Char.ofNatAux, Char.toNat, UInt32.toNat]
  simp [BitVec.toNat_ofNatLt]

/-- Reading back a written ring word of `w` bits, whatever follows an 8-bit word and a
non-digit following a number. -/
theorem extract_word_write_word (w v old : Nat) (hv : v < 2 ^ w) (x : Char) (tl : List Char)
    (hx : x.isDigit = false) :
    extract_word w ⟨write_word w v ++ x :: tl, false⟩ old = (⟨x :: tl, false⟩, v) := by
  by_cases hw : w = 8
  · subst hw
    have hv8 : v < 256 := by norm_num at hv; exact hv
    have h1 : write_word 8 v ++ x :: tl = Char.ofNat v :: x :: tl := by
      simp [write_word]
    rw [h1]
    unfold extract_word extract_char
    simp only [if_true, Bool.false_eq_true, if_false, char_toNat_ofNat v hv8,
      Nat.mod_eq_of_lt hv8]
  · have h1 : write_word w v = to_dec v := by simp [write_word, hw]
    rw [h1]
    unfold extract_word
    rw [if_neg hw]
    exact extract_to_dec (2 ^ w) v old hv x tl hx

theorem delim_cons (c : Char) (tl : List Char) : delim c ⟨c :: tl, false⟩ = ⟨tl, false⟩ := by
  simp [delim]

theorem delim_str_append (s tl : List Char) : delim_str s ⟨s ++ tl, false⟩ = ⟨tl, false⟩ := by
  induction s with
  | nil => rfl
  | cons c cs ih => rw [List.cons_append, delim_str, delim_cons, ih]

/-! ## Reading back a written status -/

theorem write_words_head (w : Nat) (E : status_type) (c i : Nat) (x : Char) (tl : List Char)
    (hx : x.isDigit = false) :
    ∃ y tl1, status_type.write_words w E c i ++ x :: tl = y :: tl1 ∧ y.isDigit = false := by
  cases c with
  | zero => exact ⟨x, tl, rfl, hx⟩
  | succ c => exact ⟨' ', _, rfl, rfl⟩

theorem read_words_write_words (w : Nat) (E : status_type)
    (hE : ∀ s, E.r.getD s 0 < 2 ^ w) (x : Char) (tl : List Char) (hx : x.isDigit = false)
    (c : Nat) :
    ∀ (i : Nat) (S : status_type),
      (status_type.read_words w c i ⟨status_type.write_words w E c i ++ x :: tl, false⟩ S).1 =
        ⟨x :: tl, false⟩ ∧
      (status_type.read_words w c i
        ⟨status_type.write_words w E c i ++ x :: tl, false⟩ S).2.index = S.index ∧
      (status_type.read_words w c i
        ⟨status_type.write_words w E c i ++ x :: tl, false⟩ S).2.r.length = S.r.length ∧
      (∀ s, (s < i ∨ i + c ≤ s) →
        (status_type.read_words w c i
          ⟨status_type.write_words w E c i ++ x :: tl, false⟩ S).2.r.getD s 0 = S.r.getD s 0) ∧
      ∀ m, m < c → i + m < S.r.length →
        (status_type.read_words w c i
          ⟨status_type.write_words w E c i ++ x :: tl, false⟩ S).2.r.getD (i + m) 0 =
          E.r.getD (i + m) 0 := by
  induction c with
  | zero =>
    intro i S
    exact ⟨rfl, rfl, rfl, fun _ _ => rfl, fun m hm => absurd hm (Nat.not_lt_zero m)⟩
  | succ c ih =>
    intro i S
    obtain ⟨y, tl1, hy, hyd⟩ := write_words_head w E c (i + 1) x tl hx
    have hbuf : status_type.write_words w E (c + 1) i ++ x :: tl =
        ' ' :: (write_word w (E.r.getD i 0) ++
          (status_type.write_words w E c (i + 1) ++ x :: tl)) := by
      simp [status_type.write_words, List.append_assoc]
    have hstep : status_type.read_words w (c + 1) i
        ⟨status_type.write_words w E (c + 1) i ++ x :: tl, false⟩ S =
        status_type.read_words w c (i + 1)
          ⟨status_type.write_words w E c (i + 1) ++ x :: tl, false⟩
          { S with r := S.r.set i (E.r.getD i 0) } := by
      rw [hbuf, status_type.read_words, delim_cons, hy,
        extract_word_write_word w _ _ (hE i) y tl1 hyd]
    rw [hstep]
    obtain ⟨a1, a2, a3, a4, a5⟩ := ih (i + 1) { S with r := S.r.set i (E.r.getD i 0) }
    refine ⟨a1, a2, ?_, ?_, ?_⟩
    · rw [a3]; simp
    · intro s hs
      rw [a4 s (by omega)]
      exact getD_set_ne _ _ _ _ (by omega)
    · intro m hm hlt
      cases m with
      | zero =>
        rw [a4 (i + 0) (by omega)]
        exact getD_set_self _ _ _ hlt
      | succ m =>
        have h1 : i + (m + 1) = (i + 1) + m := by omega
        rw [h1]
        exact a5 m (by omega) (by simp; omega)

theorem getD_ext (a b : List Nat) (hlen : a.length = b.length)
    (h : ∀ i, i < a.length → a.getD i 0 = b.getD i 0) : a = b := by
  apply List.ext_getElem hlen
  intro i h1 h2
  have hx := h i h1
  rw [List.getD_eq_getElem?_getD, List.getD_eq_getElem?_getD,
    List.getElem?_eq_getElem h1, List.getElem?_eq_getElem h2] at hx
  simpa using hx

/-- A written status reads back as it was, whatever text follows. -/
theorem status_read_write (w size : Nat) (E S : status_type) (rest : List Char)
    (hlen : E.r.length = size) (hidx : E.index < 2 ^ 32) (hE : ∀ s, E.r.getD s 0 < 2 ^ w) :
    status_type.read w size ⟨status_type.write w size E ++ rest, false⟩ S =
      (⟨rest, false⟩, E) := by
  obtain ⟨y, tl1, hy, hyd⟩ := write_words_head w E size 0 ')' rest rfl
  have hbuf : status_type.write w size E ++ rest =
      '(' :: (to_dec E.index ++ (status_type.write_words w E size 0 ++ ')' :: rest)) := by
    simp [status_type.write, List.append_assoc]
  obtain ⟨a1, a2, a3, _, a5⟩ := read_words_write_words w E hE ')' rest rfl size 0
    ((status_type.init size).set_index E.index)
  have hfin : (status_type.read_words w size 0
      ⟨status_type.write_words w E size 0 ++ ')' :: rest, false⟩
      ((status_type.init size).set_index E.index)).2 = E := by
    have hr := getD_ext _ E.r (by rw [a3, status_type_set_index_r, status_type_init_length, hlen])
      (by
        intro i hi
        have := a5 i (by
          rw [a3, status_type_set_index_r, status_type_init_length] at hi
          exact hi) (by
          rw [a3] at hi
          simpa using hi)
        simpa using this)
    rw [status_type_set_index_index] at a2
    generalize status_type.read_words w size 0
      ⟨status_type.write_words w E size 0 ++ ')' :: rest, false⟩
      ((status_type.init size).set_index E.index) = res at a2 hr
    cases E
    obtain ⟨res1, res2⟩ := res
    obtain ⟨resr, resi⟩ := res2
    simp only at a2 hr
    rw [a2, hr]
  unfold status_type.read
  simp only [hbuf, delim_cons, hy, extract_to_dec (2 ^ 32) _ _ hidx y tl1 hyd]
  rw [← hy, a1, hfin, delim_cons]
  rfl

/-! ## Reachable states are well formed -/

theorem getD_set_lt (l : List Nat) (i v s bound : Nat) (hv : v < bound)
    (hl : ∀ s, l.getD s 0 < bound) : (l.set i v).getD s 0 < bound := by
  by_cases h : i = s
  · subst h
    by_cases hi : i < l.length
    · rw [getD_set_self l i v hi]; exact hv
    · have : (l.set i v).getD i 0 = 0 := by
        rw [List.getD_eq_getElem?_getD, List.getElem?_eq_none (by simpa using hi)]
        rfl
      rw [this]
      exact lt_of_le_of_lt (Nat.zero_le _) hv
  · rw [getD_set_ne l i s v h]; exact hl s

theorem engine_comb_lt (e : engine) (rd : Nat → Nat) (h : ∀ t, rd t < 2 ^ e.digits) :
    e.comb rd < 2 ^ e.digits := by
  cases e with
  | lagfib2plus w A B => exact Nat.mod_lt _ (Nat.two_pow_pos w)
  | lagfib2xor w A B => exact Nat.xor_lt_two_pow (h A) (h B)
  | lagfib4xor w A B C D =>
    exact Nat.xor_lt_two_pow (Nat.xor_lt_two_pow (Nat.xor_lt_two_pow (h A) (h B)) (h C)) (h D)

theorem engine_wf_step (e : engine) (S : status_type) (h : e.wf S) : e.wf (e.step S) := by
  obtain ⟨h1, _, h3⟩ := h
  rw [engine_step_eq]
  refine ⟨?_, ?_, ?_⟩
  · rw [ring_step_length]; exact h1
  · have hle : ((S.index + 1) % 2 ^ 32) &&& mask e.tap_max ≤ (S.index + 1) % 2 ^ 32 :=
      Nat.and_le_left
    have hlt : (S.index + 1) % 2 ^ 32 < 2 ^ 32 := Nat.mod_lt _ (Nat.two_pow_pos 32)
    exact lt_of_le_of_lt hle hlt
  · intro s
    exact getD_set_lt _ _ _ _ _ (engine_comb_lt e _ (fun t => h3 _)) h3

theorem engine_wf_next (e : engine) (S : status_type) (h : e.wf S) : e.wf (e.next S).2 := by
  rw [engine_next_eq]
  exact engine_wf_step e S h

theorem engine_wf_init (e : engine) : e.wf (status_type.init e.size) :=
  ⟨status_type_init_length _, Nat.two_pow_pos 32, fun s => by
    rw [status_type_init_getD]; exact Nat.two_pow_pos _⟩

theorem engine_wf_seed_gen (e : engine) {σ : Type} (G : gen σ) (g : σ) (S : status_type)
    (h : e.wf S) : e.wf (e.seed_gen G S g).1 := by
  obtain ⟨h1, _, h3⟩ := h
  have hs := seed_gen_spec G e.digits e.tap_max S g
  rw [engine_seed_gen_eq]
  refine ⟨hs.2.2.1.trans h1, ?_, ?_⟩
  · rw [hs.2.1]
    exact Nat.mod_lt _ (Nat.two_pow_pos 32)
  · intro s
    by_cases hT : s < e.tap_max
    · have hlt : s < S.r.length := by
        rw [h1]; exact lt_of_lt_of_le hT (utility_le_ceil2 _)
      exact (hs.2.2.2.2 s hT hlt).1
    · rw [hs.2.2.2.1 s (by omega)]
      exact h3 s

theorem engine_wf_ctor_gen (e : engine) {σ : Type} (G : gen σ) (g : σ) :
    e.wf (e.ctor_gen G g).1 := by
  have h := engine_wf_seed_gen e G g (status_type.init e.size) (engine_wf_init e)
  rw [engine_seed_gen_eq] at h
  rw [engine_ctor_gen_eq]
  exact h

theorem engine_reachable_wf (e : engine) (S : status_type) (h : e.reachable S) : e.wf S := by
  induction h with
  | ctor G g => exact engine_wf_ctor_gen e G g
  | seed G g S _ ih => exact engine_wf_seed_gen e G g S ih
  | call S _ ih => exact engine_wf_next e S ih

/-! ## C6: the text round trip -/

theorem ignore_spaces_bracket (tl : List Char) :
    ignore_spaces ⟨'[' :: tl, false⟩ = ⟨'[' :: tl, false⟩ := by
  simp [ignore_spaces, List.dropWhile]

theorem read_engine_write_engine (name : List Char) (w size : Nat) (E R : status_type)
    (rest : List Char) (hlen : E.r.length = size) (hidx : E.index < 2 ^ 32)
    (hE : ∀ s, E.r.getD s 0 < 2 ^ w) :
    read_engine name w size ⟨write_engine name w size E ++ rest, false⟩ R =
      (⟨rest, false⟩, E) := by
  have hbuf : write_engine name w size E ++ rest =
      '[' :: (name ++ ' ' :: (status_type.write w size E ++ ']' :: rest)) := by
    simp [write_engine, List.append_assoc]
  unfold read_engine
  simp only [hbuf, ignore_spaces_bracket, delim_cons, delim_str_append,
    status_read_write w size E _ _ hlen hidx hE]
  rfl

theorem engine_read_eq (e : engine) (inp : istream) (R : status_type) :
    e.read inp R = read_engine e.name e.digits e.size inp R := by
  cases e <;> rfl

theorem engine_write_eq (e : engine) (E : status_type) :
    e.write E = write_engine e.name e.digits e.size E := by
  cases e <;> rfl

/-- C6: for every lagged-Fibonacci engine and every state `E` reachable from a seeded engine
(by construction, re-seeding and calls of `operator()`), parsing the text that formatting `E`
produces into any engine `R` of the same type succeeds (the fail flag stays clear, the text
is consumed up to what follows it) and leaves `R` with the state `E`; the parsed clone
therefore compares equal to `E` and returns the same value as `E` at every later call. -/
theorem text_round_trip (e : engine) (E : status_type) (hE : e.reachable E) (R : status_type)
    (rest : List Char) :
    e.read ⟨e.write E ++ rest, false⟩ R = (⟨rest, false⟩, E) ∧
    e.eq (e.read ⟨e.write E ++ rest, false⟩ R).2 E = true ∧
    ∀ n, e.output (e.read ⟨e.write E ++ rest, false⟩ R).2 n = e.output E n := by
  obtain ⟨h1, h2, h3⟩ := engine_reachable_wf e E hE
  have h : e.read ⟨e.write E ++ rest, false⟩ R = (⟨rest, false⟩, E) := by
    rw [engine_read_eq, engine_write_eq]
    exact read_engine_write_engine e.name e.digits e.size E R rest h1 h2 h3
  rw [h]
  exact ⟨rfl, (engine_eq_iff e E E h1 h1).2 rfl, fun _ => rfl⟩

/-- Witness for C6: the 32-bit `lagfib2plus` with taps 1 and 3 constructed from the die,
parsed into an engine with a different state. -/
theorem text_round_trip_witness :
    (engine.lagfib2plus 32 1 3).read
        ⟨(engine.lagfib2plus 32 1 3).write ((engine.lagfib2plus 32 1 3).ctor_gen die 3).1 ++ [],
          false⟩ ⟨[5, 6, 7, 8], 1⟩ =
      (⟨[], false⟩, ((engine.lagfib2plus 32 1 3).ctor_gen die 3).1) ∧
    (engine.lagfib2plus 32 1 3).eq ((engine.lagfib2plus 32 1 3).read
        ⟨(engine.lagfib2plus 32 1 3).write ((engine.lagfib2plus 32 1 3).ctor_gen die 3).1 ++ [],
          false⟩ ⟨[5, 6, 7, 8], 1⟩).2 ((engine.lagfib2plus 32 1 3).ctor_gen die 3).1 = true ∧
    ∀ n, (engine.lagfib2plus 32 1 3).output ((engine.lagfib2plus 32 1 3).read
        ⟨(engine.lagfib2plus 32 1 3).write ((engine.lagfib2plus 32 1 3).ctor_gen die 3).1 ++ [],
          false⟩ ⟨[5, 6, 7, 8], 1⟩).2 n =
      (engine.lagfib2plus 32 1 3).output ((engine.lagfib2plus 32 1 3).ctor_gen die 3).1 n :=
  text_round_trip (engine.lagfib2plus 32 1 3) ((engine.lagfib2plus 32 1 3).ctor_gen die 3).1
    (engine.reachable.ctor die 3) ⟨[5, 6, 7, 8], 1⟩ []

/-! ## What an accepted text looks like -/

theorem delim_ok (c : Char) (inp : istream) (h : (delim c inp).fail = false) :
    inp.fail = false ∧ inp.buf = c :: (delim c inp).buf := by
  obtain ⟨buf, fl⟩ := inp
  cases fl with
  | true => simp [delim] at h
  | false =>
    cases buf with
    | nil => simp [delim] at h
    | cons x tl =>
      by_cases hx : x = c
      · subst hx; simp [delim]
      · simp [delim, hx] at h

theorem delim_str_ok (s : List Char) :
    ∀ inp : istream, (delim_str s inp).fail = false →
      inp.fail = false ∧ inp.buf = s ++ (delim_str s inp).buf := by
  induction s with
  | nil => intro inp h; exact ⟨h, rfl⟩
  | cons c cs ih =>
    intro inp h
    rw [delim_str] at h ⊢
    obtain ⟨h1, h2⟩ := ih _ h
    obtain ⟨h3, h4⟩ := delim_ok c inp h1
    exact ⟨h3, by rw [h4, h2]; rfl⟩

theorem ignore_spaces_ok (inp : istream) (h : (ignore_spaces inp).fail = false) :
    inp.fail = false ∧ ∃ ws, (∀ c ∈ ws, c.isWhitespace = true) ∧
      inp.buf = ws ++ (ignore_spaces inp).buf := by
  obtain ⟨buf, fl⟩ := inp
  cases fl with
  | true => simp [ignore_spaces] at h
  | false =>
    refine ⟨rfl, buf.takeWhile Char.isWhitespace, ?_, ?_⟩
    · intro c hc
      exact List.mem_takeWhile_imp hc
    · simp [ignore_spaces, List.takeWhile_append_dropWhile]

theorem read_digits_spec (l : List Char) :
    ∀ v : Nat, ∃ ds, (∀ c ∈ ds, c.isDigit = true) ∧ l = ds ++ (read_digits l v).2 ∧
      (read_digits l v).1 = dec_value ds v := by
  induction l with
  | nil => intro v; exact ⟨[], by simp, rfl, rfl⟩
  | cons c cs ih =>
    intro v
    by_cases hc : c.isDigit = true
    · obtain ⟨ds, h1, h2, h3⟩ := ih (10 * v + digit_val c)
      refine ⟨c :: ds, ?_, ?_, ?_⟩
      · intro x hx
        rcases List.mem_cons.1 hx with rfl | hx
        · exact hc
        · exact h1 x hx
      · simp only [read_digits, hc, if_true, List.cons_append]
        rw [← h2]
      · simp only [read_digits, hc, if_true]
        rw [h3]
        rfl
    · refine ⟨[], by simp, ?_, ?_⟩
      · simp [read_digits, hc]
      · simp [read_digits, hc, dec_value]

theorem extract_magnitude_ok (bound : Nat) (buf : List Char)
    (h : (extract_magnitude bound buf).1.fail = false) :
    ∃ ds, is_number bound ds ∧ buf = ds ++ (extract_magnitude bound buf).1.buf ∧
      (extract_magnitude bound buf).2 = dec_value ds 0 := by
  cases buf with
  | nil => simp [extract_magnitude] at h
  | cons c cs =>
    by_cases hc : c.isDigit = true
    · by_cases hb : (read_digits (c :: cs) 0).1 < bound
      · obtain ⟨ds, h1, h2, h3⟩ := read_digits_spec (c :: cs) 0
        have hne : ds ≠ [] := by
          intro hnil
          rw [hnil] at h2
          simp only [read_digits, hc, if_true, List.nil_append] at h2
          obtain ⟨ds2, _, k2, _⟩ := read_digits_spec cs (10 * 0 + digit_val c)
          have hl := congrArg List.length h2
          have hl2 := congrArg List.length k2
          simp only [List.length_cons, List.length_append] at hl hl2
          omega
        refine ⟨ds, ⟨hne, h1, by rw [← h3]; exact hb⟩, ?_, ?_⟩
        · simp only [extract_magnitude, hc, hb, if_true]
          exact h2
        · simp only [extract_magnitude, hc, hb, if_true]
          exact h3
      · simp [extract_magnitude, hc, hb] at h
    · simp [extract_magnitude, hc] at h

theorem extract_ok (bound : Nat) (hb : 0 < bound) (inp : istream) (old : Nat)
    (h : (extract bound inp old).1.fail = false) :
    inp.fail = false ∧ ∃ t, is_signed_number bound t ∧
      inp.buf = t ++ (extract bound inp old).1.buf ∧ (extract bound inp old).2 < bound := by
  obtain ⟨buf, fl⟩ := inp
  cases fl with
  | true => simp [extract] at h
  | false =>
    refine ⟨rfl, ?_⟩
    cases buf with
    | nil => simp [extract] at h
    | cons c cs =>
      by_cases hm : c = '-'
      · have e1 : extract bound ⟨c :: cs, false⟩ old =
            ((extract_magnitude bound cs).1,
              if (extract_magnitude bound cs).1.fail then (extract_magnitude bound cs).2
              else (bound - (extract_magnitude bound cs).2) % bound) := by
          simp [extract, hm]
        rw [e1] at h ⊢
        obtain ⟨ds, h1, h2, _⟩ := extract_magnitude_ok bound cs h
        refine ⟨'-' :: ds, ⟨ds, h1, Or.inr (Or.inr rfl)⟩, ?_, ?_⟩
        · show c :: cs = '-' :: ds ++ (extract_magnitude bound cs).1.buf
          rw [hm, List.cons_append, ← h2]
        · show (if (extract_magnitude bound cs).1.fail then (extract_magnitude bound cs).2
            else (bound - (extract_magnitude bound cs).2) % bound) < bound
          rw [h]
          exact Nat.mod_lt _ hb
      · by_cases hp : c = '+'
        · have e1 : extract bound ⟨c :: cs, false⟩ old = extract_magnitude bound cs := by
            simp [extract, hp]
          rw [e1] at h ⊢
          obtain ⟨ds, h1, h2, h3⟩ := extract_magnitude_ok bound cs h
          refine ⟨'+' :: ds, ⟨ds, h1, Or.inr (Or.inl rfl)⟩, ?_, ?_⟩
          · show c :: cs = '+' :: ds ++ (extract_magnitude bound cs).1.buf
            rw [hp, List.cons_append, ← h2]
          · rw [h3]
            exact h1.2.2
        · have e1 : extract bound ⟨c :: cs, false⟩ old = extract_magnitude bound (c :: cs) := by
            simp [extract, hm, hp]
          rw [e1] at h ⊢
          obtain ⟨ds, h1, h2, h3⟩ := extract_magnitude_ok bound (c :: cs) h
          refine ⟨ds, ⟨ds, h1, Or.inl rfl⟩, h2, ?_⟩
          rw [h3]
          exact h1.2.2

theorem extract_char_ok (inp : istream) (old : Nat)
    (h : (extract_char inp old).1.fail = false) :
    inp.fail = false ∧ ∃ c, inp.buf = [c] ++ (extract_char inp old).1.buf := by
  obtain ⟨buf, fl⟩ := inp
  cases fl with
  | true => simp [extract_char] at h
  | false =>
    cases buf with
    | nil => simp [extract_char] at h
    | cons c cs => exact ⟨rfl, c, by simp [extract_char]⟩

theorem extract_word_ok (w : Nat) (inp : istream) (old : Nat)
    (h : (extract_word w inp old).1.fail = false) :
    inp.fail = false ∧ ∃ t, is_word_text w t ∧ inp.buf = t ++ (extract_word w inp old).1.buf := by
  by_cases hw : w = 8
  · have e1 : extract_word w inp old = extract_char inp old := by simp [extract_word, hw]
    rw [e1] at h ⊢
    obtain ⟨h1, c, h2⟩ := extract_char_ok inp old h
    refine ⟨h1, [c], ?_, h2⟩
    unfold is_word_text
    rw [if_pos hw]
    exact ⟨c, rfl⟩
  · have e1 : extract_word w inp old = extract (2 ^ w) inp old := by simp [extract_word, hw]
    rw [e1] at h ⊢
    obtain ⟨h1, t, h2, h3, _⟩ := extract_ok (2 ^ w) (Nat.two_pow_pos w) inp old h
    refine ⟨h1, t, ?_, h3⟩
    unfold is_word_text
    rw [if_neg hw]
    exact h2

theorem read_words_ok (w : Nat) (c : Nat) :
    ∀ (i : Nat) (inp : istream) (S : status_type),
      (status_type.read_words w c i inp S).1.fail = false →
      inp.fail = false ∧ (status_type.read_words w c i inp S).2.index = S.index ∧
      ∃ words : List (List Char), words.length = c ∧ (∀ d ∈ words, is_word_text w d) ∧
        inp.buf = join_words words ++ (status_type.read_words w c i inp S).1.buf := by
  induction c with
  | zero =>
    intro i inp S h
    exact ⟨h, rfl, [], rfl, by simp, rfl⟩
  | succ c ih =>
    intro i inp S h
    rw [status_type.read_words] at h ⊢
    obtain ⟨h1, h2, words, h3, h4, h5⟩ := ih _ _ _ h
    obtain ⟨h6, ds, h7, h8⟩ := extract_word_ok w _ _ h1
    obtain ⟨h9, h10⟩ := delim_ok ' ' inp h6
    refine ⟨h9, h2, ds :: words, by simp [h3], ?_, ?_⟩
    · intro d hd
      rcases List.mem_cons.1 hd with rfl | hd
      · exact h7
      · exact h4 d hd
    · rw [h10, h8, h5]
      simp [join_words, List.append_assoc]

theorem status_read_fst (w size : Nat) (inp : istream) (S : status_type) :
    (status_type.read w size inp S).1 =
      delim ')' (status_type.read_words w size 0
        (extract (2 ^ 32) (delim '(' inp) (status_type.init size).index).1
        ((status_type.init size).set_index
          (extract (2 ^ 32) (delim '(' inp) (status_type.init size).index).2)).1 := by
  unfold status_type.read
  dsimp only
  split <;> rfl

theorem status_read_snd (w size : Nat) (inp : istream) (S : status_type) :
    (status_type.read w size inp S).2 =
      if (status_type.read w size inp S).1.fail then S
      else (status_type.read_words w size 0
        (extract (2 ^ 32) (delim '(' inp) (status_type.init size).index).1
        ((status_type.init size).set_index
          (extract (2 ^ 32) (delim '(' inp) (status_type.init size).index).2)).2 := by
  rw [status_read_fst]
  unfold status_type.read
  dsimp only
  split <;> rfl

/-- An accepted status text is `'(' index (' ' word)* ')'` with `size` words; the index of
the status read fits an `unsigned int`. -/
theorem status_read_ok (w size : Nat) (inp : istream) (S : status_type)
    (h : (status_type.read w size inp S).1.fail = false) :
    inp.fail = false ∧ ∃ (idx : List Char) (words : List (List Char)),
      is_signed_number (2 ^ 32) idx ∧ words.length = size ∧ (∀ d ∈ words, is_word_text w d) ∧
      inp.buf = '(' :: idx ++ join_words words ++ ')' :: (status_type.read w size inp S).1.buf ∧
      (status_type.read w size inp S).2.index < 2 ^ 32 := by
  have hsnd := status_read_snd w size inp S
  rw [h] at hsnd
  rw [status_read_fst] at h
  obtain ⟨h1, h2⟩ := delim_ok ')' _ h
  obtain ⟨h3, h4, words, h5, h6, h7⟩ := read_words_ok w size 0 _ _ h1
  obtain ⟨h8, idx, h9, h10, h11⟩ := extract_ok (2 ^ 32) (Nat.two_pow_pos 32) _ _ h3
  obtain ⟨h12, h13⟩ := delim_ok '(' inp h8
  refine ⟨h12, idx, words, h9, h5, h6, ?_, ?_⟩
  · rw [h13, h10, h7, h2, status_read_fst]
    simp [List.append_assoc]
  · rw [hsnd]
    simp only [Bool.false_eq_true, if_false]
    rw [h4, status_type_set_index_index]
    exact h11

theorem read_engine_fst (name : List Char) (w size : Nat) (inp : istream) (R : status_type) :
    (read_engine name w size inp R).1 =
      delim ']' (status_type.read w size
        (delim ' ' (delim_str name (delim '[' (ignore_spaces inp))))
        (status_type.init size)).1 := by
  unfold read_engine
  dsimp only
  split <;> rfl

theorem read_engine_snd (name : List Char) (w size : Nat) (inp : istream) (R : status_type) :
    (read_engine name w size inp R).2 =
      if (read_engine name w size inp R).1.fail then R
      else (status_type.read w size
        (delim ' ' (delim_str name (delim '[' (ignore_spaces inp))))
        (status_type.init size)).2 := by
  rw [read_engine_fst]
  unfold read_engine
  dsimp only
  split <;> rfl

/-- An accepted engine text has the accepted form, and the index installed is the number
written in the text, any value below `2 ^ 32`. -/
theorem read_engine_ok (name : List Char) (w size : Nat) (inp : istream) (R : status_type)
    (h : (read_engine name w size inp R).1.fail = false) :
    inp.fail = false ∧ accepted_form name w size inp.buf ∧
      (read_engine name w size inp R).2.index < 2 ^ 32 := by
  have hsnd := read_engine_snd name w size inp R
  rw [h] at hsnd
  rw [read_engine_fst] at h
  obtain ⟨h1, h2⟩ := delim_ok ']' _ h
  obtain ⟨h3, idx, words, h4, h5, h6, h7, h8⟩ := status_read_ok w size _ _ h1
  obtain ⟨h9, h10⟩ := delim_ok ' ' _ h3
  obtain ⟨h11, h12⟩ := delim_str_ok name _ h9
  obtain ⟨h13, h14⟩ := delim_ok '[' _ h11
  obtain ⟨h15, ws, h16, h17⟩ := ignore_spaces_ok inp h13
  refine ⟨h15, ⟨ws, idx, words, (delim ']' (status_type.read w size
    (delim ' ' (delim_str name (delim '[' (ignore_spaces inp))))
    (status_type.init size)).1).buf, h16, h4, h5, h6, ?_⟩, ?_⟩
  · rw [h17, h14, h12, h10, h7, h2]
    simp [List.append_assoc]
  · rw [hsnd]
    simp only [Bool.false_eq_true, if_false]
    exact h8

/-! ## C7: a text that is not accepted leaves the engine alone -/

/-- C7 (amended): for every lagged-Fibonacci engine `R` and every input text that is not of
the form `operator>>` accepts (optional white space, `[`, the name of the engine, a space,
`(`, the index, `N` times a space and a word, `)`, `]`; the index an optionally signed
decimal number whose magnitude fits an `unsigned int`; a word an optionally signed decimal
number whose magnitude fits the word type or, for an 8-bit word type, any single character),
`operator>>` reports failure on the stream and leaves the status of `R` unchanged. By
`read_engine_accepts` every text of that form is accepted. -/
theorem parse_failure_leaves_target (e : engine) (inp : istream) (R : status_type)
    (h : ¬ accepted_form e.name e.digits e.size inp.buf) :
    (e.read inp R).1.fail = true ∧ (e.read inp R).2 = R := by
  rw [engine_read_eq]
  have hf : (read_engine e.name e.digits e.size inp R).1.fail = true := by
    by_contra hc
    exact h (read_engine_ok e.name e.digits e.size inp R (by simpa using hc)).2.1
  refine ⟨hf, ?_⟩
  rw [read_engine_snd, hf]
  rfl

theorem name_lagfib2plus_32_1_3 : (engine.lagfib2plus 32 1 3).name =
    ['l', 'a', 'g', 'f', 'i', 'b', '2', 'p', 'l', 'u', 's', '_', '3', '2', '_', '1', '_', '3'] := by
  decide

theorem name_lagfib2xor_8_1_3 : (engine.lagfib2xor 8 1 3).name =
    ['l', 'a', 'g', 'f', 'i', 'b', '2', 'x', 'o', 'r', '_', '8', '_', '1', '_', '3'] := by
  decide

theorem text_other_engine_no_form :
    ¬ accepted_form (engine.lagfib2plus 32 1 3).name (engine.lagfib2plus 32 1 3).digits
      (engine.lagfib2plus 32 1 3).size text_other_engine := by
  rintro ⟨ws, idx, words, rest, hws, _, _, _, heq⟩
  rw [name_lagfib2plus_32_1_3] at heq
  cases ws with
  | nil => simp [text_other_engine] at heq
  | cons c ws1 =>
    simp only [text_other_engine, List.cons_append, List.cons.injEq] at heq
    have hc := hws c (List.mem_cons_self c ws1)
    rw [← heq.1] at hc
    exact absurd hc (by decide)

/-- Witness for C7: the text `[lagfib2xor_32_1_3 (2 1 2 3 4)]`, which names another engine
type, read into the 32-bit `lagfib2plus` with taps 1 and 3. -/
theorem parse_failure_leaves_target_witness :
    ((engine.lagfib2plus 32 1 3).read ⟨text_other_engine, false⟩ ⟨[5, 6, 7, 8], 1⟩).1.fail = true ∧
      ((engine.lagfib2plus 32 1 3).read ⟨text_other_engine, false⟩ ⟨[5, 6, 7, 8], 1⟩).2 =
        ⟨[5, 6, 7, 8], 1⟩ :=
  parse_failure_leaves_target (engine.lagfib2plus 32 1 3) ⟨text_other_engine, false⟩
    ⟨[5, 6, 7, 8], 1⟩ text_other_engine_no_form

theorem text_form_body (name body : List Char) (w size : Nat)
    (h : text_form name w size ('[' :: name ++ ' ' :: '(' :: body)) :
    ∃ (idx : List Char) (words : List (List Char)) (rest : List Char),
      is_number (2 ^ 32) idx ∧ words.length = size ∧ (∀ d ∈ words, is_number (2 ^ w) d) ∧
      body = idx ++ join_words words ++ ')' :: ']' :: rest := by
  obtain ⟨ws, idx, words, rest, hws, hidx, hlen, hwords, heq⟩ := h
  cases ws with
  | nil =>
    refine ⟨idx, words, rest, hidx, hlen, hwords, ?_⟩
    have h1 : '[' :: name ++ ' ' :: '(' :: body =
        ('[' :: name ++ [' ', '(']) ++ body := by simp
    have h2 : [] ++ '[' :: name ++ ' ' :: '(' :: idx ++ join_words words ++ ')' :: ']' :: rest =
        ('[' :: name ++ [' ', '(']) ++ (idx ++ join_words words ++ ')' :: ']' :: rest) := by
      simp
    rw [h1, h2] at heq
    exact List.append_cancel_left heq
  | cons c ws1 =>
    simp only [List.cons_append, List.cons.injEq] at heq
    have hc := hws c (List.mem_cons_self c ws1)
    rw [← heq.1] at hc
    exact absurd hc (by decide)

theorem is_number_head (bound : Nat) (ds tl : List Char) (c : Char) (tl1 : List Char)
    (h : is_number bound ds) (heq : ds ++ tl = c :: tl1) : c.isDigit = true := by
  obtain ⟨hne, hdig, _⟩ := h
  cases ds with
  | nil => exact absurd rfl hne
  | cons d ds1 =>
    simp only [List.cons_append, List.cons.injEq] at heq
    rw [← heq.1]
    exact hdig d (List.mem_cons_self d ds1)

theorem text_signed_index_no_text_form :
    ¬ text_form (engine.lagfib2plus 32 1 3).name (engine.lagfib2plus 32 1 3).digits
      (engine.lagfib2plus 32 1 3).size text_signed_index := by
  intro h
  have h1 : text_signed_index = '[' :: (engine.lagfib2plus 32 1 3).name ++ ' ' :: '(' ::
      ['+', '2', ' ', '1', ' ', '2', ' ', '3', ' ', '4', ')', ']'] := by
    rw [name_lagfib2plus_32_1_3]
    rfl
  rw [h1] at h
  obtain ⟨idx, words, rest, hidx, _, _, heq⟩ := text_form_body _ _ _ _ h
  rw [List.append_assoc] at heq
  exact absurd (is_number_head _ idx _ '+' _ hidx heq.symm) (by decide)

theorem text_byte_words_no_text_form :
    ¬ text_form (engine.lagfib2xor 8 1 3).name (engine.lagfib2xor 8 1 3).digits
      (engine.lagfib2xor 8 1 3).size text_byte_words := by
  intro h
  have h1 : text_byte_words = '[' :: (engine.lagfib2xor 8 1 3).name ++ ' ' :: '(' ::
      ['2', ' ', 'a', ' ', 'b', ' ', 'c', ' ', 'd', ')', ']'] := by
    rw [name_lagfib2xor_8_1_3]
    rfl
  rw [h1] at h
  obtain ⟨idx, words, rest, hidx, hlen, hwords, heq⟩ := text_form_body _ _ _ _ h
  obtain ⟨hne, hdig, _⟩ := hidx
  cases idx with
  | nil => exact absurd rfl hne
  | cons i0 idx1 =>
    simp only [List.cons_append, List.cons.injEq, List.append_assoc] at heq
    cases idx1 with
    | cons i1 idx2 =>
      simp only [List.cons_append, List.cons.injEq] at heq
      have := hdig i1 (by simp)
      rw [← heq.2.1] at this
      exact absurd this (by decide)
    | nil =>
      cases words with
      | nil => exact absurd hlen (by decide)
      | cons d ds =>
        have h2 : join_words (d :: ds) ++ ')' :: ']' :: rest =
            ' ' :: (d ++ (join_words ds ++ ')' :: ']' :: rest)) := by
          simp [join_words, List.append_assoc]
        simp only [List.nil_append] at heq
        rw [h2] at heq
        simp only [List.cons.injEq, true_and] at heq
        exact absurd (is_number_head _ d _ 'a' _ (hwords d (List.mem_cons_self d ds)) heq.2.symm)
          (by decide)

/-- C7 as stated fails. The text `[lagfib2plus_32_1_3 (+2 1 2 3 4)]` does not have the
engine's text form (its index is not a run of decimal digits), yet the 32-bit `lagfib2plus`
with taps 1 and 3 reads it without failure and its status is overwritten. The text
`[lagfib2xor_8_1_3 (2 a b c d)]` has non-numeric words, yet the 8-bit `lagfib2xor` with taps
1 and 3 reads it without failure: the words are read as the characters `a`, `b`, `c`, `d`. -/
theorem parse_accepts_other_texts_counterexample :
    (¬ text_form (engine.lagfib2plus 32 1 3).name (engine.lagfib2plus 32 1 3).digits
        (engine.lagfib2plus 32 1 3).size text_signed_index ∧
      (engine.lagfib2plus 32 1 3).read ⟨text_signed_index, false⟩ ⟨[5, 6, 7, 8], 1⟩ =
        (⟨[], false⟩, ⟨[1, 2, 3, 4], 2⟩)) ∧
    (¬ text_form (engine.lagfib2xor 8 1 3).name (engine.lagfib2xor 8 1 3).digits
        (engine.lagfib2xor 8 1 3).size text_byte_words ∧
      (engine.lagfib2xor 8 1 3).read ⟨text_byte_words, false⟩ ⟨[5, 6, 7, 8], 1⟩ =
        (⟨[], false⟩, ⟨[97, 98, 99, 100], 2⟩)) :=
  ⟨⟨text_signed_index_no_text_form, by decide⟩, ⟨text_byte_words_no_text_form, by decide⟩⟩

/-! ## C8: the range of the index -/

theorem engine_seed_eq (e : engine) (S : status_type) (s : Nat) :
    e.seed S s = (e.seed_gen minstd S (minstd_init s)).1 := by
  cases e <;> rfl

theorem engine_seed0_eq (e : engine) (S : status_type) : e.seed0 S = e.seed S 0 := by
  cases e <;> rfl

theorem engine_ctor0_eq (e : engine) : e.ctor0 = e.seed0 (status_type.init e.size) := by
  cases e <;> rfl

theorem engine_ctor_eq (e : engine) (s : Nat) : e.ctor s = e.seed (status_type.init e.size) s := by
  cases e <;> rfl

theorem engine_seed_gen_index {σ : Type} (G : gen σ) (e : engine) (S : status_type) (g : σ)
    (h0 : 0 < e.tap_max) (hT : e.tap_max < 2 ^ 32) :
    (e.seed_gen G S g).1.index < e.size := by
  rw [engine_seed_gen_eq, (seed_gen_spec G e.digits e.tap_max S g).2.1, sub32_one _ h0 hT]
  have := utility_le_ceil2 e.tap_max
  unfold engine.size
  omega

theorem engine_step_index_lt (e : engine) (S : status_type) : (e.step S).index < e.size := by
  rw [engine_write_slot_eq]
  exact engine_write_slot_lt e S

theorem engine_discard_index_lt (e : engine) (n : Nat) (S : status_type)
    (h : S.index < e.size) : (e.discard n S).index < e.size := by
  cases n with
  | zero => rw [engine_discard_eq]; exact h
  | succ n =>
    rw [engine_discard_eq, ring_run_succ, ← engine_step_eq]
    exact engine_step_index_lt e _

/-- C8 (amended): the ring index satisfies `index < ringsize` in every lagged-Fibonacci engine
state produced by construction (default, from a scalar seed, from a source), by `seed()`,
`seed(s)`, `seed(g)` and `operator()` from any state, and by `discard(n)` from a state whose
index is in range. A successful text parse installs the index written in the text without a
range check: it is only known to be below `2 ^ 32`. -/
theorem index_in_range (e : engine) (h0 : 0 < e.tap_max) (hT : e.tap_max < 2 ^ 32) :
    e.ctor0.index < e.size ∧
    (∀ s, (e.ctor s).index < e.size) ∧
    (∀ (σ : Type) (G : gen σ) (g : σ), (e.ctor_gen G g).1.index < e.size) ∧
    (∀ S, (e.seed0 S).index < e.size) ∧
    (∀ S s, (e.seed S s).index < e.size) ∧
    (∀ (σ : Type) (G : gen σ) (S : status_type) (g : σ), (e.seed_gen G S g).1.index < e.size) ∧
    (∀ S, (e.next S).2.index < e.size) ∧
    (∀ S n, S.index < e.size → (e.discard n S).index < e.size) ∧
    (∀ inp R, (e.read inp R).1.fail = false → (e.read inp R).2.index < 2 ^ 32) := by
  have hseed : ∀ S s, (e.seed S s).index < e.size := by
    intro S s
    rw [engine_seed_eq]
    exact engine_seed_gen_index minstd e S _ h0 hT
  refine ⟨?_, ?_, ?_, ?_, hseed, ?_, ?_, ?_, ?_⟩
  · rw [engine_ctor0_eq, engine_seed0_eq]; exact hseed _ _
  · intro s; rw [engine_ctor_eq]; exact hseed _ _
  · intro σ G g
    have h := engine_seed_gen_index G e (status_type.init e.size) g h0 hT
    rw [engine_seed_gen_eq] at h
    rw [engine_ctor_gen_eq]
    exact h
  · intro S; rw [engine_seed0_eq]; exact hseed _ _
  · intro σ G S g; exact engine_seed_gen_index G e S g h0 hT
  · intro S; rw [engine_next_eq]; exact engine_step_index_lt e S
  · intro S n h; exact engine_discard_index_lt e n S h
  · intro inp R h
    rw [engine_read_eq] at h ⊢
    exact (read_engine_ok e.name e.digits e.size inp R h).2.2

/-- Witness for C8 (amended): the 32-bit `lagfib2plus` with taps 1 and 3. -/
theorem index_in_range_witness :
    (engine.lagfib2plus 32 1 3).ctor0.index < (engine.lagfib2plus 32 1 3).size ∧
    (∀ s, ((engine.lagfib2plus 32 1 3).ctor s).index < (engine.lagfib2plus 32 1 3).size) ∧
    (∀ (σ : Type) (G : gen σ) (g : σ),
      ((engine.lagfib2plus 32 1 3).ctor_gen G g).1.index < (engine.lagfib2plus 32 1 3).size) ∧
    (∀ S, ((engine.lagfib2plus 32 1 3).seed0 S).index < (engine.lagfib2plus 32 1 3).size) ∧
    (∀ S s, ((engine.lagfib2plus 32 1 3).seed S s).index < (engine.lagfib2plus 32 1 3).size) ∧
    (∀ (σ : Type) (G : gen σ) (S : status_type) (g : σ),
      ((engine.lagfib2plus 32 1 3).seed_gen G S g).1.index < (engine.lagfib2plus 32 1 3).size) ∧
    (∀ S, ((engine.lagfib2plus 32 1 3).next S).2.index < (engine.lagfib2plus 32 1 3).size) ∧
    (∀ S n, S.index < (engine.lagfib2plus 32 1 3).size →
      ((engine.lagfib2plus 32 1 3).discard n S).index < (engine.lagfib2plus 32 1 3).size) ∧
    (∀ inp R, ((engine.lagfib2plus 32 1 3).read inp R).1.fail = false →
      ((engine.lagfib2plus 32 1 3).read inp R).2.index < 2 ^ 32) :=
  index_in_range (engine.lagfib2plus 32 1 3) (by decide) (by decide)

/-- C8 as stated fails for a successful text parse: the 32-bit `lagfib2plus` with taps 1 and 3
has ring size 4, and reading the text `[lagfib2plus_32_1_3 (7 0 0 0 0)]` succeeds and installs
the index 7. -/
theorem index_in_range_parse_counterexample :
    (engine.lagfib2plus 32 1 3).size = 4 ∧
    (engine.lagfib2plus 32 1 3).read ⟨text_index_seven, false⟩ (engine.lagfib2plus 32 1 3).ctor0 =
      (⟨[], false⟩, ⟨[0, 0, 0, 0], 7⟩) ∧
    ¬ ((engine.lagfib2plus 32 1 3).read ⟨text_index_seven, false⟩
        (engine.lagfib2plus 32 1 3).ctor0).2.index < (engine.lagfib2plus 32 1 3).size :=
  ⟨by decide, by decide, by decide⟩

/-! ## Every text of the accepted form is accepted -/

theorem read_digits_append (ds : List Char) (x : Char) (tl : List Char)
    (hds : ∀ c ∈ ds, c.isDigit = true) (hx : x.isDigit = false) :
    ∀ v, read_digits (ds ++ x :: tl) v = (dec_value ds v, x :: tl) := by
  induction ds with
  | nil => intro v; simp [read_digits, hx, dec_value]
  | cons c cs ih =>
    intro v
    have hc := hds c (List.mem_cons_self c cs)
    rw [List.cons_append, read_digits, if_pos hc,
      ih (fun d hd => hds d (List.mem_cons_of_mem c hd))]
    rfl

theorem extract_magnitude_number (bound : Nat) (ds : List Char) (x : Char) (tl : List Char)
    (hds : is_number bound ds) (hx : x.isDigit = false) :
    extract_magnitude bound (ds ++ x :: tl) = (⟨x :: tl, false⟩, dec_value ds 0) := by
  obtain ⟨hne, hdig, hlt⟩ := hds
  have hrd := read_digits_append ds x tl hdig hx 0
  obtain ⟨c, cs, rfl⟩ : ∃ c cs, ds = c :: cs := by
    cases ds with
    | nil => exact absurd rfl hne
    | cons c cs => exact ⟨c, cs, rfl⟩
  have hc := hdig c (List.mem_cons_self c cs)
  rw [List.cons_append] at hrd ⊢
  unfold extract_magnitude
  simp only [hc, hrd, hlt, if_true]

theorem extract_signed_number (bound old : Nat) (t : List Char) (x : Char) (tl : List Char)
    (ht : is_signed_number bound t) (hx : x.isDigit = false) :
    (extract bound ⟨t ++ x :: tl, false⟩ old).1 = ⟨x :: tl, false⟩ := by
  obtain ⟨ds, hds, hcase⟩ := ht
  have hm := extract_magnitude_number bound ds x tl hds hx
  rcases hcase with rfl | rfl | rfl
  · obtain ⟨c, cs, rfl⟩ : ∃ c cs, t = c :: cs := by
      cases t with
      | nil => exact absurd rfl hds.1
      | cons c cs => exact ⟨c, cs, rfl⟩
    have hc := hds.2.1 c (List.mem_cons_self c cs)
    rw [List.cons_append] at hm ⊢
    unfold extract
    simp only [Bool.false_eq_true, if_false, (isDigit_ne_sign c hc).1,
      (isDigit_ne_sign c hc).2, hm]
  · rw [List.cons_append]
    unfold extract
    simp only [Bool.false_eq_true, if_false, if_true, hm]
    rfl
  · rw [List.cons_append]
    unfold extract
    simp only [Bool.false_eq_true, if_false, if_true, hm]

theorem extract_word_text (w old : Nat) (t : List Char) (x : Char) (tl : List Char)
    (ht : is_word_text w t) (hx : x.isDigit = false) :
    (extract_word w ⟨t ++ x :: tl, false⟩ old).1 = ⟨x :: tl, false⟩ := by
  unfold is_word_text at ht
  by_cases hw : w = 8
  · rw [if_pos hw] at ht
    obtain ⟨c, rfl⟩ := ht
    simp [extract_word, hw, extract_char]
  · rw [if_neg hw] at ht
    unfold extract_word
    rw [if_neg hw]
    exact extract_signed_number (2 ^ w) old t x tl ht hx

theorem join_words_head (words : List (List Char)) (x : Char) (tl : List Char)
    (hx : x.isDigit = false) :
    ∃ y tl1, join_words words ++ x :: tl = y :: tl1 ∧ y.isDigit = false := by
  cases words with
  | nil => exact ⟨x, tl, rfl, hx⟩
  | cons d ds => exact ⟨' ', _, rfl, rfl⟩

theorem read_words_join_words (w : Nat) (x : Char) (tl : List Char)
    (hx : x.isDigit = false) (words : List (List Char)) :
    ∀ (i : Nat) (S : status_type), (∀ d ∈ words, is_word_text w d) →
      (status_type.read_words w words.length i ⟨join_words words ++ x :: tl, false⟩ S).1 =
        ⟨x :: tl, false⟩ := by
  induction words with
  | nil => intro i S _; rfl
  | cons d ds ih =>
    intro i S h
    obtain ⟨y, tl1, hy, hyd⟩ := join_words_head ds x tl hx
    have hbuf : join_words (d :: ds) ++ x :: tl = ' ' :: (d ++ (join_words ds ++ x :: tl)) := by
      simp [join_words, List.append_assoc]
    rw [List.length_cons, hbuf, status_type.read_words, delim_cons, hy]
    rw [extract_word_text w _ d y tl1 (h d (List.mem_cons_self d ds)) hyd, ← hy]
    exact ih _ _ (fun e he => h e (List.mem_cons_of_mem d he))

theorem ignore_spaces_append (ws : List Char) (tl : List Char)
    (hws : ∀ c ∈ ws, c.isWhitespace = true) :
    ignore_spaces ⟨ws ++ '[' :: tl, false⟩ = ⟨'[' :: tl, false⟩ := by
  induction ws with
  | nil => exact ignore_spaces_bracket tl
  | cons c cs ih =>
    have hc := hws c (List.mem_cons_self c cs)
    have h := ih (fun d hd => hws d (List.mem_cons_of_mem c hd))
    simp only [ignore_spaces, Bool.false_eq_true, if_false, istream.mk.injEq, and_true] at h ⊢
    rw [List.cons_append, List.dropWhile_cons, if_pos hc]
    exact h

/-- The accepted form is exactly what `operator>>` accepts: a stream that has not failed and
holds a text of the accepted form is read without failure. -/
theorem read_engine_accepts (name : List Char) (w size : Nat) (text : List Char)
    (R : status_type) (h : accepted_form name w size text) :
    (read_engine name w size ⟨text, false⟩ R).1.fail = false := by
  obtain ⟨ws, idx, words, rest, hws, hidx, hlen, hwords, rfl⟩ := h
  obtain ⟨y, tl1, hy, hyd⟩ := join_words_head words ')' (']' :: rest) rfl
  have hbuf : ws ++ '[' :: name ++ ' ' :: '(' :: idx ++ join_words words ++ ')' :: ']' :: rest =
      ws ++ '[' :: (name ++ ' ' :: '(' :: (idx ++ (join_words words ++ ')' :: ']' :: rest))) := by
    simp [List.append_assoc]
  have hw := fun S => read_words_join_words w ')' (']' :: rest) rfl words 0 S hwords
  rw [hlen] at hw
  rw [read_engine_fst, status_read_fst, hbuf, ignore_spaces_append ws _ hws, delim_cons,
    delim_str_append, delim_cons, delim_cons, hy,
    extract_signed_number (2 ^ 32) _ idx y tl1 hidx hyd, ← hy, hw, delim_cons, delim_cons]

/-! ## `mrg5s`: seeding (C16, C17) -/

theorem wrap64_of_range (x : Int) (h1 : -9223372036854775808 ≤ x)
    (h2 : x < 9223372036854775808) : wrap64 x = x := by
  unfold wrap64
  omega

theorem wrap32_of_range (x : Int) (h1 : -2147483648 ≤ x) (h2 : x < 2147483648) :
    wrap32 x = x := by
  unfold wrap32
  omega

theorem tmod_of_neg (t m : Int) (ht : t < 0) (hm : 0 < m) : Int.tmod t m = -((-t) % m) := by
  have h1 : Int.tmod (-t) m = (-t) % m := Int.tmod_eq_emod (by omega) (by omega)
  have h2 := Int.tmod_def t m
  have h3 := Int.tmod_def (-t) m
  have h4 : (-t).tdiv m = -(t.tdiv m) := Int.neg_tdiv t m
  rw [h4] at h3
  rw [← h1, h3, h2]
  ring

/-- The C++ sequence `r = s % m; if (r < 0) r += m;` yields the non-negative residue. -/
theorem tmod_fixup (t : Int) :
    (0 ≤ t → Int.tmod t 2147462579 = t % 2147462579) ∧
    (t < 0 → Int.tmod t 2147462579 = -((-t) % 2147462579)) :=
  ⟨fun h => Int.tmod_eq_emod h (by decide), fun h => tmod_of_neg t _ h (by decide)⟩

theorem mrg5s_set_S_P (R : mrg5s) (S1 : mrg5s.status_type) : (mrg5s.set_S R S1).P = R.P := rfl

theorem mrg5s_set_S_S (R : mrg5s) (S1 : mrg5s.status_type) : (mrg5s.set_S R S1).S = S1 := rfl

theorem mrg5s_seed_r1 (s : Nat) (hs : s < 2 ^ 64) :
    mrg5s.seed_r1 s =
    if s < 2 ^ 63 then (s : Int) % mrg5s.modulus
    else ((s : Int) - 2 ^ 64) % mrg5s.modulus := by
  unfold mrg5s.seed_r1
  norm_num at hs ⊢
  unfold mrg5s.modulus
  by_cases h : s < 9223372036854775808
  · rw [if_pos h]
    have e0 : wrap64 (s : Int) = s := wrap64_of_range _ (by omega) (by omega)
    rw [e0, (tmod_fixup s).1 (by omega)]
    have e1 : wrap64 ((s : Int) % 2147462579) = (s : Int) % 2147462579 :=
      wrap64_of_range _ (by omega) (by omega)
    rw [e1, if_neg (by omega)]
    exact wrap32_of_range _ (by omega) (by omega)
  · rw [if_neg h]
    have e0 : wrap64 (s : Int) = (s : Int) - 18446744073709551616 := by
      unfold wrap64
      omega
    rw [e0, (tmod_fixup _).2 (by omega)]
    generalize hq : (-((s : Int) - 18446744073709551616)) % 2147462579 = q
    have hq1 : 0 ≤ q ∧ q < 2147462579 := by omega
    have e1 : wrap64 (-q) = -q := wrap64_of_range _ (by omega) (by omega)
    rw [e1]
    by_cases hz : -q < 0
    · rw [if_pos hz, wrap64_of_range _ (by omega) (by omega),
        wrap32_of_range _ (by omega) (by omega)]
      omega
    · rw [if_neg hz, wrap32_of_range _ (by omega) (by omega)]
      omega

/-- C16 (amended): for every unsigned 64-bit seed `s`, `mrg5s::seed(s)` leaves the parameter
block unchanged and sets `(r2, …, r5) = (1, 1, 1, 1)`; it sets `r1 = s mod m` when
`s < 2^63`, and `r1 = (s - 2^64) mod m` (the non-negative residue of `s` read as a signed
64-bit integer) when `s ≥ 2^63`, with `m = 2^31 - 21069 = 2147462579`. -/
theorem mrg5s_seed_scalar (R : mrg5s) (s : Nat) (hs : s < 2 ^ 64) :
    mrg5s.modulus = 2 ^ 31 - 21069 ∧ (mrg5s.seed R s).P = R.P ∧
    (mrg5s.seed R s).S =
      ⟨if s < 2 ^ 63 then (s : Int) % mrg5s.modulus else ((s : Int) - 2 ^ 64) % mrg5s.modulus,
        1, 1, 1, 1⟩ := by
  refine ⟨by norm_num [mrg5s.modulus], mrg5s_set_S_P _ _, ?_⟩
  rw [← mrg5s_seed_r1 s hs]
  exact mrg5s_set_S_S _ _

/-- Witness for C16 (amended): the seed `2^64 - 1` on an engine with the parameters `trng0`. -/
theorem mrg5s_seed_scalar_witness :
    mrg5s.modulus = 2 ^ 31 - 21069 ∧
    (mrg5s.seed mrg5s.example_engine 18446744073709551615).P = mrg5s.example_engine.P ∧
    (mrg5s.seed mrg5s.example_engine 18446744073709551615).S =
      ⟨if 18446744073709551615 < 2 ^ 63 then ((18446744073709551615 : Nat) : Int) % mrg5s.modulus
        else (((18446744073709551615 : Nat) : Int) - 2 ^ 64) % mrg5s.modulus, 1, 1, 1, 1⟩ :=
  mrg5s_seed_scalar mrg5s.example_engine 18446744073709551615 (by decide)

/-- C16 as stated fails for seeds from `2^63` on: with `s = 2^64 - 1` the conversion to
`int64_t` gives `t = -1`, so `seed(s)` sets `r1 = m - 1 = 2147462578`, while
`s mod m = 1775611043`. -/
theorem mrg5s_seed_scalar_counterexample :
    (mrg5s.seed mrg5s.example_engine 18446744073709551615).S = ⟨2147462578, 1, 1, 1, 1⟩ ∧
    ((18446744073709551615 : Nat) : Int) % mrg5s.modulus = 1775611043 :=
  ⟨by decide, by decide⟩

theorem mrg5s_seed_component_eq (s : Int) (h1 : -2 ^ 31 ≤ s) (h2 : s < 2 ^ 31) :
    mrg5s.seed_component s = s % mrg5s.modulus := by
  norm_num at h1 h2
  unfold mrg5s.seed_component mrg5s.modulus
  by_cases h : 0 ≤ s
  · rw [(tmod_fixup s).1 h, wrap32_of_range _ (by omega) (by omega), if_neg (by omega)]
  · rw [(tmod_fixup s).2 (by omega)]
    generalize hq : (-s) % 2147462579 = q
    have hq1 : 0 ≤ q ∧ q < 2147462579 := by omega
    rw [wrap32_of_range (-q) (by omega) (by omega)]
    by_cases hz : -q < 0
    · rw [if_pos hz, wrap32_of_range _ (by omega) (by omega)]
      omega
    · rw [if_neg hz]
      omega

/-- C17: for every tuple of signed 32-bit values `(s1, …, s5)`, `mrg5s::seed(s1, …, s5)` sets
each `ri` to the non-negative residue of `si` modulo `m = 2^31 - 21069`: every status
component lies in `[0, m)`, also for a negative `si`, and `ri = si` when `0 ≤ si < m`. The
parameter block is not touched. -/
theorem mrg5s_seed_tuple (R : mrg5s) (s1 s2 s3 s4 s5 : Int)
    (h1 : -2 ^ 31 ≤ s1 ∧ s1 < 2 ^ 31) (h2 : -2 ^ 31 ≤ s2 ∧ s2 < 2 ^ 31)
    (h3 : -2 ^ 31 ≤ s3 ∧ s3 < 2 ^ 31) (h4 : -2 ^ 31 ≤ s4 ∧ s4 < 2 ^ 31)
    (h5 : -2 ^ 31 ≤ s5 ∧ s5 < 2 ^ 31) :
    mrg5s.modulus = 2 ^ 31 - 21069 ∧ (mrg5s.seed5 R s1 s2 s3 s4 s5).P = R.P ∧
    (mrg5s.seed5 R s1 s2 s3 s4 s5).S =
      ⟨s1 % mrg5s.modulus, s2 % mrg5s.modulus, s3 % mrg5s.modulus, s4 % mrg5s.modulus,
        s5 % mrg5s.modulus⟩ ∧
    (∀ s : Int, 0 ≤ s % mrg5s.modulus ∧ s % mrg5s.modulus < mrg5s.modulus) ∧
    (∀ s : Int, 0 ≤ s → s < mrg5s.modulus → s % mrg5s.modulus = s) := by
  refine ⟨by norm_num [mrg5s.modulus], mrg5s_set_S_P _ _, ?_, ?_, ?_⟩
  · rw [← mrg5s_seed_component_eq s1 h1.1 h1.2, ← mrg5s_seed_component_eq s2 h2.1 h2.2,
      ← mrg5s_seed_component_eq s3 h3.1 h3.2, ← mrg5s_seed_component_eq s4 h4.1 h4.2,
      ← mrg5s_seed_component_eq s5 h5.1 h5.2]
    exact mrg5s_set_S_S _ _
  · intro s
    unfold mrg5s.modulus
    omega
  · intro s h0 hm
    unfold mrg5s.modulus at hm ⊢
    omega

/-- Witness for C17: the tuple `(-1, -2147483648, 2147483647, 5, 0)`. -/
theorem mrg5s_seed_tuple_witness :
    mrg5s.modulus = 2 ^ 31 - 21069 ∧
    (mrg5s.seed5 mrg5s.example_engine (-1) (-2147483648) 2147483647 5 0).P =
      mrg5s.example_engine.P ∧
    (mrg5s.seed5 mrg5s.example_engine (-1) (-2147483648) 2147483647 5 0).S =
      ⟨(-1) % mrg5s.modulus, (-2147483648) % mrg5s.modulus, 2147483647 % mrg5s.modulus,
        5 % mrg5s.modulus, 0 % mrg5s.modulus⟩ ∧
    (∀ s : Int, 0 ≤ s % mrg5s.modulus ∧ s % mrg5s.modulus < mrg5s.modulus) ∧
    (∀ s : Int, 0 ≤ s → s < mrg5s.modulus → s % mrg5s.modulus = s) :=
  mrg5s_seed_tuple mrg5s.example_engine (-1) (-2147483648) 2147483647 5 0
    ⟨by decide, by decide⟩ ⟨by decide, by decide⟩ ⟨by decide, by decide⟩
    ⟨by decide, by decide⟩ ⟨by decide, by decide⟩

/-! ## `mrg5s`: the first step after `seed(1, 1, 1, 1, 1)` (C18) -/

/-- C18: for every `mrg5s` parameter set `(a1, …, a5)` with components in `[0, m)`: after
`seed(1, 1, 1, 1, 1)` the status is `(1, 1, 1, 1, 1)`, and one application of the specified
state step yields `r1 = (a1 + a2 + a3 + a4 + a5) mod m` and `(r2, …, r5) = (1, 1, 1, 1)`; the
sum stays far below `2^63`, so 64-bit signed arithmetic does not overflow. -/
theorem mrg5s_seed_ones_step (R : mrg5s) (hP : R.P.valid) :
    (mrg5s.seed5 R 1 1 1 1 1).S = ⟨1, 1, 1, 1, 1⟩ ∧
    (mrg5s.step (mrg5s.seed5 R 1 1 1 1 1)).S =
      ⟨(R.P.a1 + R.P.a2 + R.P.a3 + R.P.a4 + R.P.a5) % mrg5s.modulus, 1, 1, 1, 1⟩ ∧
    (mrg5s.step (mrg5s.seed5 R 1 1 1 1 1)).P = R.P ∧
    0 ≤ R.P.a1 + R.P.a2 + R.P.a3 + R.P.a4 + R.P.a5 ∧
    R.P.a1 + R.P.a2 + R.P.a3 + R.P.a4 + R.P.a5 < 2 ^ 63 := by
  have hone : mrg5s.seed_component 1 = 1 := by decide
  have hS : (mrg5s.seed5 R 1 1 1 1 1).S = ⟨1, 1, 1, 1, 1⟩ := by
    unfold mrg5s.seed5
    rw [mrg5s_set_S_S, hone]
  have hPP : (mrg5s.seed5 R 1 1 1 1 1).P = R.P := mrg5s_set_S_P _ _
  obtain ⟨h1, h2, h3, h4, h5⟩ := hP
  unfold mrg5s.modulus at h1 h2 h3 h4 h5
  refine ⟨hS, ?_, ?_, by omega, by norm_num; omega⟩
  · unfold mrg5s.step
    rw [mrg5s_set_S_S, hS, hPP]
    simp only [mul_one]
  · unfold mrg5s.step
    rw [mrg5s_set_S_P, hPP]

theorem mrg5s_trng0_valid : mrg5s.trng0.valid := by
  unfold mrg5s.parameter_type.valid
  decide

/-- Witness for C18: the parameter set `trng0`. -/
theorem mrg5s_seed_ones_step_witness :
    (mrg5s.seed5 mrg5s.example_engine 1 1 1 1 1).S = ⟨1, 1, 1, 1, 1⟩ ∧
    (mrg5s.step (mrg5s.seed5 mrg5s.example_engine 1 1 1 1 1)).S =
      ⟨(mrg5s.example_engine.P.a1 + mrg5s.example_engine.P.a2 + mrg5s.example_engine.P.a3 +
        mrg5s.example_engine.P.a4 + mrg5s.example_engine.P.a5) % mrg5s.modulus, 1, 1, 1, 1⟩ ∧
    (mrg5s.step (mrg5s.seed5 mrg5s.example_engine 1 1 1 1 1)).P = mrg5s.example_engine.P ∧
    0 ≤ mrg5s.example_engine.P.a1 + mrg5s.example_engine.P.a2 + mrg5s.example_engine.P.a3 +
      mrg5s.example_engine.P.a4 + mrg5s.example_engine.P.a5 ∧
    mrg5s.example_engine.P.a1 + mrg5s.example_engine.P.a2 + mrg5s.example_engine.P.a3 +
      mrg5s.example_engine.P.a4 + mrg5s.example_engine.P.a5 < 2 ^ 63 :=
  mrg5s_seed_ones_step mrg5s.example_engine mrg5s_trng0_valid

/-! ## `mrg5s`: construction (C19) and the shipped parameter sets (C20) -/

/-- C19 (amended): constructing an `mrg5s` engine from a parameter block never fails and never
changes the block: the constructors store `P` as given, whatever its coefficients are (also
when some `a_i` lies outside `[0, m)`); no validation takes place and no coefficient is
reduced. -/
theorem mrg5s_ctor_accepts_any (S0 : mrg5s.status_type) (P : mrg5s.parameter_type) (s : Nat) :
    mrg5s.ctor S0 P = some ⟨P, S0⟩ ∧
    (∃ R, mrg5s.ctor_seed S0 s P = some R ∧ R.P = P) := by
  refine ⟨rfl, mrg5s.seed ⟨P, S0⟩ s, rfl, ?_⟩
  exact mrg5s_set_S_P _ _

/-- C19 as stated fails: the block `(m, -1, 0, 0, 0)` has `a1` and `a2` outside `[0, m)`, and
the constructor returns an engine holding exactly this block instead of failing. -/
theorem mrg5s_ctor_invalid_counterexample :
    ¬ (0 ≤ mrg5s.invalid_parameter.a2) ∧ ¬ (mrg5s.invalid_parameter.a1 < mrg5s.modulus) ∧
    mrg5s.ctor ⟨0, 1, 1, 1, 1⟩ mrg5s.invalid_parameter =
      some ⟨mrg5s.invalid_parameter, ⟨0, 1, 1, 1, 1⟩⟩ ∧
    mrg5s.ctor ⟨0, 1, 1, 1, 1⟩ mrg5s.invalid_parameter ≠ none :=
  ⟨by decide, by decide, rfl, by decide⟩

/-- C20: both shipped parameter sets, `trng0` and `trng1`, have every coefficient `a1 … a5`
in `[0, m)` with `m = 2^31 - 21069 = 2147462579`. -/
theorem mrg5s_shipped_parameters_valid :
    mrg5s.modulus = 2147462579 ∧ mrg5s.modulus = 2 ^ 31 - 21069 ∧
    mrg5s.trng0 = ⟨1053223373, 1530818118, 1612122482, 133497989, 573245311⟩ ∧
    mrg5s.trng1 = ⟨2068619238, 2138332912, 671754166, 1442240992, 1526958817⟩ ∧
    mrg5s.trng0.valid ∧ mrg5s.trng1.valid := by
  refine ⟨rfl, by norm_num [mrg5s.modulus], rfl, rfl, ?_, ?_⟩
  · unfold mrg5s.parameter_type.valid
    decide
  · unfold mrg5s.parameter_type.valid
    decide

/-! ## C11: the index after seeding and the first call -/

theorem ring_step_struct (M : Nat) (comb : (Nat → Nat) → Nat) (S : status_type) :
    ring_step M comb S =
      ⟨S.r.set (((S.index + 1) % 2 ^ 32) &&& M)
          (comb fun t => S.r.getD (sub32 (((S.index + 1) % 2 ^ 32) &&& M) t &&& M) 0),
        ((S.index + 1) % 2 ^ 32) &&& M⟩ := rfl

/-- The first step of `lagfib2plus` from a state with index `B - 1`, when `B` is smaller than
the ring size: the sum of the words in slots `B - A` and `0` goes to slot `B`. -/
theorem lagfib2plus_step_from_seeded (w A B : Nat) (hA : 0 < A) (hAB : A < B)
    (hBN : B < ceil2 B) (hB : B < 2 ^ 32) (S : status_type) (hidx : S.index = B - 1) :
    lagfib2plus.step w A B S =
      ⟨S.r.set B ((S.r.getD (B - A) 0 + S.r.getD 0 0) % 2 ^ w), B⟩ := by
  obtain ⟨k, hk, e1, e2, _⟩ := utility_ceil2_pow_le B hB
  rw [e1] at hBN
  have hi : ((S.index + 1) % 2 ^ 32) &&& (2 ^ k - 1) = B := by
    rw [mod32_land_mask _ _ hk, hidx]
    have : B - 1 + 1 = B := by omega
    rw [this, Nat.mod_eq_of_lt hBN]
  have hA2 : sub32 B A &&& (2 ^ k - 1) = B - A := by
    rw [sub32_land_mask B A k hk (by omega) (by omega)]
    have : B + 2 ^ k - A = (B - A) + 2 ^ k := by omega
    rw [this, Nat.add_mod_right, Nat.mod_eq_of_lt (by omega)]
  have hB2 : sub32 B B &&& (2 ^ k - 1) = 0 := by
    rw [sub32_land_mask B B k hk (by omega) hB]
    have : B + 2 ^ k - B = 2 ^ k := by omega
    rw [this, Nat.mod_self]
  rw [lagfib2plus_step_eq, e2, ring_step_struct, hi]
  simp only [comb2plus, hA2, hB2]

theorem lagfib2plus_next_struct (w A B : Nat) (S : status_type) :
    lagfib2plus.next w A B S =
      ((lagfib2plus.step w A B S).r.getD (lagfib2plus.step w A B S).index 0,
        lagfib2plus.step w A B S) := rfl

/-- C11: after `seed(g)` on a lagged-Fibonacci engine (in any state) the index equals
`tap_max - 1`; and for `lagfib2plus<T,A,B>` with `0 < A < B` and `B` smaller than the ring
size, the first call of `operator()` after `seed(g)` steps first: it returns
`(r[B-A] + r[0]) mod 2^w` computed from the seeded words, stores it at slot `B`, moves the
index to `B`, and leaves the seeded slots `0 … B-1` as they are. -/
theorem seed_index_and_first_call (w A B : Nat) (hA : 0 < A) (hAB : A < B)
    (hBN : B < ceil2 B) (hB : B < 2 ^ 32) {σ : Type} (G : gen σ) (S : status_type) (g : σ)
    (hlen : S.r.length = ceil2 B) :
    (∀ (e : engine) (S1 : status_type), 0 < e.tap_max → e.tap_max < 2 ^ 32 →
      (e.seed_gen G S1 g).1.index = e.tap_max - 1) ∧
    (lagfib2plus.next w A B (lagfib2plus.seed_gen G w B S g).1).1 =
      ((lagfib2plus.seed_gen G w B S g).1.r.getD (B - A) 0 +
        (lagfib2plus.seed_gen G w B S g).1.r.getD 0 0) % 2 ^ w ∧
    (lagfib2plus.next w A B (lagfib2plus.seed_gen G w B S g).1).2 =
      ⟨(lagfib2plus.seed_gen G w B S g).1.r.set B
        (((lagfib2plus.seed_gen G w B S g).1.r.getD (B - A) 0 +
          (lagfib2plus.seed_gen G w B S g).1.r.getD 0 0) % 2 ^ w), B⟩ ∧
    ∀ i, i < B → (lagfib2plus.next w A B (lagfib2plus.seed_gen G w B S g).1).2.r.getD i 0 =
      (lagfib2plus.seed_gen G w B S g).1.r.getD i 0 := by
  have hgen : ∀ (e : engine) (S1 : status_type), 0 < e.tap_max → e.tap_max < 2 ^ 32 →
      (e.seed_gen G S1 g).1.index = e.tap_max - 1 := by
    intro e S1 h0 hT
    rw [engine_seed_gen_eq, (seed_gen_spec G e.digits e.tap_max S1 g).2.1, sub32_one _ h0 hT]
  have hidx : (lagfib2plus.seed_gen G w B S g).1.index = B - 1 :=
    hgen (engine.lagfib2plus w A B) S (by show 0 < B; omega) hB
  have hl : (lagfib2plus.seed_gen G w B S g).1.r.length = ceil2 B :=
    (seed_gen_spec G w B S g).2.2.1.trans hlen
  generalize (lagfib2plus.seed_gen G w B S g).1 = S1 at hidx hl ⊢
  have hstep := lagfib2plus_step_from_seeded w A B hA hAB hBN hB S1 hidx
  rw [lagfib2plus_next_struct, hstep]
  refine ⟨hgen, ?_, rfl, ?_⟩
  · exact getD_set_self _ _ _ (by omega)
  · intro i hi
    exact getD_set_ne _ _ _ _ (by omega)

/-- Witness for C11: the 32-bit `lagfib2plus` with taps 1 and 3 (ring size 4) seeded from the
die. -/
theorem seed_index_and_first_call_witness :
    (∀ (e : engine) (S1 : status_type), 0 < e.tap_max → e.tap_max < 2 ^ 32 →
      (e.seed_gen die S1 3).1.index = e.tap_max - 1) ∧
    (lagfib2plus.next 32 1 3 (lagfib2plus.seed_gen die 32 3 (status_type.init 4) 3).1).1 =
      ((lagfib2plus.seed_gen die 32 3 (status_type.init 4) 3).1.r.getD (3 - 1) 0 +
        (lagfib2plus.seed_gen die 32 3 (status_type.init 4) 3).1.r.getD 0 0) % 2 ^ 32 ∧
    (lagfib2plus.next 32 1 3 (lagfib2plus.seed_gen die 32 3 (status_type.init 4) 3).1).2 =
      ⟨(lagfib2plus.seed_gen die 32 3 (status_type.init 4) 3).1.r.set 3
        (((lagfib2plus.seed_gen die 32 3 (status_type.init 4) 3).1.r.getD (3 - 1) 0 +
          (lagfib2plus.seed_gen die 32 3 (status_type.init 4) 3).1.r.getD 0 0) % 2 ^ 32), 3⟩ ∧
    ∀ i, i < 3 →
      (lagfib2plus.next 32 1 3 (lagfib2plus.seed_gen die 32 3 (status_type.init 4) 3).1).2.r.getD
        i 0 = (lagfib2plus.seed_gen die 32 3 (status_type.init 4) 3).1.r.getD i 0 :=
  seed_index_and_first_call 32 1 3 (by decide) (by decide) (by decide) (by decide) die
    (status_type.init 4) 3 (by decide)

/-! ## C12: re-seeding against fresh construction -/

theorem status_type_eq_getD (size : Nat) (a b : status_type)
    (h : status_type.eq size a b = true) (i : Nat) (hi : i < size) :
    a.r.getD i 0 = b.r.getD i 0 := by
  unfold status_type.eq at h
  by_cases hidx : a.index ≠ b.index
  · rw [if_pos hidx] at h
    exact absurd h (by decide)
  · rw [if_neg hidx] at h
    have hx := List.all_eq_true.1 h i (List.mem_range.2 hi)
    simpa using hx

theorem engine_eq_getD (e : engine) (a b : status_type) (h : e.eq a b = true) (i : Nat)
    (hi : i < e.size) : a.r.getD i 0 = b.r.getD i 0 := by
  cases e <;> exact status_type_eq_getD _ a b h i hi

/-- The method `seed(s)` leaves the slots from `tap_max` on as they were, while a freshly
constructed engine has zero there: an engine whose slot `tap_max` lies inside the ring
and holds a non-zero word does not compare equal to a fresh `E(s)` after `seed(s)`. -/
theorem reseed_ne_fresh (e : engine) (S : status_type) (s : Nat) (hT : e.tap_max < e.size)
    (hS : S.r.getD e.tap_max 0 ≠ 0) :
    (e.seed S s).r.getD e.tap_max 0 = S.r.getD e.tap_max 0 ∧
    (e.ctor s).r.getD e.tap_max 0 = 0 ∧ e.eq (e.seed S s) (e.ctor s) = false := by
  have h1 : (e.seed S s).r.getD e.tap_max 0 = S.r.getD e.tap_max 0 := by
    rw [engine_seed_eq, engine_seed_gen_eq]
    exact (seed_gen_spec minstd e.digits e.tap_max S _).2.2.2.1 _ (le_refl _)
  have h2 : (e.ctor s).r.getD e.tap_max 0 = 0 := by
    rw [engine_ctor_eq, engine_seed_eq, engine_seed_gen_eq,
      (seed_gen_spec minstd e.digits e.tap_max _ _).2.2.2.1 _ (le_refl _)]
    exact status_type_init_getD _ _
  refine ⟨h1, h2, ?_⟩
  cases hq : e.eq (e.seed S s) (e.ctor s) with
  | false => rfl
  | true =>
    have h3 := engine_eq_getD e _ _ hq e.tap_max hT
    rw [h1, h2] at h3
    exact absurd h3 hS

/-- C12 fails on the code: the 32-bit `lagfib2plus` with taps 1 and 3 (ring size 4),
constructed with the seed 42, called once and then re-seeded with `seed(42)`, keeps the word
`3157447007` that the call stored in slot 3, whereas the freshly constructed engine has `0`
there; `operator==` between the two is false. -/
theorem reseed_ne_fresh_evaluation :
    (engine.lagfib2plus 32 1 3).ctor 42 =
      ⟨[1670913696, 2115112282, 1486533311, 0], 2⟩ ∧
    ((engine.lagfib2plus 32 1 3).next ((engine.lagfib2plus 32 1 3).ctor 42)).2 =
      ⟨[1670913696, 2115112282, 1486533311, 3157447007], 3⟩ ∧
    (engine.lagfib2plus 32 1 3).seed
        ((engine.lagfib2plus 32 1 3).next ((engine.lagfib2plus 32 1 3).ctor 42)).2 42 =
      ⟨[1670913696, 2115112282, 1486533311, 3157447007], 2⟩ ∧
    (engine.lagfib2plus 32 1 3).eq
      ((engine.lagfib2plus 32 1 3).seed
        ((engine.lagfib2plus 32 1 3).next ((engine.lagfib2plus 32 1 3).ctor 42)).2 42)
      ((engine.lagfib2plus 32 1 3).ctor 42) = false :=
  ⟨by decide, by decide, by decide, by decide⟩

/-! ## C13: two instances constructed from the same seed -/

theorem engine_output_next (e : engine) (E : status_type) (i : Nat) :
    e.output E (i + 2) = e.output (e.next E).2 (i + 1) := by
  rw [engine_output_succ, engine_output_succ, engine_calls_succ_head]

theorem engine_outputs_cons (e : engine) (E : status_type) (k : Nat) :
    (e.next E).1 :: (List.range k).map (fun i => e.output (e.next E).2 (i + 1)) =
      (List.range (k + 1)).map (fun i => e.output E (i + 1)) := by
  rw [List.range_succ_eq_map, List.map_cons, List.map_map]
  congr 1
  · rw [engine_output_succ, engine_calls_zero]
  · apply List.map_congr_left
    intro i _
    exact (engine_output_next e E i).symm

theorem engine_run_pair_spec (e : engine) (sch : List Bool) :
    ∀ E1 E2 : status_type, e.run_pair sch (E1, E2) =
      ((List.range (sch.count true)).map (fun i => e.output E1 (i + 1)),
        (List.range (sch.count false)).map (fun i => e.output E2 (i + 1))) := by
  induction sch with
  | nil => intro E1 E2; rfl
  | cons b sch ih =>
    intro E1 E2
    cases b with
    | true =>
      rw [engine.run_pair, ih]
      simp only [List.count_cons_self, List.count_cons_of_ne (by decide : false ≠ true)]
      rw [engine_outputs_cons]
    | false =>
      rw [engine.run_pair, ih]
      simp only [List.count_cons_self, List.count_cons_of_ne (by decide : true ≠ false)]
      rw [engine_outputs_cons]

theorem getD_set_zero (l : List Nat) (i s : Nat) :
    (l.set i 0).getD s 0 = if s = i then 0 else l.getD s 0 := by
  by_cases h : s = i
  · subst h
    rw [if_pos rfl]
    by_cases hs : s < l.length
    · exact getD_set_self l s 0 hs
    · rw [List.getD_eq_getElem?_getD, List.getElem?_eq_none (by simpa using hs)]
      rfl
  · rw [if_neg h]
    exact getD_set_ne l i s 0 (Ne.symm h)

theorem zero_fill_spec (c : Nat) :
    ∀ (i : Nat) (r : List Nat),
      (status_type.zero_fill r c i).length = r.length ∧
      ∀ s, (status_type.zero_fill r c i).getD s 0 =
        if i ≤ s ∧ s < i + c then 0 else r.getD s 0 := by
  induction c with
  | zero =>
    intro i r
    refine ⟨rfl, fun s => ?_⟩
    rw [if_neg (by omega)]
    rfl
  | succ c ih =>
    intro i r
    obtain ⟨h1, h2⟩ := ih (i + 1) (r.set i 0)
    rw [status_type.zero_fill]
    refine ⟨by rw [h1, List.length_set], fun s => ?_⟩
    rw [h2 s, getD_set_zero]
    by_cases ha : i + 1 ≤ s ∧ s < i + 1 + c
    · rw [if_pos ha, if_pos (by omega)]
    · rw [if_neg ha]
      by_cases hb : s = i
      · rw [if_pos hb, if_pos (by omega)]
      · rw [if_neg hb, if_neg (by omega)]

/-- The constructor `status_type()` leaves nothing of what the storage held: the status is
the ring of `size` zero words with index 0. -/
theorem status_type_ctor_eq_init (size : Nat) (mem : status_type)
    (h : mem.r.length = size) : status_type.ctor size mem = status_type.init size := by
  obtain ⟨h1, h2⟩ := zero_fill_spec size 0 mem.r
  have hr : status_type.zero_fill mem.r size 0 = List.replicate size 0 := by
    apply getD_ext
    · rw [h1, h, List.length_replicate]
    · intro i hi
      rw [h1, h] at hi
      rw [h2 i, if_pos (by omega)]
      have := status_type_init_getD size i
      exact this.symm
  unfold status_type.ctor status_type.init
  rw [hr]

/-- C13: for every lagged-Fibonacci engine type and every scalar seed `s`, two instances
`E(s)` constructed independently, each in its own storage holding whatever it held before
(`mem1`, `mem2`), are in the same state, the one that seeding the zero ring from the source
`minstd(s)` gives; used side by side with their calls interleaved in any order, each returns
at its `n`-th call of `operator()` the `n`-th output of `E(s)`, so the two return the same
value at every `n >= 1`. -/
theorem same_seed_same_outputs (e : engine) (s : Nat) (mem1 mem2 : status_type)
    (h1 : mem1.r.length = e.size) (h2 : mem2.r.length = e.size) (sch : List Bool) :
    e.ctor_in mem1 s = e.ctor_in mem2 s ∧
    e.ctor_in mem1 s = (e.seed_gen minstd (status_type.init e.size) (minstd_init s)).1 ∧
    (∀ n, e.output (e.ctor_in mem1 s) (n + 1) = e.output (e.ctor_in mem2 s) (n + 1)) ∧
    (e.run_pair sch (e.ctor_in mem1 s, e.ctor_in mem2 s)).1 =
      (List.range (sch.count true)).map (fun i => e.output (e.ctor s) (i + 1)) ∧
    (e.run_pair sch (e.ctor_in mem1 s, e.ctor_in mem2 s)).2 =
      (List.range (sch.count false)).map (fun i => e.output (e.ctor s) (i + 1)) ∧
    ∀ n, n < sch.count true → n < sch.count false →
      (e.run_pair sch (e.ctor_in mem1 s, e.ctor_in mem2 s)).1[n]? =
        (e.run_pair sch (e.ctor_in mem1 s, e.ctor_in mem2 s)).2[n]? := by
  have c1 : e.ctor_in mem1 s = e.ctor s := by
    unfold engine.ctor_in
    rw [status_type_ctor_eq_init e.size mem1 h1, engine_ctor_eq]
  have c2 : e.ctor_in mem2 s = e.ctor s := by
    unfold engine.ctor_in
    rw [status_type_ctor_eq_init e.size mem2 h2, engine_ctor_eq]
  rw [c1, c2, engine_run_pair_spec]
  refine ⟨rfl, ?_, fun _ => rfl, rfl, rfl, ?_⟩
  · rw [engine_ctor_eq, engine_seed_eq]
  · intro n h1 h2
    simp [List.getElem?_map, List.getElem?_range, h1, h2]

/-- Witness for C13: two instances of the 32-bit `lagfib2plus` with taps 1 and 3 with the
seed 42, constructed in storage that held different rings. -/
theorem same_seed_same_outputs_witness :
    (status_type.mk [5, 6, 7, 8] 1).r.length = (engine.lagfib2plus 32 1 3).size ∧
      (status_type.mk [9, 9, 9, 9] 3).r.length = (engine.lagfib2plus 32 1 3).size ∧
      (engine.lagfib2plus 32 1 3).ctor_in ⟨[5, 6, 7, 8], 1⟩ 42 =
        (engine.lagfib2plus 32 1 3).ctor_in ⟨[9, 9, 9, 9], 3⟩ 42 ∧
      status_type.ctor 4 ⟨[5, 6, 7, 8], 1⟩ = ⟨[0, 0, 0, 0], 0⟩ :=
  ⟨by decide, by decide,
    (same_seed_same_outputs (engine.lagfib2plus 32 1 3) 42 ⟨[5, 6, 7, 8], 1⟩ ⟨[9, 9, 9, 9], 3⟩
      (by decide) (by decide) [true, false, true]).1,
    by decide⟩

/-! ## C14: the text form written by `operator<<` -/

theorem write_words_eq_join (w : Nat) (hw : w ≠ 8) (S : status_type) (c : Nat) :
    ∀ i, status_type.write_words w S c i =
      join_words ((List.range' i c).map fun j => to_dec (S.r.getD j 0)) := by
  induction c with
  | zero => intro i; rfl
  | succ c ih =>
    intro i
    rw [status_type.write_words, ih, List.range'_succ, List.map_cons, join_words, write_word,
      if_neg hw]

theorem write_words_bytes (S : status_type) (c : Nat) :
    ∀ i, status_type.write_words 8 S c i =
      join_words ((List.range' i c).map fun j => [Char.ofNat (S.r.getD j 0)]) := by
  induction c with
  | zero => intro i; rfl
  | succ c ih =>
    intro i
    rw [status_type.write_words, ih, List.range'_succ, List.map_cons, join_words, write_word,
      if_pos rfl]

theorem to_dec_loop_head_ne_zero (fuel : Nat) :
    ∀ (n : Nat) (acc : List Char), 0 < n → n < fuel →
      ∃ c tl, to_dec_loop fuel n acc = c :: tl ∧ c ≠ '0' := by
  induction fuel with
  | zero => intro n acc _ h; omega
  | succ f ih =>
    intro n acc h0 h
    rw [to_dec_loop]
    by_cases hn : n < 10
    · rw [if_pos hn]
      refine ⟨_, _, rfl, ?_⟩
      interval_cases n <;> decide
    · rw [if_neg hn]
      exact ih _ _ (by omega) (by omega)

/-- The decimal form of the model: the digits of `n`, whose value is `n`, without a leading
zero (the number `0` is written `0`). -/
theorem to_dec_decimal (n : Nat) :
    (∀ c ∈ to_dec n, c.isDigit = true) ∧ dec_value (to_dec n) 0 = n ∧
    (n = 0 → to_dec n = ['0']) ∧ (0 < n → ∃ c tl, to_dec n = c :: tl ∧ c ≠ '0') := by
  have hrd : read_digits (to_dec n ++ []) 0 = (n, []) := by
    rw [to_dec, read_digits_to_dec_loop (n + 1) n [] [] (by omega)]
    rfl
  rw [List.append_nil] at hrd
  obtain ⟨ds, h1, h2, h3⟩ := read_digits_spec (to_dec n) 0
  rw [hrd] at h2 h3
  rw [List.append_nil] at h2
  refine ⟨by rw [h2]; exact h1, by rw [h2]; exact h3.symm, ?_, ?_⟩
  · intro h; subst h; rfl
  · intro h; exact to_dec_loop_head_ne_zero (n + 1) n [] h (by omega)

/-- C14 (amended): the text that `operator<<` writes for a lagged-Fibonacci engine whose
word type is not the 8-bit character type is exactly `'['`, the name, `' '`, `'('`, the
index in decimal, then for each of the `N = ringsize` slots `r0 … r_{N-1}` in order a single
space followed by the word in decimal, then `')'` and `']'`; for an 8-bit word type the
text is the same except that each word is written as the single character with that code.
The name is the family prefix followed by the word width and the taps in decimal, joined by
`'_'`; `lagfib2xor<uint64_t,168,521>` is named `lagfib2xor_64_168_521` and
`lagfib4xor<uint32_t,471,1586,6988,9689>` is named `lagfib4xor_32_471_1586_6988_9689`. -/
theorem engine_text_form (e : engine) (E : status_type) :
    (e.digits ≠ 8 →
      e.write E = '[' :: e.name ++ ' ' :: '(' :: to_dec E.index ++
        join_words ((List.range e.size).map fun i => to_dec (E.r.getD i 0)) ++ [')', ']']) ∧
    (e.digits = 8 →
      e.write E = '[' :: e.name ++ ' ' :: '(' :: to_dec E.index ++
        join_words ((List.range e.size).map fun i => [Char.ofNat (E.r.getD i 0)]) ++
          [')', ']']) ∧
    (∀ n, (∀ c ∈ to_dec n, c.isDigit = true) ∧ dec_value (to_dec n) 0 = n) ∧
    (∀ w A B, (engine.lagfib2plus w A B).name =
      "lagfib2plus".toList ++ '_' :: to_dec w ++ '_' :: to_dec A ++ '_' :: to_dec B) ∧
    (∀ w A B, (engine.lagfib2xor w A B).name =
      "lagfib2xor".toList ++ '_' :: to_dec w ++ '_' :: to_dec A ++ '_' :: to_dec B) ∧
    (∀ w A B C D, (engine.lagfib4xor w A B C D).name =
      "lagfib4xor".toList ++ '_' :: to_dec w ++ '_' :: to_dec A ++ '_' :: to_dec B ++
        '_' :: to_dec C ++ '_' :: to_dec D) ∧
    (engine.lagfib2xor 64 168 521).name = "lagfib2xor_64_168_521".toList ∧
    (engine.lagfib4xor 32 471 1586 6988 9689).name =
      "lagfib4xor_32_471_1586_6988_9689".toList := by
  refine ⟨?_, ?_, fun n => ⟨(to_dec_decimal n).1, (to_dec_decimal n).2.1⟩, fun _ _ _ => rfl,
    fun _ _ _ => rfl, fun _ _ _ _ _ => rfl, by decide, by decide⟩
  · intro hw
    rw [engine_write_eq, write_engine, status_type.write, write_words_eq_join _ hw,
      List.range_eq_range']
    simp [List.append_assoc]
  · intro hw
    rw [engine_write_eq, write_engine, status_type.write, hw, write_words_bytes,
      List.range_eq_range']
    simp [List.append_assoc]

/-- Witness for C14 (amended): a state of the 32-bit `lagfib2plus` with taps 1 and 3. -/
theorem engine_text_form_witness :
    (engine.lagfib2plus 32 1 3).digits ≠ 8 ∧
      (engine.lagfib2plus 32 1 3).write ⟨[1, 20, 300, 4000], 2⟩ =
        '[' :: (engine.lagfib2plus 32 1 3).name ++ ' ' :: '(' :: to_dec 2 ++
          join_words ((List.range (engine.lagfib2plus 32 1 3).size).map
            fun i => to_dec ((status_type.mk [1, 20, 300, 4000] 2).r.getD i 0)) ++ [')', ']'] ∧
      (engine.lagfib2plus 32 1 3).write ⟨[1, 20, 300, 4000], 2⟩ =
        "[lagfib2plus_32_1_3 (2 1 20 300 4000)]".toList :=
  ⟨by decide,
    (engine_text_form (engine.lagfib2plus 32 1 3) ⟨[1, 20, 300, 4000], 2⟩).1 (by decide),
    by decide⟩

/-- C14 as stated fails for an 8-bit word type: the 8-bit `lagfib2xor` with taps 1 and 3 in
the state with index 2 and the ring words 97, 98, 99, 100 is written as
`[lagfib2xor_8_1_3 (2 a b c d)]`, each word as one character, not as
`[lagfib2xor_8_1_3 (2 97 98 99 100)]`. -/
theorem engine_text_form_bytes_counterexample :
    (engine.lagfib2xor 8 1 3).write ⟨[97, 98, 99, 100], 2⟩ =
      "[lagfib2xor_8_1_3 (2 a b c d)]".toList ∧
    (engine.lagfib2xor 8 1 3).write ⟨[97, 98, 99, 100], 2⟩ ≠
      '[' :: (engine.lagfib2xor 8 1 3).name ++ ' ' :: '(' :: to_dec 2 ++
        join_words ((List.range (engine.lagfib2xor 8 1 3).size).map
          fun i => to_dec ((status_type.mk [97, 98, 99, 100] 2).r.getD i 0)) ++ [')', ']'] ∧
    '[' :: (engine.lagfib2xor 8 1 3).name ++ ' ' :: '(' :: to_dec 2 ++
        join_words ((List.range (engine.lagfib2xor 8 1 3).size).map
          fun i => to_dec ((status_type.mk [97, 98, 99, 100] 2).r.getD i 0)) ++ [')', ']'] =
      "[lagfib2xor_8_1_3 (2 97 98 99 100)]".toList :=
  ⟨by decide, by decide, by decide⟩

/-! ## C15: scalar seeds go through `minstd` -/

/-- C15: for every lagged-Fibonacci engine, every state and every scalar seed `s`, `seed(s)`
leaves the engine in exactly the state that `seed(g)` produces for `g` a `minstd` engine
constructed from `s`, and `seed()` is `seed(0)`; so after `seed(s)` the index is
`tap_max - 1` and bit `w - 1 - j` of word `i < tap_max` is the outcome of the seeding test on
draw number `i * w + j` of that `minstd` engine. -/
theorem seed_scalar_is_seed_minstd (e : engine) (S : status_type) (s : Nat)
    (hlen : S.r.length = e.size) (h0 : 0 < e.tap_max) (hT : e.tap_max < 2 ^ 32) :
    e.seed S s = (e.seed_gen minstd S (minstd_init s)).1 ∧
    e.seed0 S = e.seed S 0 ∧
    (e.seed S s).index = e.tap_max - 1 ∧
    ∀ i j, i < e.tap_max → j < e.digits →
      ((e.seed S s).r.getD i 0).testBit (e.digits - 1 - j) =
        decide (minstd.draw (minstd_init s) (i * e.digits + j) - minstd.min > minstd.max / 2) := by
  have hs := seed_gen_spec minstd e.digits e.tap_max S (minstd_init s)
  refine ⟨engine_seed_eq e S s, engine_seed0_eq e S, ?_, ?_⟩
  · rw [engine_seed_eq, engine_seed_gen_eq, hs.2.1, sub32_one _ h0 hT]
  · intro i j hi hj
    rw [engine_seed_eq, engine_seed_gen_eq]
    have hle : i < S.r.length := by
      rw [hlen]
      exact lt_of_lt_of_le hi (utility_le_ceil2 _)
    exact (hs.2.2.2.2 i hi hle).2 j hj

/-- Witness for C15: the 32-bit `lagfib2plus` with taps 1 and 3, seeded with 42 after one
call. -/
theorem seed_scalar_is_seed_minstd_witness :
    (engine.lagfib2plus 32 1 3).seed ⟨[1, 2, 3, 4], 3⟩ 42 =
      ((engine.lagfib2plus 32 1 3).seed_gen minstd ⟨[1, 2, 3, 4], 3⟩ (minstd_init 42)).1 ∧
    (engine.lagfib2plus 32 1 3).seed0 ⟨[1, 2, 3, 4], 3⟩ =
      (engine.lagfib2plus 32 1 3).seed ⟨[1, 2, 3, 4], 3⟩ 0 ∧
    ((engine.lagfib2plus 32 1 3).seed ⟨[1, 2, 3, 4], 3⟩ 42).index =
      (engine.lagfib2plus 32 1 3).tap_max - 1 ∧
    ∀ i j, i < (engine.lagfib2plus 32 1 3).tap_max → j < (engine.lagfib2plus 32 1 3).digits →
      (((engine.lagfib2plus 32 1 3).seed ⟨[1, 2, 3, 4], 3⟩ 42).r.getD i 0).testBit
          ((engine.lagfib2plus 32 1 3).digits - 1 - j) =
        decide (minstd.draw (minstd_init 42) (i * (engine.lagfib2plus 32 1 3).digits + j) -
          minstd.min > minstd.max / 2) :=
  seed_scalar_is_seed_minstd (engine.lagfib2plus 32 1 3) ⟨[1, 2, 3, 4], 3⟩ 42 (by decide)
    (by decide) (by decide)

/-! ## `lcg64_shift`: seeding and equality; equality of `mrg5s` -/

theorem lcg64_shift_set_S_P (R : lcg64_shift) (S1 : lcg64_shift.status_type) :
    (lcg64_shift.set_S R S1).P = R.P := rfl

theorem lcg64_shift_set_S_S (R : lcg64_shift) (S1 : lcg64_shift.status_type) :
    (lcg64_shift.set_S R S1).S = S1 := rfl

theorem lcg64_shift_cast64_of_lt (s : Nat) (hs : s < 2 ^ 64) : lcg64_shift.cast64 s = s := by
  unfold lcg64_shift.cast64
  exact Nat.mod_eq_of_lt (by norm_num at hs; exact hs)

theorem lcg64_shift_eq_iff (R1 R2 : lcg64_shift) :
    lcg64_shift.eq R1 R2 = true ↔ R1.P.a = R2.P.a ∧ R1.P.b = R2.P.b ∧ R1.S.r = R2.S.r := by
  simp [lcg64_shift.eq, lcg64_shift.parameter_type.eq, lcg64_shift.status_type.eq, and_assoc]

theorem mrg5s_eq_iff (R1 R2 : mrg5s) :
    mrg5s.eq R1 R2 = true ↔
      (R1.P.a1 = R2.P.a1 ∧ R1.P.a2 = R2.P.a2 ∧ R1.P.a3 = R2.P.a3 ∧ R1.P.a4 = R2.P.a4 ∧
        R1.P.a5 = R2.P.a5) ∧
      (R1.S.r1 = R2.S.r1 ∧ R1.S.r2 = R2.S.r2 ∧ R1.S.r3 = R2.S.r3 ∧ R1.S.r4 = R2.S.r4 ∧
        R1.S.r5 = R2.S.r5) := by
  simp [mrg5s.eq, mrg5s.parameter_type.eq, mrg5s.status_type.eq, and_assoc]

/-- C21: for every `lcg64_shift` engine `R` and every 64-bit seed `s`, `seed(s)` stores
exactly `s` in the state `r` and leaves the parameter block `(a, b)` as it was. -/
theorem lcg64_shift_seed_sets_r (R : lcg64_shift) (s : Nat) (hs : s < 2 ^ 64) :
    (lcg64_shift.seed R s).S.r = s ∧ (lcg64_shift.seed R s).P = R.P ∧
      (lcg64_shift.seed R s).P.a = R.P.a ∧ (lcg64_shift.seed R s).P.b = R.P.b := by
  have h1 : lcg64_shift.seed R s = lcg64_shift.set_S R ⟨s⟩ := by
    unfold lcg64_shift.seed
    rw [lcg64_shift_cast64_of_lt s hs]
  rw [h1]
  exact ⟨rfl, rfl, rfl, rfl⟩

theorem lcg64_shift_seed_sets_r_witness :
    (12345678901234567890 : Nat) < 2 ^ 64 ∧
      ((lcg64_shift.seed lcg64_shift.example_engine 12345678901234567890).S.r =
          12345678901234567890 ∧
        (lcg64_shift.seed lcg64_shift.example_engine 12345678901234567890).P =
          lcg64_shift.example_engine.P ∧
        (lcg64_shift.seed lcg64_shift.example_engine 12345678901234567890).P.a =
          lcg64_shift.example_engine.P.a ∧
        (lcg64_shift.seed lcg64_shift.example_engine 12345678901234567890).P.b =
          lcg64_shift.example_engine.P.b) :=
  ⟨by norm_num, lcg64_shift_seed_sets_r lcg64_shift.example_engine 12345678901234567890
    (by norm_num)⟩

/-- C22: for every `lcg64_shift` engine `R`, whatever parameter set and status it holds,
after `seed()` the engine is the default-constructed engine and compares equal to it under
`operator==`: its parameter block is `Default`, with `a = 18145460002477866997` and `b = 1`,
and its status is the default status. -/
theorem lcg64_shift_seed0_is_default (S0 : lcg64_shift.status_type) (R : lcg64_shift) :
    lcg64_shift.seed0 S0 R = lcg64_shift.ctor0 S0 ∧
      lcg64_shift.eq (lcg64_shift.seed0 S0 R) (lcg64_shift.ctor0 S0) = true ∧
      lcg64_shift.ne (lcg64_shift.seed0 S0 R) (lcg64_shift.ctor0 S0) = false ∧
      (lcg64_shift.seed0 S0 R).P = lcg64_shift.Default ∧
      (lcg64_shift.seed0 S0 R).P.a = 18145460002477866997 ∧
      (lcg64_shift.seed0 S0 R).P.b = 1 ∧
      (lcg64_shift.seed0 S0 R).S = S0 := by
  have h : lcg64_shift.eq (lcg64_shift.ctor0 S0) (lcg64_shift.ctor0 S0) = true :=
    (lcg64_shift_eq_iff _ _).2 ⟨rfl, rfl, rfl⟩
  refine ⟨rfl, h, ?_, rfl, rfl, rfl, rfl⟩
  show (!(lcg64_shift.eq (lcg64_shift.ctor0 S0) (lcg64_shift.ctor0 S0))) = false
  rw [h]
  rfl

/-- C23: two `lcg64_shift` engines compare equal under `operator==` if and only if their
parameters `a`, `b` and their state `r` are equal; two `mrg5s` engines compare equal if and
only if all of `a1 … a5` and all of `r1 … r5` are equal; for both engines, and for their
parameter and status blocks, `operator!=` is the negation of `operator==`. -/
theorem engines_eq_componentwise (R1 R2 : lcg64_shift) (Q1 Q2 : mrg5s) :
    (lcg64_shift.eq R1 R2 = true ↔ R1.P.a = R2.P.a ∧ R1.P.b = R2.P.b ∧ R1.S.r = R2.S.r) ∧
    (lcg64_shift.eq R1 R2 = true ↔ R1 = R2) ∧
    (mrg5s.eq Q1 Q2 = true ↔
      (Q1.P.a1 = Q2.P.a1 ∧ Q1.P.a2 = Q2.P.a2 ∧ Q1.P.a3 = Q2.P.a3 ∧ Q1.P.a4 = Q2.P.a4 ∧
        Q1.P.a5 = Q2.P.a5) ∧
      (Q1.S.r1 = Q2.S.r1 ∧ Q1.S.r2 = Q2.S.r2 ∧ Q1.S.r3 = Q2.S.r3 ∧ Q1.S.r4 = Q2.S.r4 ∧
        Q1.S.r5 = Q2.S.r5)) ∧
    (mrg5s.eq Q1 Q2 = true ↔ Q1 = Q2) ∧
    lcg64_shift.ne R1 R2 = (!(lcg64_shift.eq R1 R2)) ∧
    lcg64_shift.parameter_type.ne R1.P R2.P = (!(lcg64_shift.parameter_type.eq R1.P R2.P)) ∧
    lcg64_shift.status_type.ne R1.S R2.S = (!(lcg64_shift.status_type.eq R1.S R2.S)) ∧
    mrg5s.ne Q1 Q2 = (!(mrg5s.eq Q1 Q2)) ∧
    mrg5s.parameter_type.ne Q1.P Q2.P = (!(mrg5s.parameter_type.eq Q1.P Q2.P)) ∧
    mrg5s.status_type.ne Q1.S Q2.S = (!(mrg5s.status_type.eq Q1.S Q2.S)) ∧
    (lcg64_shift.ne R1 R2 = true ↔ R1 ≠ R2) ∧
    (mrg5s.ne Q1 Q2 = true ↔ Q1 ≠ Q2) := by
  have hl : lcg64_shift.eq R1 R2 = true ↔ R1 = R2 := by
    rw [lcg64_shift_eq_iff]
    obtain ⟨⟨a1, b1⟩, ⟨r1⟩⟩ := R1
    obtain ⟨⟨a2, b2⟩, ⟨r2⟩⟩ := R2
    simp [and_assoc]
  have hm : mrg5s.eq Q1 Q2 = true ↔ Q1 = Q2 := by
    rw [mrg5s_eq_iff]
    obtain ⟨⟨a1, a2, a3, a4, a5⟩, ⟨r1, r2, r3, r4, r5⟩⟩ := Q1
    obtain ⟨⟨b1, b2, b3, b4, b5⟩, ⟨s1, s2, s3, s4, s5⟩⟩ := Q2
    simp
  refine ⟨lcg64_shift_eq_iff R1 R2, hl, mrg5s_eq_iff Q1 Q2, hm, rfl, rfl, rfl, rfl, rfl, rfl,
    ?_, ?_⟩
  · rw [Ne, ← hl]
    unfold lcg64_shift.ne
    cases lcg64_shift.eq R1 R2 <;> simp
  · rw [Ne, ← hm]
    unfold mrg5s.ne
    cases mrg5s.eq Q1 Q2 <;> simp

/-! ## The Bernoulli distribution -/

theorem bernoulli_pdf_head {T : Type} [DecidableEq T] (P : bernoulli_dist.param_type T) :
    bernoulli_dist.pdf P P.head = P.p := by
  simp [bernoulli_dist.pdf]

theorem bernoulli_pdf_tail {T : Type} [DecidableEq T] (P : bernoulli_dist.param_type T)
    (h : P.head ≠ P.tail) : bernoulli_dist.pdf P P.tail = 1 - P.p := by
  simp [bernoulli_dist.pdf, h.symm]

theorem bernoulli_sample_outcome {T : Type} (P : bernoulli_dist.param_type T) (u : ℚ) :
    bernoulli_dist.sample P u = P.head ∨ bernoulli_dist.sample P u = P.tail := by
  unfold bernoulli_dist.sample
  split
  · exact Or.inl rfl
  · exact Or.inr rfl

theorem bernoulli_min_max_of_le {T : Type} [LinearOrder T] (P : bernoulli_dist.param_type T)
    (h : P.head ≤ P.tail) (u : ℚ) :
    bernoulli_dist.min P ≤ bernoulli_dist.sample P u ∧
      bernoulli_dist.sample P u ≤ bernoulli_dist.max P := by
  rcases bernoulli_sample_outcome P u with hs | hs <;> rw [hs]
  · exact ⟨le_refl _, h⟩
  · exact ⟨h, le_refl _⟩

theorem bernoulli_cdf_on_outcomes {T : Type} [LinearOrder T] (P : bernoulli_dist.param_type T)
    (h : P.head < P.tail) (x : T) (hx : x = P.head ∨ x = P.tail ∨ x < P.head) :
    bernoulli_dist.cdf P x = bernoulli_dist.cdf_standard P x := by
  have hne : P.head ≠ P.tail := ne_of_lt h
  unfold bernoulli_dist.cdf_standard
  rw [bernoulli_pdf_head, bernoulli_pdf_tail P hne]
  rcases hx with hx | hx | hx
  · subst hx
    simp [bernoulli_dist.cdf, not_le.2 h]
  · subst hx
    simp [bernoulli_dist.cdf, hne.symm, le_of_lt h]
  · have h1 : x ≠ P.head := ne_of_lt hx
    have h2 : x ≠ P.tail := ne_of_lt (lt_trans hx h)
    simp [bernoulli_dist.cdf, h1, h2, not_le.2 hx, not_le.2 (lt_trans hx h)]

/-- C24 (amended): for every Bernoulli distribution with parameters `(p, head, tail)` whose
two outcomes differ, `head != tail`, `pdf(head) + pdf(tail) = 1`. -/
theorem bernoulli_pdf_sum {T : Type} [DecidableEq T] (P : bernoulli_dist.param_type T)
    (h : P.head ≠ P.tail) :
    bernoulli_dist.pdf P P.head + bernoulli_dist.pdf P P.tail = 1 := by
  rw [bernoulli_pdf_head, bernoulli_pdf_tail P h]
  ring

theorem bernoulli_pdf_sum_witness :
    bernoulli_dist.example_param.head ≠ bernoulli_dist.example_param.tail ∧
      bernoulli_dist.pdf bernoulli_dist.example_param bernoulli_dist.example_param.head +
        bernoulli_dist.pdf bernoulli_dist.example_param bernoulli_dist.example_param.tail = 1 :=
  ⟨by decide, bernoulli_pdf_sum bernoulli_dist.example_param (by decide)⟩

/-- C24 as stated fails when the two outcomes coincide: for `bernoulli_dist<int>(0.25, 1, 1)`
both `pdf(head)` and `pdf(tail)` take the first branch and return `p`, so the sum is
`2 p = 0.5`. -/
theorem bernoulli_pdf_sum_degenerate_counterexample :
    bernoulli_dist.degenerate_param.head = bernoulli_dist.degenerate_param.tail ∧
      bernoulli_dist.pdf bernoulli_dist.degenerate_param
          bernoulli_dist.degenerate_param.head +
        bernoulli_dist.pdf bernoulli_dist.degenerate_param
          bernoulli_dist.degenerate_param.tail = 1 / 2 ∧
      ¬ (bernoulli_dist.pdf bernoulli_dist.degenerate_param
            bernoulli_dist.degenerate_param.head +
          bernoulli_dist.pdf bernoulli_dist.degenerate_param
            bernoulli_dist.degenerate_param.tail = 1) := by
  refine ⟨rfl, ?_, ?_⟩ <;> norm_num [bernoulli_dist.pdf, bernoulli_dist.degenerate_param]

/-- C25 (evaluation of the code): for `bernoulli_dist<int>(0.37, 1, 0)`, `min()` returns
`head = 1` and `max()` returns `tail = 0`; the sample for the draw `u = 0.5` is `tail = 0`,
which is below `min()`, and the sample for the draw `u = 0` is `head = 1`, which is above
`max()`. -/
theorem bernoulli_min_max_unordered :
    bernoulli_dist.min bernoulli_dist.example_param = 1 ∧
      bernoulli_dist.max bernoulli_dist.example_param = 0 ∧
      bernoulli_dist.sample bernoulli_dist.example_param (1 / 2) = 0 ∧
      bernoulli_dist.sample bernoulli_dist.example_param 0 = 1 ∧
      ¬ (bernoulli_dist.min bernoulli_dist.example_param ≤
          bernoulli_dist.sample bernoulli_dist.example_param (1 / 2)) ∧
      ¬ (bernoulli_dist.sample bernoulli_dist.example_param 0 ≤
          bernoulli_dist.max bernoulli_dist.example_param) := by
  have h1 : bernoulli_dist.sample bernoulli_dist.example_param (1 / 2) = 0 := by
    norm_num [bernoulli_dist.sample, bernoulli_dist.example_param]
  have h2 : bernoulli_dist.sample bernoulli_dist.example_param 0 = 1 := by
    norm_num [bernoulli_dist.sample, bernoulli_dist.example_param]
  refine ⟨rfl, rfl, h1, h2, ?_, ?_⟩
  · rw [h1]
    decide
  · rw [h2]
    decide

/-- C26 (evaluation of the code): for `bernoulli_dist<int>(0.25, 0, 1)`, whose outcomes
differ, `cdf(2)` is `0` although both outcomes are `<= 2` and the sum of `pdf` over them is
`1`; `cdf(1) = 1 > cdf(2)`, so `cdf` is not non-decreasing. For
`bernoulli_dist<int>(0.37, 1, 0)`, `cdf(1) = 0.37` and `cdf(0) = 1`, where the standard
definition gives `1` and `0.63`. -/
theorem bernoulli_cdf_not_standard :
    bernoulli_dist.coin_param.head ≠ bernoulli_dist.coin_param.tail ∧
      bernoulli_dist.cdf bernoulli_dist.coin_param 2 = 0 ∧
      bernoulli_dist.cdf_standard bernoulli_dist.coin_param 2 = 1 ∧
      bernoulli_dist.cdf bernoulli_dist.coin_param 1 = 1 ∧
      bernoulli_dist.cdf bernoulli_dist.coin_param 2 <
        bernoulli_dist.cdf bernoulli_dist.coin_param 1 ∧
      bernoulli_dist.cdf bernoulli_dist.example_param 1 = 37 / 100 ∧
      bernoulli_dist.cdf_standard bernoulli_dist.example_param 1 = 1 ∧
      bernoulli_dist.cdf bernoulli_dist.example_param 0 = 1 ∧
      bernoulli_dist.cdf_standard bernoulli_dist.example_param 0 = 63 / 100 := by
  refine ⟨by decide, ?_, ?_, ?_, ?_, ?_, ?_, ?_, ?_⟩ <;>
    norm_num [bernoulli_dist.cdf, bernoulli_dist.cdf_standard, bernoulli_dist.pdf,
      bernoulli_dist.coin_param, bernoulli_dist.example_param]

/-! ## The beta and Student t distributions -/

theorem fval_eqb_iff (x : fval) (q : ℚ) : x.eqb (.num q) = true ↔ x = .num q := by
  cases x <;> simp [fval.eqb]

theorem fval_sub_one_lt_zero (a : fval) :
    (a.sub (.num 1)).lt (.num 0) = a.lt (.num 1) := by
  cases a <;> simp [fval.sub, fval.lt]

theorem fval_lt_not_le (x y : fval) (h : x.lt y = true) : y.le x = false := by
  cases x <;> cases y <;> simp_all [fval.lt, fval.le]

theorem fval_lt_irrefl_num (q : ℚ) : (fval.num q).lt (.num q) = false := by
  simp [fval.lt]

theorem beta_dist_cdf_inside (g : beta_dist) (x : fval) (h0 : x.le (.num 0) = false)
    (h1 : x.ge (.num 1) = false) :
    beta_dist.cdf g x = .Beta_I x g.p.alpha g.p.beta g.p.norm := by
  simp [beta_dist.cdf, h0, h1]

/-- C27 (evaluation of the code): the comparison `operator==` of two beta param blocks
returns the comparison of the two `alpha` alone; for the param blocks of `beta(2, 5)` and
`beta(2, 7)`, which differ in `beta`, it returns `true`. -/
theorem beta_param_eq_ignores_beta :
    (∀ p1 p2 : beta_dist.param_type, p1.eq p2 = p1.alpha.eqb p2.alpha) ∧
      beta_dist.param_type.eq (beta_dist.ctor (.num 2) (.num 5)).param
        (beta_dist.ctor (.num 2) (.num 7)).param = true ∧
      (beta_dist.ctor (.num 2) (.num 5)).param.beta ≠
        (beta_dist.ctor (.num 2) (.num 7)).param.beta ∧
      (beta_dist.ctor (.num 2) (.num 5)).param ≠ (beta_dist.ctor (.num 2) (.num 7)).param := by
  refine ⟨fun _ _ => rfl, ?_, ?_, ?_⟩
  · simp [beta_dist.param, beta_dist.param_type.eq, beta_dist.ctor,
      beta_dist.param_type.ctor, fval.eqb]
  · simp [beta_dist.param, beta_dist.ctor, beta_dist.param_type.ctor]
  · simp [beta_dist.param, beta_dist.ctor, beta_dist.param_type.ctor]

/-- C28 (evaluation of the code): for a Student t distribution with any `nu`, `icdf(0)` and
`icdf(1)` take the first branch, `x<=0 or x>=1`: they set `errno` to `EDOM` and return NaN,
not `-infinity` and `+infinity`. -/
theorem student_t_icdf_endpoints_nan (g : student_t_dist) (errno : Nat) :
    student_t_dist.icdf g errno (.num 0) = (.lit .nan, EDOM) ∧
      student_t_dist.icdf g errno (.num 1) = (.lit .nan, EDOM) ∧
      (student_t_dist.icdf g errno (.num 0)).1 ≠ .lit .ninf ∧
      (student_t_dist.icdf g errno (.num 1)).1 ≠ .lit .pinf := by
  have h0 : student_t_dist.icdf g errno (.num 0) = (.lit .nan, EDOM) := by
    simp [student_t_dist.icdf, fval.le]
  have h1 : student_t_dist.icdf g errno (.num 1) = (.lit .nan, EDOM) := by
    simp [student_t_dist.icdf, fval.le, fval.ge]
  refine ⟨h0, h1, ?_, ?_⟩
  · rw [h0]
    simp
  · rw [h1]
    simp

/-- C29: for every beta distribution `g` (any `alpha`, `beta`): `cdf(x)` is the literal `0`
for every `x <= 0` and the literal `1` for every `x >= 1`; `icdf(0)` is the literal `0` and
`icdf(1)` the literal `1`, with `errno` as it was; none of these results is a call of
`math::Beta_I` or `math::inv_Beta_I`. -/
theorem beta_dist_cdf_icdf_endpoints (g : beta_dist) (errno : Nat) (x : fval) :
    (x.le (.num 0) = true →
      beta_dist.cdf g x = .lit (.num 0) ∧ (beta_dist.cdf g x).calls_incomplete_beta = false) ∧
    (x.ge (.num 1) = true →
      beta_dist.cdf g x = .lit (.num 1) ∧ (beta_dist.cdf g x).calls_incomplete_beta = false) ∧
    beta_dist.icdf g errno (.num 0) = (.lit (.num 0), errno) ∧
    beta_dist.icdf g errno (.num 1) = (.lit (.num 1), errno) ∧
    (beta_dist.icdf g errno (.num 0)).1.calls_incomplete_beta = false ∧
    (beta_dist.icdf g errno (.num 1)).1.calls_incomplete_beta = false := by
  have hi0 : beta_dist.icdf g errno (.num 0) = (.lit (.num 0), errno) := by
    simp [beta_dist.icdf, fval.lt, fval.gt, fval.eqb]
  have hi1 : beta_dist.icdf g errno (.num 1) = (.lit (.num 1), errno) := by
    simp [beta_dist.icdf, fval.lt, fval.gt, fval.eqb]
  refine ⟨?_, ?_, hi0, hi1, ?_, ?_⟩
  · intro h
    have hc : beta_dist.cdf g x = .lit (.num 0) := by simp [beta_dist.cdf, h]
    rw [hc]
    exact ⟨rfl, rfl⟩
  · intro h
    have h0 : x.le (.num 0) = false := by
      cases x <;> simp_all [fval.le, fval.ge]
      linarith
    have hc : beta_dist.cdf g x = .lit (.num 1) := by simp [beta_dist.cdf, h, h0]
    rw [hc]
    exact ⟨rfl, rfl⟩
  · rw [hi0]
    rfl
  · rw [hi1]
    rfl

theorem beta_dist_cdf_icdf_endpoints_witness :
    (fval.num (-3)).le (.num 0) = true ∧
      beta_dist.cdf (beta_dist.ctor (.num 2) (.num 5)) (.num (-3)) = .lit (.num 0) ∧
      (fval.num 4).ge (.num 1) = true ∧
      beta_dist.cdf (beta_dist.ctor (.num 2) (.num 5)) (.num 4) = .lit (.num 1) ∧
      beta_dist.icdf (beta_dist.ctor (.num 2) (.num 5)) 0 (.num 0) = (.lit (.num 0), 0) ∧
      beta_dist.icdf (beta_dist.ctor (.num 2) (.num 5)) 0 (.num 1) = (.lit (.num 1), 0) :=
  ⟨by simp [fval.le],
    ((beta_dist_cdf_icdf_endpoints (beta_dist.ctor (.num 2) (.num 5)) 0 (.num (-3))).1
      (by simp [fval.le])).1,
    by simp [fval.ge, fval.le],
    ((beta_dist_cdf_icdf_endpoints (beta_dist.ctor (.num 2) (.num 5)) 0 (.num 4)).2.1
      (by simp [fval.ge, fval.le])).1,
    (beta_dist_cdf_icdf_endpoints (beta_dist.ctor (.num 2) (.num 5)) 0 (.num 0)).2.2.1,
    (beta_dist_cdf_icdf_endpoints (beta_dist.ctor (.num 2) (.num 5)) 0 (.num 0)).2.2.2.1⟩

/-- C30: for every beta distribution `g`: `icdf(x)` returns NaN and sets `errno` to `EDOM`
for every `x < 0` and every `x > 1`; `pdf(x)` returns NaN and sets `errno` to `EDOM` at a
pole, that is when `x = 0` and `alpha < 1` or when `x = 1` and `beta < 1`; and `pdf(x)`
returns `0` and leaves `errno` as it was for every `x < 0` and every `x > 1`. -/
theorem beta_dist_domain_errors (g : beta_dist) (errno : Nat) (x : fval) :
    (x.lt (.num 0) = true ∨ x.gt (.num 1) = true →
      beta_dist.icdf g errno x = (.lit .nan, EDOM)) ∧
    ((x = .num 0 ∧ g.p.alpha.lt (.num 1) = true) ∨
        (x = .num 1 ∧ g.p.beta.lt (.num 1) = true) →
      beta_dist.pdf g errno x = (.lit .nan, EDOM)) ∧
    (x.lt (.num 0) = true ∨ x.gt (.num 1) = true →
      beta_dist.pdf g errno x = (.lit (.num 0), errno)) := by
  refine ⟨?_, ?_, ?_⟩
  · intro h
    have hg : (x.lt (.num 0) || x.gt (.num 1)) = true := by
      rcases h with h | h <;> simp [h]
    simp [beta_dist.icdf, hg]
  · intro h
    rcases h with ⟨hx, ha⟩ | ⟨hx, hb⟩
    · subst hx
      have g1 : (fval.num 0).lt (.num 0) = false := by simp [fval.lt]
      have g2 : (fval.num 0).gt (.num 1) = false := by simp [fval.gt, fval.lt]
      have g3 : (fval.num 0).eqb (.num 0) = true := by simp [fval.eqb]
      simp [beta_dist.pdf, fval_sub_one_lt_zero, ha, g1, g2, g3]
    · subst hx
      have g1 : (fval.num 1).lt (.num 0) = false := by simp [fval.lt]
      have g2 : (fval.num 1).gt (.num 1) = false := by simp [fval.gt, fval.lt]
      have g3 : (fval.num 1).eqb (.num 1) = true := by simp [fval.eqb]
      simp [beta_dist.pdf, fval_sub_one_lt_zero, hb, g1, g2, g3]
  · intro h
    have hg : (x.lt (.num 0) || x.gt (.num 1)) = true := by
      rcases h with h | h <;> simp [h]
    simp [beta_dist.pdf, hg]

theorem beta_dist_domain_errors_witness :
    ((fval.num (-1)).lt (.num 0) = true ∨ (fval.num (-1)).gt (.num 1) = true) ∧
      beta_dist.icdf (beta_dist.ctor (.num 2) (.num 5)) 0 (.num (-1)) = (.lit .nan, EDOM) ∧
      (((fval.num 0 = .num 0 ∧
            (beta_dist.ctor (.num (1 / 2)) (.num 5)).p.alpha.lt (.num 1) = true) ∨
          (fval.num 0 = .num 1 ∧
            (beta_dist.ctor (.num (1 / 2)) (.num 5)).p.beta.lt (.num 1) = true))) ∧
      beta_dist.pdf (beta_dist.ctor (.num (1 / 2)) (.num 5)) 0 (.num 0) = (.lit .nan, EDOM) ∧
      ((fval.num 2).lt (.num 0) = true ∨ (fval.num 2).gt (.num 1) = true) ∧
      beta_dist.pdf (beta_dist.ctor (.num 2) (.num 5)) 0 (.num 2) = (.lit (.num 0), 0) :=
  ⟨Or.inl (by simp [fval.lt]),
    (beta_dist_domain_errors (beta_dist.ctor (.num 2) (.num 5)) 0 (.num (-1))).1
      (Or.inl (by simp [fval.lt])),
    Or.inl ⟨rfl, by norm_num [beta_dist.ctor, beta_dist.param_type.ctor, fval.lt]⟩,
    (beta_dist_domain_errors (beta_dist.ctor (.num (1 / 2)) (.num 5)) 0 (.num 0)).2.1
      (Or.inl ⟨rfl, by norm_num [beta_dist.ctor, beta_dist.param_type.ctor, fval.lt]⟩),
    Or.inr (by simp [fval.lt, fval.gt]),
    (beta_dist_domain_errors (beta_dist.ctor (.num 2) (.num 5)) 0 (.num 2)).2.2
      (Or.inr (by simp [fval.lt, fval.gt]))⟩

/-! ## One step of `lagfib2xor`; index and tap addresses of every engine -/

theorem land_mask_succ (i k : Nat) (hk : k ≤ 32) :
    ((i + 1) % 2 ^ 32) &&& (2 ^ k - 1) = (i + 1) &&& (2 ^ k - 1) := by
  rw [mod32_land_mask _ _ hk, Nat.and_pow_two_sub_one_eq_mod]

theorem sub32_land_mask_int (j t k : Nat) (hk : k ≤ 32) (ht32 : t < 2 ^ 32) :
    ((sub32 j t &&& (2 ^ k - 1) : Nat) : Int) = ((j : Int) - (t : Int)) % ((2 ^ k : Nat) : Int) := by
  unfold sub32
  rw [mod32_land_mask _ _ hk, Nat.mod_eq_of_lt ht32]
  obtain ⟨q, hq⟩ : (2 : Nat) ^ k ∣ 2 ^ 32 := pow_dvd_pow 2 hk
  have e : ((j + (2 ^ 32 - t) : Nat) : Int) =
      ((j : Int) - (t : Int)) + ((2 ^ k : Nat) : Int) * (q : Int) := by
    rw [hq] at ht32 ⊢
    rw [Nat.cast_add, Nat.cast_sub (le_of_lt ht32), Nat.cast_mul]
    ring
  rw [Int.natCast_mod, e, Int.add_mul_emod_self_left]

theorem engine_tap_max_mem (e : engine) : e.tap_max ∈ e.taps := by
  cases e <;> simp [engine.tap_max, engine.taps]

/-- C36: for `lagfib2xor<T, A, B>` and every state `(index, r)` of the ring of `N` words (with
`index < N` or not), one call of `operator()` sets `index' = (index + 1) & M`, stores
`r[(index' - A) & M] xor r[(index' - B) & M]`, read from the ring before the write, at slot
`index'`, returns the word at slot `index'` of the new ring, and leaves every other slot as
it was (`N` the ring size, `M = N - 1` the mask). -/
theorem lagfib2xor_call_frame (A B : Nat) (hB : B < 2 ^ 32) (S : status_type)
    (hlen : S.r.length = ceil2 B) :
    (lagfib2xor.next A B S).2.index = (S.index + 1) &&& mask B ∧
    (lagfib2xor.next A B S).2.index < ceil2 B ∧
    (lagfib2xor.next A B S).2.r.getD ((S.index + 1) &&& mask B) 0 =
      S.r.getD (sub32 ((S.index + 1) &&& mask B) A &&& mask B) 0 ^^^
        S.r.getD (sub32 ((S.index + 1) &&& mask B) B &&& mask B) 0 ∧
    (lagfib2xor.next A B S).1 =
      (lagfib2xor.next A B S).2.r.getD (lagfib2xor.next A B S).2.index 0 ∧
    (∀ s, s ≠ (S.index + 1) &&& mask B →
      (lagfib2xor.next A B S).2.r.getD s 0 = S.r.getD s 0) ∧
    (lagfib2xor.next A B S).2.r.length = ceil2 B := by
  obtain ⟨k, hk, e1, e2, _⟩ := utility_ceil2_pow_le B hB
  have hi : ((S.index + 1) % 2 ^ 32) &&& mask B = (S.index + 1) &&& mask B := by
    rw [e2]
    exact land_mask_succ _ _ hk
  have hs : lagfib2xor.next A B S =
      ((S.r.set (((S.index + 1) % 2 ^ 32) &&& mask B)
          (S.r.getD (sub32 (((S.index + 1) % 2 ^ 32) &&& mask B) A &&& mask B) 0 ^^^
            S.r.getD (sub32 (((S.index + 1) % 2 ^ 32) &&& mask B) B &&& mask B) 0)).getD
          (((S.index + 1) % 2 ^ 32) &&& mask B) 0,
        ⟨S.r.set (((S.index + 1) % 2 ^ 32) &&& mask B)
          (S.r.getD (sub32 (((S.index + 1) % 2 ^ 32) &&& mask B) A &&& mask B) 0 ^^^
            S.r.getD (sub32 (((S.index + 1) % 2 ^ 32) &&& mask B) B &&& mask B) 0),
          ((S.index + 1) % 2 ^ 32) &&& mask B⟩) := rfl
  rw [hs, hi]
  have hlt : (S.index + 1) &&& mask B < ceil2 B := by
    have h : (S.index + 1) &&& mask B ≤ mask B := Nat.and_le_right
    have hm : mask B = ceil2 B - 1 := rfl
    have hpos : 0 < ceil2 B := by rw [e1]; exact Nat.two_pow_pos k
    omega
  refine ⟨rfl, hlt, ?_, rfl, ?_, ?_⟩
  · exact getD_set_self _ _ _ (by rw [hlen]; exact hlt)
  · intro s hne
    exact getD_set_ne _ _ _ _ (Ne.symm hne)
  · show (S.r.set _ _).length = ceil2 B
    rw [List.length_set, hlen]

theorem lagfib2xor_call_frame_witness :
    (3 : Nat) < 2 ^ 32 ∧ (status_type.mk [5, 6, 7, 8] 3).r.length = ceil2 3 ∧
      (lagfib2xor.next 1 3 ⟨[5, 6, 7, 8], 3⟩).2.index =
        ((status_type.mk [5, 6, 7, 8] 3).index + 1) &&& mask 3 ∧
      lagfib2xor.next 1 3 ⟨[5, 6, 7, 8], 3⟩ = (14, ⟨[14, 6, 7, 8], 0⟩) :=
  ⟨by norm_num, by decide,
    (lagfib2xor_call_frame 1 3 (by norm_num) ⟨[5, 6, 7, 8], 3⟩ (by decide)).1,
    by decide⟩

/-- C37: for every lagged-Fibonacci engine (its taps being `unsigned int` values) and every
index value, also one `>= N` that a text parse has installed: after `step()` the index is
`< N`; each tap address `(index - tap) & M`, computed with the wrapping 32-bit subtraction,
equals `(index - tap) mod N` over the integers and is `< N`; so the slot written and the
slots read by `step()` all lie inside the ring of `N` words (`M = N - 1`, `N` a power of
two). -/
theorem step_addresses_in_bounds (e : engine) (hT : ∀ t ∈ e.taps, t < 2 ^ 32)
    (S : status_type) :
    (e.step S).index < e.size ∧
    (e.step S).index = e.write_slot S ∧
    (∀ t ∈ e.taps,
      ((sub32 (e.step S).index t &&& mask e.tap_max : Nat) : Int) =
          (((e.step S).index : Int) - (t : Int)) % (e.size : Int) ∧
        sub32 (e.step S).index t &&& mask e.tap_max < e.size) ∧
    e.read_slots S = e.taps.map (fun t => sub32 (e.step S).index t &&& mask e.tap_max) ∧
    (∀ a ∈ e.read_slots S, a < e.size) ∧
    mask e.tap_max = e.size - 1 ∧ ∃ k, e.size = 2 ^ k := by
  obtain ⟨k, hk, e1, e2, _⟩ := utility_ceil2_pow_le e.tap_max (hT _ (engine_tap_max_mem e))
  have hw := engine_write_slot_eq e S
  refine ⟨engine_step_index_lt e S, hw, ?_, ?_, engine_read_slots_lt e S, rfl, k, e1⟩
  · intro t ht
    refine ⟨?_, ?_⟩
    · rw [e2]
      show _ = _ % ((ceil2 e.tap_max : Nat) : Int)
      rw [e1]
      exact sub32_land_mask_int _ _ _ hk (hT t ht)
    · rw [hw]
      exact engine_read_slots_lt e S _ (List.mem_map.2 ⟨t, ht, rfl⟩)
  · rw [hw]
    rfl

theorem step_addresses_in_bounds_witness :
    (∀ t ∈ (engine.lagfib2plus 32 1 3).taps, t < 2 ^ 32) ∧
      ((engine.lagfib2plus 32 1 3).step ⟨[0, 0, 0, 0], 7⟩).index < 4 ∧
      ((engine.lagfib2plus 32 1 3).step ⟨[0, 0, 0, 0], 4294967295⟩).index = 0 ∧
      ((engine.lagfib2plus 32 1 3).step ⟨[0, 0, 0, 0], 4294967295⟩).index <
        (engine.lagfib2plus 32 1 3).size ∧
      sub32 0 3 &&& mask 3 = 1 :=
  ⟨by decide, by decide, by decide,
    (step_addresses_in_bounds (engine.lagfib2plus 32 1 3) (by decide)
      ⟨[0, 0, 0, 0], 4294967295⟩).1,
    by decide⟩

/-! ## Re-seeding: the outputs depend on the seeded words alone; the draws of `seed(g)` -/

theorem ring_out_agree (comb : (Nat → Nat) → Nat) (k : Nat) (hk : k ≤ 32) (T : Nat)
    (h0 : 0 < T) (hT : T ≤ 2 ^ k) (hT32 : T < 2 ^ 32)
    (hcomb : ∀ f g : Nat → Nat, (∀ t, 1 ≤ t → t ≤ T → f t = g t) → comb f = comb g)
    (S1 S2 : status_type) (hl1 : S1.r.length = 2 ^ k) (hl2 : S2.r.length = 2 ^ k)
    (hi1 : S1.index = T - 1) (hi2 : S2.index = T - 1)
    (hag : ∀ s, s < T → S1.r.getD s 0 = S2.r.getD s 0) (n : Nat) :
    ring_out (2 ^ k - 1) comb S1 (n + 1) = ring_out (2 ^ k - 1) comb S2 (n + 1) := by
  induction n using Nat.strong_induction_on with
  | _ n ih =>
    rw [ring_out_rec comb k hk T hT hT32 hcomb S1 hl1 n,
      ring_out_rec comb k hk T hT hT32 hcomb S2 hl2 n]
    apply hcomb
    intro t ht1 htT
    have hTN : (T : Int) ≤ ((2 ^ k : Nat) : Int) := by exact_mod_cast hT
    by_cases hpos : (0 : Int) < ((n : Int) + 1) - (t : Int)
    · have hto : (((n : Int) + 1) - (t : Int)).toNat = (n - t) + 1 := by omega
      rw [hist, hist, if_pos hpos, if_pos hpos, hto]
      exact ih (n - t) (by omega)
    · have hv : ∀ S : status_type, S.index = T - 1 →
          ((((S.index : Int) + (((n : Int) + 1) - (t : Int))) % ((2 ^ k : Nat) : Int)).toNat) =
            T + n - t := by
        intro S hS
        rw [hS, Int.emod_eq_of_lt (by omega) (by omega)]
        omega
      rw [hist, hist, if_neg hpos, if_neg hpos, hv S1 hi1, hv S2 hi2]
      exact hag _ (by omega)

theorem seed_gen_words_eq {σ : Type} (G : gen σ) (w T : Nat) (S1 S2 : status_type) (g : σ)
    (h1 : T ≤ S1.r.length) (h2 : T ≤ S2.r.length) (s : Nat) (hs : s < T) :
    (seed_gen G w T S1 g).1.r.getD s 0 = (seed_gen G w T S2 g).1.r.getD s 0 := by
  rw [seed_gen_fst, seed_gen_fst, status_type_set_index_r, status_type_set_index_r]
  have a1 := (seed_words_spec G w T 0 S1 g).2.2.2.2 s hs (by omega)
  have a2 := (seed_words_spec G w T 0 S2 g).2.2.2.2 s hs (by omega)
  rw [Nat.zero_add] at a1 a2
  rw [a1, a2]

theorem seed_gen_outputs_eq (e : engine) (htap : ∀ t ∈ e.taps, 1 ≤ t ∧ t ≤ e.tap_max)
    (hT : e.tap_max < 2 ^ 32) {σ : Type} (G : gen σ) (S1 S2 : status_type)
    (h1 : S1.r.length = e.size) (h2 : S2.r.length = e.size) (g : σ) (n : Nat) :
    e.output (e.seed_gen G S1 g).1 (n + 1) = e.output (e.seed_gen G S2 g).1 (n + 1) := by
  obtain ⟨k, hk, e1, e2, hle⟩ := utility_ceil2_pow_le e.tap_max hT
  have h0 : 0 < e.tap_max := (htap _ (engine_tap_max_mem e)).1
  have hcomb : ∀ f g : Nat → Nat, (∀ t, 1 ≤ t → t ≤ e.tap_max → f t = g t) →
      e.comb f = e.comb g := by
    intro f g h
    exact (engine_step_slots e S1).2.2 f g (fun t ht => h t (htap t ht).1 (htap t ht).2)
  have hsz : e.size = 2 ^ k := e1
  have sp1 := seed_gen_spec G e.digits e.tap_max S1 g
  have sp2 := seed_gen_spec G e.digits e.tap_max S2 g
  rw [engine_output_eq, engine_output_eq, engine_seed_gen_eq, engine_seed_gen_eq, e2]
  refine ring_out_agree e.comb k hk e.tap_max h0 hle hT hcomb _ _ ?_ ?_ ?_ ?_ ?_ n
  · rw [sp1.2.2.1, h1, hsz]
  · rw [sp2.2.2.1, h2, hsz]
  · rw [sp1.2.1, sub32_one _ h0 hT]
  · rw [sp2.2.1, sub32_one _ h0 hT]
  · intro s hs
    exact seed_gen_words_eq G e.digits e.tap_max S1 S2 g (by rw [h1, hsz]; exact hle)
      (by rw [h2, hsz]; exact hle) s hs

/-- C38: for every lagged-Fibonacci engine `e` (taps in `[1, tap_max]`), every state `S` of
its ring and every source `G` in state `g`: after `e.seed(g)` the `n`-th call of
`operator()` returns, for every `n >= 1`, what the `n`-th call returns on an engine freshly
constructed from the source in the same state, and the source is left in the same state;
the words that the ring `S` held before re-seeding do not influence any output (two rings
`S`, `S'` re-seeded alike give the same outputs). -/
theorem reseed_outputs_as_fresh (e : engine) (htap : ∀ t ∈ e.taps, 1 ≤ t ∧ t ≤ e.tap_max)
    (hT : e.tap_max < 2 ^ 32) {σ : Type} (G : gen σ) (S S' : status_type)
    (hlen : S.r.length = e.size) (hlen' : S'.r.length = e.size) (g : σ) :
    (∀ n, e.output (e.seed_gen G S g).1 (n + 1) = e.output (e.ctor_gen G g).1 (n + 1)) ∧
    (e.seed_gen G S g).2 = (e.ctor_gen G g).2 ∧
    (∀ n, e.output (e.seed_gen G S g).1 (n + 1) = e.output (e.seed_gen G S' g).1 (n + 1)) := by
  have hc : e.ctor_gen G g = e.seed_gen G (status_type.init e.size) g := by
    rw [engine_ctor_gen_eq, engine_seed_gen_eq]
  refine ⟨?_, ?_, ?_⟩
  · intro n
    rw [hc]
    exact seed_gen_outputs_eq e htap hT G S _ hlen (status_type_init_length _) g n
  · rw [hc, engine_seed_gen_eq, engine_seed_gen_eq,
      (seed_gen_spec G e.digits e.tap_max S g).1,
      (seed_gen_spec G e.digits e.tap_max (status_type.init e.size) g).1]
  · intro n
    exact seed_gen_outputs_eq e htap hT G S S' hlen hlen' g n

theorem reseed_outputs_as_fresh_witness :
    (∀ t ∈ (engine.lagfib2plus 32 1 3).taps, 1 ≤ t ∧ t ≤ (engine.lagfib2plus 32 1 3).tap_max) ∧
      (engine.lagfib2plus 32 1 3).tap_max < 2 ^ 32 ∧
      (status_type.mk [5, 6, 7, 8] 2).r.length = (engine.lagfib2plus 32 1 3).size ∧
      (∀ n, (engine.lagfib2plus 32 1 3).output
          ((engine.lagfib2plus 32 1 3).seed_gen die ⟨[5, 6, 7, 8], 2⟩ 3).1 (n + 1) =
        (engine.lagfib2plus 32 1 3).output ((engine.lagfib2plus 32 1 3).ctor_gen die 3).1
          (n + 1)) ∧
      ((engine.lagfib2plus 32 1 3).seed_gen die ⟨[5, 6, 7, 8], 2⟩ 3).1.r.getD 3 0 = 8 ∧
      ((engine.lagfib2plus 32 1 3).ctor_gen die 3).1.r.getD 3 0 = 0 :=
  ⟨by decide, by decide, by decide,
    (reseed_outputs_as_fresh (engine.lagfib2plus 32 1 3) (by decide) (by decide) die
      ⟨[5, 6, 7, 8], 2⟩ ⟨[5, 6, 7, 8], 2⟩ (by decide) (by decide) 3).1,
    by decide, by decide⟩

/-- C39: for every lagged-Fibonacci engine with word width `w` and largest tap `T`,
`seed(g)` leaves the source in the state reached after exactly `T * w` draws; bit
`w - 1 - j` of the seeded ring word `i` (`i < T`, `j < w`) is the outcome of the test
`g() - gen::min > gen::max / 2` on draw number `i * w + j` (counted from 0), so it is the
same for any two runs that agree in that one draw; and the ring slots at positions `>= T`
are left as they were. -/
theorem seed_draw_schedule (e : engine) {σ : Type} (G : gen σ) (S S' : status_type)
    (hlen : S.r.length = e.size) (hlen' : S'.r.length = e.size) (g g' : σ) :
    (e.seed_gen G S g).2 = G.advance (e.tap_max * e.digits) g ∧
    (∀ i j, i < e.tap_max → j < e.digits →
      ((e.seed_gen G S g).1.r.getD i 0).testBit (e.digits - 1 - j) =
        decide (G.draw g (i * e.digits + j) - G.min > G.max / 2)) ∧
    (∀ i j, i < e.tap_max → j < e.digits →
      G.draw g (i * e.digits + j) = G.draw g' (i * e.digits + j) →
      ((e.seed_gen G S g).1.r.getD i 0).testBit (e.digits - 1 - j) =
        ((e.seed_gen G S' g').1.r.getD i 0).testBit (e.digits - 1 - j)) ∧
    (∀ s, e.tap_max ≤ s → (e.seed_gen G S g).1.r.getD s 0 = S.r.getD s 0) ∧
    (e.seed_gen G S g).1.r.length = S.r.length := by
  have hle : e.tap_max ≤ e.size := utility_le_ceil2 e.tap_max
  have sp := seed_gen_spec G e.digits e.tap_max S g
  have sp' := seed_gen_spec G e.digits e.tap_max S' g'
  rw [engine_seed_gen_eq, engine_seed_gen_eq]
  refine ⟨sp.1, ?_, ?_, sp.2.2.2.1, sp.2.2.1⟩
  · intro i j hi hj
    exact (sp.2.2.2.2 i hi (by omega)).2 j hj
  · intro i j hi hj hd
    rw [(sp.2.2.2.2 i hi (by omega)).2 j hj, (sp'.2.2.2.2 i hi (by omega)).2 j hj, hd]

theorem seed_draw_schedule_witness :
    (status_type.mk [5, 6, 7, 8] 2).r.length = (engine.lagfib2plus 32 1 3).size ∧
      ((engine.lagfib2plus 32 1 3).seed_gen die ⟨[5, 6, 7, 8], 2⟩ 3).2 =
        die.advance ((engine.lagfib2plus 32 1 3).tap_max * (engine.lagfib2plus 32 1 3).digits)
          3 ∧
      ((engine.lagfib2plus 32 1 3).seed_gen die ⟨[5, 6, 7, 8], 2⟩ 3).2 = 99 ∧
      ((engine.lagfib2plus 32 1 3).seed_gen die ⟨[5, 6, 7, 8], 2⟩ 3).1.r.getD 3 0 = 8 :=
  ⟨by decide,
    (seed_draw_schedule (engine.lagfib2plus 32 1 3) die ⟨[5, 6, 7, 8], 2⟩ ⟨[5, 6, 7, 8], 2⟩
      (by decide) (by decide) 3 3).1,
    by decide, by decide⟩

/-! ## The named presets -/

theorem presets_check :
    ∀ e ∈ engine.presets, e.taps_increasing = true ∧
      (e.taps.all fun t => decide (1 ≤ t) && decide (t ≤ e.tap_max)) = true ∧
      decide (e.tap_max < e.size) = true ∧ decide (e.tap_max < 2 ^ 32) = true := by
  decide

/-- C40: every named preset of `lagfib2plus`, `lagfib2xor` and `lagfib4xor` has strictly
increasing taps (`A < B`, respectively `A < B < C < D`) that all lie in `[1, tap_max]`, and
its `tap_max` is strictly below its ring size `2 ^ ⌈log₂ tap_max⌉`; the `Ziff` presets have
the taps `471, 1586, 6988, 9689`. -/
theorem presets_taps_in_range :
    (∀ e ∈ engine.presets, e.taps_increasing = true ∧
      (∀ t ∈ e.taps, 1 ≤ t ∧ t ≤ e.tap_max) ∧ e.tap_max < e.size ∧
      e.size = 2 ^ Nat.clog 2 e.tap_max) ∧
    (∀ e ∈ lagfib4xor.Ziff, e.taps = [471, 1586, 6988, 9689] ∧ e ∈ engine.presets) ∧
    engine.presets.length = 104 := by
  refine ⟨?_, by decide, by decide⟩
  intro e he
  obtain ⟨h1, h2, h3, _⟩ := presets_check e he
  refine ⟨h1, ?_, of_decide_eq_true h3, utility_ceil2_eq_two_pow_clog _⟩
  intro t ht
  have := List.all_eq_true.1 h2 t ht
  simpa using this

/-! ## The cached normalisation of the beta param block; sampling through `icdf` -/

theorem fval_open_unit (u : fval) (h0 : fval.lt (.num 0) u = true)
    (h1 : fval.lt u (.num 1) = true) :
    u.lt (.num 0) = false ∧ u.gt (.num 1) = false ∧ u.eqb (.num 0) = false ∧
      u.eqb (.num 1) = false ∧ u.le (.num 0) = false ∧ u.ge (.num 1) = false := by
  cases u with
  | num q =>
    simp only [fval.lt, decide_eq_true_eq] at h0 h1
    simp only [fval.lt, fval.gt, fval.eqb, fval.le, fval.ge, decide_eq_false_iff_not, not_lt,
      not_le]
    exact ⟨le_of_lt h0, le_of_lt h1, ne_of_gt h0, ne_of_lt h1, h0, h1⟩
  | pinf => simp [fval.lt] at h1
  | ninf => simp [fval.lt] at h0
  | nan => simp [fval.lt] at h0

/-- C31: for every beta param block, the cached normalisation `norm` is the value of
`math::Beta(alpha, beta)` for the stored `alpha` and `beta` after default construction,
after construction from `(alpha, beta)`, after the setter `alpha(new)`, after the setter
`beta(new)` (whatever the block held before), and after a successful text parse, of the
block and of the distribution. -/
theorem beta_norm_is_Beta (extract_float : istream → istream × fval) (inp : istream)
    (p : beta_dist.param_type) (g : beta_dist) (a b : fval) :
    beta_dist.param_type.ctor0.norm =
      .Beta beta_dist.param_type.ctor0.alpha beta_dist.param_type.ctor0.beta ∧
    ((beta_dist.param_type.ctor a b).alpha = a ∧ (beta_dist.param_type.ctor a b).beta = b ∧
      (beta_dist.param_type.ctor a b).norm = .Beta a b) ∧
    ((p.set_alpha a).alpha = a ∧ (p.set_alpha a).beta = p.beta ∧
      (p.set_alpha a).norm = .Beta (p.set_alpha a).alpha (p.set_alpha a).beta) ∧
    ((p.set_beta b).alpha = p.alpha ∧ (p.set_beta b).beta = b ∧
      (p.set_beta b).norm = .Beta (p.set_beta b).alpha (p.set_beta b).beta) ∧
    ((beta_dist.param_type.read extract_float inp p).1.fail = false →
      (beta_dist.param_type.read extract_float inp p).2.norm =
        .Beta (beta_dist.param_type.read extract_float inp p).2.alpha
          (beta_dist.param_type.read extract_float inp p).2.beta) ∧
    ((beta_dist.read extract_float inp g).1.fail = false →
      (beta_dist.read extract_float inp g).2.p.norm =
        .Beta (beta_dist.read extract_float inp g).2.p.alpha
          (beta_dist.read extract_float inp g).2.p.beta) := by
  have hread : ∀ (i : istream) (q : beta_dist.param_type),
      q.norm = .Beta q.alpha q.beta →
      (beta_dist.param_type.read extract_float i q).2.norm =
        .Beta (beta_dist.param_type.read extract_float i q).2.alpha
          (beta_dist.param_type.read extract_float i q).2.beta := by
    intro i q hq
    unfold beta_dist.param_type.read
    dsimp only
    split
    · exact hq
    · rfl
  refine ⟨rfl, ⟨rfl, rfl, rfl⟩, ⟨rfl, rfl, rfl⟩, ⟨rfl, rfl, rfl⟩, ?_, ?_⟩
  · intro h
    unfold beta_dist.param_type.read at h ⊢
    dsimp only at h ⊢
    split
    · rename_i hf
      rw [if_pos hf] at h
      rw [hf] at h
      exact absurd h (by simp)
    · rfl
  · intro h
    unfold beta_dist.read at h ⊢
    dsimp only at h ⊢
    split
    · rename_i hf
      rw [if_pos hf] at h
      rw [hf] at h
      exact absurd h (by simp)
    · exact hread _ _ rfl

theorem beta_norm_is_Beta_witness :
    (beta_dist.param_type.read extract_float_example ⟨['(', '2', ' ', '5', ')'], false⟩
        (beta_dist.param_type.ctor (.num 3) (.num 4))).1.fail = false ∧
      (beta_dist.param_type.read extract_float_example ⟨['(', '2', ' ', '5', ')'], false⟩
        (beta_dist.param_type.ctor (.num 3) (.num 4))).2.norm =
        .Beta (beta_dist.param_type.read extract_float_example
            ⟨['(', '2', ' ', '5', ')'], false⟩
            (beta_dist.param_type.ctor (.num 3) (.num 4))).2.alpha
          (beta_dist.param_type.read extract_float_example
            ⟨['(', '2', ' ', '5', ')'], false⟩
            (beta_dist.param_type.ctor (.num 3) (.num 4))).2.beta ∧
      (beta_dist.read extract_float_example
        ⟨['[', 'b', 'e', 't', 'a', ' ', '(', '2', ' ', '5', ')', ']'], false⟩
        (beta_dist.ctor (.num 3) (.num 4))).1.fail = false :=
  ⟨by decide,
    (beta_norm_is_Beta extract_float_example ⟨['(', '2', ' ', '5', ')'], false⟩
      (beta_dist.param_type.ctor (.num 3) (.num 4)) (beta_dist.ctor (.num 3) (.num 4))
      (.num 2) (.num 5)).2.2.2.2.1 (by decide),
    by decide⟩

/-- C32: for the normal, the beta and the Student t distribution and every engine, the
call `operator()(engine)` returns `icdf(u)` for the `uniformoo` draw `u` that it takes from
the engine, `0 < u < 1` (for the beta and the Student t distribution `icdf(u)` then passes
its guards, leaves `errno` alone and makes the same call as `operator()`), and leaves the
engine in the state after that one draw. -/
theorem sample_is_icdf {σ K : Type} [Field K] (uniformoo : σ → fval × σ)
    (uniformoo_K : σ → K × σ) (inv_Phi : K → K) (r : σ) (errno : Nat) (gb : beta_dist)
    (gt : student_t_dist) (pn : normal_dist.param_type K)
    (h0 : fval.lt (.num 0) (uniformoo r).1 = true)
    (h1 : fval.lt (uniformoo r).1 (.num 1) = true) :
    (beta_dist.icdf gb errno (uniformoo r).1 = ((beta_dist.sample gb uniformoo r).1, errno) ∧
      (beta_dist.sample gb uniformoo r).2 = (uniformoo r).2) ∧
    (student_t_dist.icdf gt errno (uniformoo r).1 =
        ((student_t_dist.sample gt uniformoo r).1, errno) ∧
      (student_t_dist.sample gt uniformoo r).2 = (uniformoo r).2) ∧
    ((normal_dist.sample inv_Phi pn uniformoo_K r).1 =
        normal_dist.icdf inv_Phi pn (uniformoo_K r).1 ∧
      (normal_dist.sample inv_Phi pn uniformoo_K r).2 = (uniformoo_K r).2) := by
  obtain ⟨a1, a2, a3, a4, a5, a6⟩ := fval_open_unit _ h0 h1
  refine ⟨⟨?_, rfl⟩, ⟨?_, rfl⟩, rfl, rfl⟩
  · simp [beta_dist.icdf, beta_dist.sample, a1, a2, a3, a4]
  · simp [student_t_dist.icdf, student_t_dist.sample, a3, a4, a5, a6]

theorem sample_is_icdf_witness :
    fval.lt (.num 0) (half_draw 0).1 = true ∧ fval.lt (half_draw 0).1 (.num 1) = true ∧
      beta_dist.icdf (beta_dist.ctor (.num 2) (.num 5)) 0 (half_draw 0).1 =
        ((beta_dist.sample (beta_dist.ctor (.num 2) (.num 5)) half_draw 0).1, 0) ∧
      student_t_dist.icdf (student_t_dist.ctor 7) 0 (half_draw 0).1 =
        ((student_t_dist.sample (student_t_dist.ctor 7) half_draw 0).1, 0) ∧
      (beta_dist.sample (beta_dist.ctor (.num 2) (.num 5)) half_draw 0).2 = 1 :=
  ⟨by norm_num [half_draw, fval.lt], by norm_num [half_draw, fval.lt],
    (sample_is_icdf half_draw half_draw_rat id 0 0 (beta_dist.ctor (.num 2) (.num 5))
      (student_t_dist.ctor 7) normal_dist.param_type.ctor0
      (by norm_num [half_draw, fval.lt]) (by norm_num [half_draw, fval.lt])).1.1,
    (sample_is_icdf half_draw half_draw_rat id 0 0 (beta_dist.ctor (.num 2) (.num 5))
      (student_t_dist.ctor 7) normal_dist.param_type.ctor0
      (by norm_num [half_draw, fval.lt]) (by norm_num [half_draw, fval.lt])).2.1.1,
    rfl⟩

/-- C33: for every normal distribution `normal(mu, sigma)` and every `d`,
`pdf(mu - d) = pdf(mu + d)`, the arithmetic read over a field (the reals, with `exp` a
function); in particular for `normal(0, 1)` over the reals, `pdf(-1.5) = pdf(1.5)`. -/
theorem normal_pdf_symmetric :
    (∀ (K : Type) (_ : Field K) (exp : K → K) (c : K) (p : normal_dist.param_type K) (d : K),
      normal_dist.pdf exp c p (p.mu - d) = normal_dist.pdf exp c p (p.mu + d)) ∧
    normal_dist.pdf Real.exp (1 / Real.sqrt (2 * Real.pi)) ⟨0, 1⟩ (-(3 / 2)) =
      normal_dist.pdf Real.exp (1 / Real.sqrt (2 * Real.pi)) ⟨0, 1⟩ (3 / 2) := by
  have h : ∀ (K : Type) (_ : Field K) (exp : K → K) (c : K) (p : normal_dist.param_type K)
      (d : K), normal_dist.pdf exp c p (p.mu - d) = normal_dist.pdf exp c p (p.mu + d) := by
    intro K _ exp c p d
    unfold normal_dist.pdf
    have e1 : (p.mu - d - p.mu) * (p.mu - d - p.mu) = (p.mu + d - p.mu) * (p.mu + d - p.mu) := by
      ring
    rw [e1]
  refine ⟨h, ?_⟩
  have h2 := h ℝ inferInstance Real.exp (1 / Real.sqrt (2 * Real.pi)) ⟨0, 1⟩ (3 / 2)
  simpa using h2

theorem extract_int_to_dec_int (n : Int) (hlo : -2147483648 ≤ n) (hhi : n < 2147483648)
    (old : Int) (x : Char) (tl : List Char) (hx : x.isDigit = false) :
    extract_int ⟨to_dec_int n ++ x :: tl, false⟩ old = (⟨x :: tl, false⟩, n) := by
  by_cases hn : n < 0
  · have hm : n.natAbs < 2147483649 := by omega
    have hb : to_dec_int n ++ x :: tl = '-' :: (to_dec n.natAbs ++ x :: tl) := by
      rw [to_dec_int, if_pos hn]
      rfl
    have he := extract_magnitude_to_dec 2147483649 n.natAbs hm x tl hx
    rw [hb]
    unfold extract_int
    simp only [Bool.false_eq_true, if_false, if_true, he]
    congr 1
    omega
  · have hm : n.toNat < 2147483648 := by omega
    obtain ⟨c, cs, hc, hdig⟩ := to_dec_head n.toNat
    have hb : to_dec_int n ++ x :: tl = c :: (cs ++ x :: tl) := by
      rw [to_dec_int, if_neg hn, hc]
      rfl
    have he := extract_magnitude_to_dec 2147483648 n.toNat hm x tl hx
    rw [hc] at he
    have he2 : extract_magnitude 2147483648 (c :: (cs ++ x :: tl)) =
        (⟨x :: tl, false⟩, n.toNat) := he
    rw [hb]
    unfold extract_int
    simp only [Bool.false_eq_true, if_false, (isDigit_ne_sign c hdig).1,
      (isDigit_ne_sign c hdig).2, he2]
    congr 1
    omega

theorem student_t_param_read_write (nu : Int) (hlo : -2147483648 ≤ nu) (hhi : nu < 2147483648)
    (p : student_t_dist.param_type) (x : Char) (tl : List Char) :
    student_t_dist.param_type.read
        ⟨student_t_dist.param_type.write ⟨nu⟩ ++ x :: tl, false⟩ p =
      (⟨x :: tl, false⟩, ⟨nu⟩) := by
  have hb : student_t_dist.param_type.write ⟨nu⟩ ++ x :: tl =
      '(' :: (to_dec_int nu ++ ')' :: (x :: tl)) := by
    simp [student_t_dist.param_type.write]
  unfold student_t_dist.param_type.read
  rw [hb, delim_cons, extract_int_to_dec_int nu hlo hhi 0 ')' (x :: tl) (by decide)]
  dsimp only
  rw [delim_cons]
  rfl

/-- An extraction of an `int` that does not fail has consumed the text of an `int`. -/
theorem extract_int_ok (inp : istream) (old : Int)
    (h : (extract_int inp old).1.fail = false) :
    inp.fail = false ∧ ∃ t, is_int_text t ∧ inp.buf = t ++ (extract_int inp old).1.buf := by
  obtain ⟨buf, fl⟩ := inp
  cases fl with
  | true => simp [extract_int] at h
  | false =>
    refine ⟨rfl, ?_⟩
    cases buf with
    | nil => simp [extract_int] at h
    | cons c cs =>
      by_cases hm : c = '-'
      · have e1 : (extract_int ⟨c :: cs, false⟩ old).1 =
            (extract_magnitude 2147483649 cs).1 := by
          simp [extract_int, hm]
        rw [e1] at h ⊢
        obtain ⟨ds, h1, h2, _⟩ := extract_magnitude_ok 2147483649 cs h
        refine ⟨'-' :: ds, ⟨ds, Or.inr ⟨h1, rfl⟩⟩, ?_⟩
        show c :: cs = '-' :: ds ++ (extract_magnitude 2147483649 cs).1.buf
        rw [hm, List.cons_append, ← h2]
      · by_cases hp : c = '+'
        · have e1 : (extract_int ⟨c :: cs, false⟩ old).1 =
              (extract_magnitude 2147483648 cs).1 := by
            simp [extract_int, hp]
          rw [e1] at h ⊢
          obtain ⟨ds, h1, h2, _⟩ := extract_magnitude_ok 2147483648 cs h
          refine ⟨'+' :: ds, ⟨ds, Or.inl ⟨h1, Or.inr rfl⟩⟩, ?_⟩
          show c :: cs = '+' :: ds ++ (extract_magnitude 2147483648 cs).1.buf
          rw [hp, List.cons_append, ← h2]
        · have e1 : (extract_int ⟨c :: cs, false⟩ old).1 =
              (extract_magnitude 2147483648 (c :: cs)).1 := by
            simp [extract_int, hm, hp]
          rw [e1] at h ⊢
          obtain ⟨ds, h1, h2, _⟩ := extract_magnitude_ok 2147483648 (c :: cs) h
          exact ⟨ds, ⟨ds, Or.inl ⟨h1, Or.inl rfl⟩⟩, h2⟩

/-- An extraction of an `int` from the text of an `int` followed by a non-digit does not
fail and consumes exactly that text. -/
theorem extract_int_text (old : Int) (t : List Char) (x : Char) (tl : List Char)
    (ht : is_int_text t) (hx : x.isDigit = false) :
    (extract_int ⟨t ++ x :: tl, false⟩ old).1 = ⟨x :: tl, false⟩ := by
  obtain ⟨ds, hcase⟩ := ht
  rcases hcase with ⟨hds, rfl | rfl⟩ | ⟨hds, rfl⟩
  · have hm := extract_magnitude_number 2147483648 t x tl hds hx
    obtain ⟨c, cs, rfl⟩ : ∃ c cs, t = c :: cs := by
      cases t with
      | nil => exact absurd rfl hds.1
      | cons c cs => exact ⟨c, cs, rfl⟩
    have hc := hds.2.1 c (List.mem_cons_self c cs)
    rw [List.cons_append] at hm ⊢
    unfold extract_int
    simp only [Bool.false_eq_true, if_false, (isDigit_ne_sign c hc).1,
      (isDigit_ne_sign c hc).2, hm]
  · have hm := extract_magnitude_number 2147483648 ds x tl hds hx
    rw [List.cons_append]
    unfold extract_int
    simp only [Bool.false_eq_true, if_false, if_true, hm]
    rfl
  · have hm := extract_magnitude_number 2147483649 ds x tl hds hx
    rw [List.cons_append]
    unfold extract_int
    simp only [Bool.false_eq_true, if_false, if_true, hm]

theorem student_t_read_fst (inp : istream) (g : student_t_dist) :
    (student_t_dist.read inp g).1 =
      delim ']' (delim ')' (extract_int (delim '('
        (delim_str ['[', 's', 't', 'u', 'd', 'e', 'n', 't', '_', 't', ' ']
          (ignore_spaces inp))) 0).1) := by
  unfold student_t_dist.read student_t_dist.param_type.read
  dsimp only
  split <;> split <;> rfl

theorem student_t_read_unchanged (inp : istream) (g : student_t_dist)
    (h : (student_t_dist.read inp g).1.fail = true) : (student_t_dist.read inp g).2 = g := by
  unfold student_t_dist.read at h ⊢
  dsimp only at h ⊢
  split
  · rfl
  · rename_i hf
    rw [if_neg hf] at h
    exact absurd h hf

/-- A text that `operator>>` of `student_t_dist` reads without failure is of the accepted
form. -/
theorem student_t_read_ok (inp : istream) (g : student_t_dist)
    (h : (student_t_dist.read inp g).1.fail = false) :
    student_t_dist.accepted_form inp.buf := by
  rw [student_t_read_fst] at h
  obtain ⟨h1, e1⟩ := delim_ok ']' _ h
  obtain ⟨h2, e2⟩ := delim_ok ')' _ h1
  obtain ⟨h3, t, ht, e3⟩ := extract_int_ok _ 0 h2
  obtain ⟨h4, e4⟩ := delim_ok '(' _ h3
  obtain ⟨h5, e5⟩ := delim_str_ok _ _ h4
  obtain ⟨_, ws, hws, e6⟩ := ignore_spaces_ok inp h5
  refine ⟨ws, t, (student_t_dist.read inp g).1.buf, hws, ht, ?_⟩
  rw [student_t_read_fst, e6, e5, e4, e3, e2, e1]
  simp [List.append_assoc]

/-- A text of the accepted form is read by `operator>>` of `student_t_dist` without
failure. -/
theorem student_t_read_accepts (text : List Char) (g : student_t_dist)
    (h : student_t_dist.accepted_form text) :
    (student_t_dist.read ⟨text, false⟩ g).1.fail = false := by
  obtain ⟨ws, t, rest, hws, ht, rfl⟩ := h
  have hbuf : ws ++ ['[', 's', 't', 'u', 'd', 'e', 'n', 't', '_', 't', ' ', '('] ++ t ++
      ')' :: ']' :: rest =
      ws ++ '[' :: (['s', 't', 'u', 'd', 'e', 'n', 't', '_', 't', ' '] ++
        '(' :: (t ++ ')' :: ']' :: rest)) := by
    simp [List.append_assoc]
  have hd : delim_str ['[', 's', 't', 'u', 'd', 'e', 'n', 't', '_', 't', ' ']
      ⟨'[' :: (['s', 't', 'u', 'd', 'e', 'n', 't', '_', 't', ' '] ++
        '(' :: (t ++ ')' :: ']' :: rest)), false⟩ =
      ⟨'(' :: (t ++ ')' :: ']' :: rest), false⟩ :=
    delim_str_append ['[', 's', 't', 'u', 'd', 'e', 'n', 't', '_', 't', ' '] _
  rw [student_t_read_fst, hbuf, ignore_spaces_append ws _ hws, hd, delim_cons,
    extract_int_text 0 t ')' (']' :: rest) ht (by decide), delim_cons, delim_cons]

/-- C34: for every `int` value `nu`, a Student t distribution with parameter `nu` is written
as `[student_t (` followed by `nu` in decimal followed by `)]`; reading that text (followed
by anything) into any Student t distribution `g` succeeds, consumes exactly that text and
yields the original distribution, with the parameter `nu`; and for every text that is not
of the form `operator>>` accepts (optional white space, `[student_t (`, the text of an
`int`, `)]`), the extraction reports failure and leaves the target distribution unchanged. -/
theorem student_t_text_round_trip (nu : Int) (hlo : -2147483648 ≤ nu) (hhi : nu < 2147483648)
    (g : student_t_dist) (rest : List Char) (inp : istream) :
    student_t_dist.write (student_t_dist.ctor nu) =
      "[student_t (".toList ++ to_dec_int nu ++ ")]".toList ∧
    student_t_dist.read ⟨student_t_dist.write (student_t_dist.ctor nu) ++ rest, false⟩ g =
      (⟨rest, false⟩, student_t_dist.ctor nu) ∧
    (student_t_dist.read
      ⟨student_t_dist.write (student_t_dist.ctor nu) ++ rest, false⟩ g).2.param.nu = nu ∧
    (¬ student_t_dist.accepted_form inp.buf →
      (student_t_dist.read inp g).1.fail = true ∧ (student_t_dist.read inp g).2 = g) := by
  have hw : student_t_dist.write (student_t_dist.ctor nu) =
      "[student_t (".toList ++ to_dec_int nu ++ ")]".toList := by
    simp [student_t_dist.write, student_t_dist.param, student_t_dist.ctor,
      student_t_dist.param_type.write]
  have hr : student_t_dist.read
      ⟨student_t_dist.write (student_t_dist.ctor nu) ++ rest, false⟩ g =
      (⟨rest, false⟩, student_t_dist.ctor nu) := by
    have hb : student_t_dist.write (student_t_dist.ctor nu) ++ rest =
        '[' :: (['s', 't', 'u', 'd', 'e', 'n', 't', '_', 't', ' '] ++
          (student_t_dist.param_type.write ⟨nu⟩ ++ ']' :: rest)) := by
      simp [student_t_dist.write, student_t_dist.param, student_t_dist.ctor]
    unfold student_t_dist.read
    rw [hb, ignore_spaces_bracket]
    have hd : delim_str ['[', 's', 't', 'u', 'd', 'e', 'n', 't', '_', 't', ' ']
        ⟨'[' :: (['s', 't', 'u', 'd', 'e', 'n', 't', '_', 't', ' '] ++
          (student_t_dist.param_type.write ⟨nu⟩ ++ ']' :: rest)), false⟩ =
        ⟨student_t_dist.param_type.write ⟨nu⟩ ++ ']' :: rest, false⟩ :=
      delim_str_append ['[', 's', 't', 'u', 'd', 'e', 'n', 't', '_', 't', ' '] _
    rw [hd, student_t_param_read_write nu hlo hhi ⟨1⟩ ']' rest]
    dsimp only
    rw [delim_cons]
    rfl
  refine ⟨hw, hr, ?_, ?_⟩
  · rw [hr]
    rfl
  · intro hna
    have hf : (student_t_dist.read inp g).1.fail = true := by
      cases hfl : (student_t_dist.read inp g).1.fail with
      | true => rfl
      | false => exact absurd (student_t_read_ok inp g hfl) hna
    exact ⟨hf, student_t_read_unchanged inp g hf⟩

theorem student_t_text_no_form : ¬ student_t_dist.accepted_form "[normal (0 1)]".toList := by
  intro h
  have := student_t_read_accepts _ (student_t_dist.ctor 3) h
  revert this
  decide

/-- Witness for C34: the distributions with `nu = 7` and `nu = -12`, and the text of a
normal distribution, which is not of the accepted form. -/
theorem student_t_text_round_trip_witness :
    (-2147483648 : Int) ≤ 7 ∧ (7 : Int) < 2147483648 ∧
      student_t_dist.write (student_t_dist.ctor 7) =
        "[student_t (".toList ++ to_dec_int 7 ++ ")]".toList ∧
      student_t_dist.write (student_t_dist.ctor 7) = "[student_t (7)]".toList ∧
      student_t_dist.write (student_t_dist.ctor (-12)) = "[student_t (-12)]".toList ∧
      student_t_dist.read ⟨"[student_t (-12)] tail".toList, false⟩ (student_t_dist.ctor 3) =
        (⟨" tail".toList, false⟩, student_t_dist.ctor (-12)) ∧
      ¬ student_t_dist.accepted_form (istream.mk "[normal (0 1)]".toList false).buf ∧
      ((student_t_dist.read ⟨"[normal (0 1)]".toList, false⟩ (student_t_dist.ctor 3)).1.fail =
          true ∧
        (student_t_dist.read ⟨"[normal (0 1)]".toList, false⟩ (student_t_dist.ctor 3)).2 =
          student_t_dist.ctor 3) ∧
      student_t_dist.read ⟨"[normal (0 1)]".toList, false⟩ (student_t_dist.ctor 3) =
        (⟨"normal (0 1)]".toList, true⟩, student_t_dist.ctor 3) :=
  ⟨by decide, by decide,
    (student_t_text_round_trip 7 (by decide) (by decide) (student_t_dist.ctor 3) []
      ⟨"[normal (0 1)]".toList, false⟩).1,
    by decide, by decide, by decide, student_t_text_no_form,
    (student_t_text_round_trip 7 (by decide) (by decide) (student_t_dist.ctor 3) []
      ⟨"[normal (0 1)]".toList, false⟩).2.2.2 student_t_text_no_form,
    by decide⟩

end trng
